import Mathlib

/-!
# Verification of the markdown-backed plan engine

This file is a shallow embedding of `utils/plans.py`: the plan-state data
model, the tolerant JSON-state coercer, the document codec (markdown
serializer, sentinel-regex extraction, JSON encode/decode), and the plan
operations (`create_plan`, `update_plan`, `decompose_task`, `set_subgoals`,
`track_progress`, `reflect_on_plan`).

Modeling conventions:
* Python `str` values are modeled as `List Char` (sequences of code points).
  Whitespace classes (`str.strip`, `str.split`, the `\s` of `re`, JSON
  whitespace) are modeled by their ASCII fragments; the Unicode extensions
  of those classes never matter for the properties proved here.
* Python `bool` is an `int` subtype (`True == 1`, `False == 0`); values that
  reach an `isinstance(x, int)` check as booleans are therefore modeled by
  the integers `1` / `0`.
* Python `float` arithmetic occurs only in `_recompute_percent_from_steps`
  (`int(round((completed / len(steps)) * 100))`); it is modeled as IEEE-754
  binary64 arithmetic (`floatPercent`): the division and the multiplication
  each round their exact rational value to the nearest double (ties to
  even, subnormals and underflow included; overflow cannot arise for these
  bounded values), and `round` then rounds the resulting double
  half-to-even.  This differs from rounding the exact rational — e.g. 23
  completed of 40 stores 57, not 58.  JSON float literals
  are carried as exact `mantissa × 10 ^ exponent` pairs; their `str()` /
  `repr()` rendering is an abstract stand-in (only its non-emptiness is
  ever used).
* `datetime.now(...).isoformat()` is modeled by an explicit `now : Str`
  parameter; within a single call every clock read returns this value.
* Effects: file contents are passed explicitly (`Option Str`: `none` means
  the file does not exist); `OSError` outcomes of `write_text` / `unlink`
  are supplied as explicit boolean oracles.  A Python `TypeError` escaping
  a function (which no caller catches) is modeled as `Except.error` of a
  distinguished exception value.
-/

deriving instance DecidableEq for Except

namespace Plans

/-- Python strings, as lists of code points. -/
abbrev Str := List Char

/-- The code points of a Lean string literal. -/
def lit (s : String) : Str := s.toList

/-- ASCII fragment of Python's `str` whitespace (`strip`/`split` class). -/
def isPyWs (c : Char) : Bool :=
  c == ' ' || c == '\t' || c == '\n' || c == '\r' || c == '\x0b' || c == '\x0c'

/-- Strip characters satisfying `p` from the left. -/
def stripLeftIf (p : Char → Bool) (s : Str) : Str := s.dropWhile p

/-- Strip characters satisfying `p` from both ends (Python `str.strip`). -/
def stripIf (p : Char → Bool) (s : Str) : Str :=
  ((s.dropWhile p).reverse.dropWhile p).reverse

/-- Python `s.strip()` (no argument: whitespace). -/
def pyStrip (s : Str) : Str := stripIf isPyWs s

/-- Python `s.strip(chars)`: strip any of the given characters. -/
def pyStripSet (chars : Str) (s : Str) : Str := stripIf (fun c => chars.contains c) s

/-- Python `s.split()` (no argument): maximal non-whitespace runs. -/
def pySplitWs (s : Str) : List Str :=
  (List.splitOnP isPyWs s).filter (fun t => ¬ t.isEmpty)

/-- Python `sep.join(parts)`. -/
def joinSep (sep : Str) : List Str → Str
  | [] => []
  | [x] => x
  | x :: y :: xs => x ++ sep ++ joinSep sep (y :: xs)

/-- `" ".join(task.split())`, the whitespace normalization of `decompose_task`. -/
def normWsJoin (s : Str) : Str := joinSep [' '] (pySplitWs s)

/-- Decimal digit character. -/
def digitChar (d : Nat) : Char := Char.ofNat (48 + d)

/-- Decimal digits of `n`, most significant first (auxiliary, fuel-driven;
the fuel only needs to exceed the number of digits). -/
def natDecAux : Nat → Nat → Str
  | 0, _ => []
  | _, 0 => []
  | fuel + 1, n => natDecAux fuel (n / 10) ++ [digitChar (n % 10)]

/-- Decimal rendering of a natural number (Python `str(n)` for `n ≥ 0`). -/
def natDec (n : Nat) : Str := if n = 0 then ['0'] else natDecAux n n

/-- Decimal rendering of an integer (Python `str(i)`). -/
def intDec (i : Int) : Str := if i < 0 then '-' :: natDec i.natAbs else natDec i.natAbs

/-- A decoded JSON value as Python sees it.  Integer literals are `jint`,
non-integer number literals are `jfloat mant exp10` (the exact value
`mant × 10 ^ exp10`; CPython's shortest-repr float rendering is abstracted).
Objects model Python dicts: keys are unique, in insertion order. -/
inductive JValue where
  | jnull
  | jbool (b : Bool)
  | jint (n : Int)
  | jfloat (mant : Int) (exp10 : Int)
  | jstr (s : Str)
  | jarr (xs : List JValue)
  | jobj (kvs : List (Str × JValue))

/-- The double-quote character. -/
def dqChar : Char := Char.ofNat 34

/-- The single-quote character. -/
def sqChar : Char := Char.ofNat 39

/-- The backslash character. -/
def bsChar : Char := '\\'

/-- Hexadecimal digit character (lowercase), for `d < 16`. -/
def hexChar (d : Nat) : Char :=
  if d < 10 then Char.ofNat (48 + d) else Char.ofNat (87 + d)

/-- Quote character CPython `repr` picks for a string: `'`, unless the string
contains `'` but no `"`. -/
def reprQuote (s : Str) : Char :=
  if s.contains sqChar && ¬ s.contains dqChar then dqChar else sqChar

/-- One character of CPython string `repr` under quote `q` (ASCII-accurate;
printable characters, including non-ASCII, are kept literal). -/
def reprEscChar (q c : Char) : Str :=
  if c == bsChar || c == q then [bsChar, c]
  else if c == '\n' then [bsChar, 'n']
  else if c == '\r' then [bsChar, 'r']
  else if c == '\t' then [bsChar, 't']
  else if c.toNat < 32 || c.toNat == 127 then
    [bsChar, 'x', hexChar (c.toNat / 16 % 16), hexChar (c.toNat % 16)]
  else [c]

/-- CPython `repr` of a string. -/
def pyReprStr (s : Str) : Str :=
  let q := reprQuote s
  q :: (s.flatMap (reprEscChar q) ++ [q])

/-- Abstract stand-in for CPython float rendering (exact value
`m × 10 ^ e`); only non-emptiness of this rendering is ever relied on. -/
def floatDec (m e : Int) : Str := intDec m ++ 'e' :: intDec e

mutual
/-- Python `str(v)` (`top = true`) and `repr(v)` (`top = false`) of a decoded
JSON value.  They differ only on strings; containers render their elements
with `repr`. -/
def pyStrT : Bool → JValue → Str
  | _, .jnull => lit "None"
  | _, .jbool true => lit "True"
  | _, .jbool false => lit "False"
  | _, .jint n => intDec n
  | _, .jfloat m e => floatDec m e
  | top, .jstr s => if top then s else pyReprStr s
  | _, .jarr xs => '[' :: (pyStrElems xs ++ [']'])
  | _, .jobj kvs => '{' :: (pyStrPairs kvs ++ ['}'])
/-- `", ".join(repr(x) for x in xs)`. -/
def pyStrElems : List JValue → Str
  | [] => []
  | [x] => pyStrT false x
  | x :: y :: xs => pyStrT false x ++ lit ", " ++ pyStrElems (y :: xs)
/-- `", ".join(repr(k) + ": " + repr(v) ...)`. -/
def pyStrPairs : List (Str × JValue) → Str
  | [] => []
  | [(k, v)] => pyReprStr k ++ lit ": " ++ pyStrT false v
  | (k, v) :: p :: kvs =>
      pyReprStr k ++ lit ": " ++ pyStrT false v ++ lit ", " ++ pyStrPairs (p :: kvs)
end

/-- Python `str(v)`. -/
def pyStr (v : JValue) : Str := pyStrT true v

/-- Python truthiness of a decoded JSON value. -/
def truthy : JValue → Bool
  | .jnull => false
  | .jbool b => b
  | .jint n => n != 0
  | .jfloat m _ => m != 0
  | .jstr s => ¬ s.isEmpty
  | .jarr xs => ¬ xs.isEmpty
  | .jobj kvs => ¬ kvs.isEmpty

/-- Python iteration over a decoded JSON value: lists yield elements, strings
yield their characters, dicts yield their keys; other values raise
`TypeError` (`none`). -/
def iterElems : JValue → Option (List JValue)
  | .jstr s => some (s.map (fun c => JValue.jstr [c]))
  | .jarr xs => some xs
  | .jobj kvs => some (kvs.map (fun kv => JValue.jstr kv.1))
  | _ => none

/-- A Python exception escaping the plan engine (no caller catches these). -/
inductive PyExc where
  | typeError
  deriving DecidableEq

/-- Order-preserving dedup-and-strip loop of `_normalize_text_items`:
`seen` is the set of already-emitted entries. -/
def normStrsGo (seen : List Str) : List Str → List Str
  | [] => []
  | x :: xs =>
      let t := pyStrip x
      if t.isEmpty || seen.contains t then normStrsGo seen xs
      else t :: normStrsGo (t :: seen) xs

/-- `_normalize_text_items` on a list of strings already in hand. -/
def normStrs (xs : List Str) : List Str := normStrsGo [] xs

/-- `_normalize_text_items(values)` on an arbitrary decoded value, as the
reflection coercer calls it: falsy values yield `[]`; truthy non-iterables
raise `TypeError`; otherwise each element is `str(...).strip()`-ped, with
empties and duplicates dropped. -/
def normalize_text_items (v : JValue) : Except PyExc (List Str) :=
  if truthy v = false then .ok []
  else
    match iterElems v with
    | none => .error .typeError
    | some raws => .ok (normStrs (raws.map pyStr))

/-- `dict.get(key)` on a decoded JSON object. -/
def jGet (kvs : List (Str × JValue)) (k : Str) : Option JValue :=
  (kvs.find? (fun kv => kv.1 == k)).map (fun kv => kv.2)

/-- `dict.get(key, default)`. -/
def jGetD (kvs : List (Str × JValue)) (k : Str) (d : JValue) : JValue :=
  (jGet kvs k).getD d

/-- The valid checklist statuses (`VALID_STATUSES`). -/
def VALID_STATUSES : List Str :=
  [lit "pending", lit "in_progress", lit "completed", lit "blocked"]

/-- A checklist item (used for both steps and subgoals). -/
structure ChecklistItem where
  id : Nat
  description : Str
  status : Str
  deriving DecidableEq

/-- A progress-log entry. -/
structure ProgressEntry where
  timestamp : Str
  message : Str
  percent_complete : Option Int
  deriving DecidableEq

/-- A reflection entry. -/
structure Reflection where
  timestamp : Str
  summary : Str
  risks : List Str
  next_actions : List Str
  deriving DecidableEq

/-- The plan state persisted in the document's JSON block. -/
structure PlanState where
  task : Str
  status : Str
  created_at : Str
  updated_at : Str
  percent_complete : Option Int
  steps : List ChecklistItem
  subgoals : List ChecklistItem
  progress_log : List ProgressEntry
  reflections : List Reflection
  deriving DecidableEq

/-- The raw (description, status) extraction of `_coerce_item_list` for one
entry: dict entries read `description` / `status` (with defaults), other
entries stringify to the description with status `pending`; empty
descriptions drop the entry, unknown statuses fall back to `pending`. -/
def coerceItemRaw (raw : JValue) : Option (Str × Str) :=
  let ds : Str × Str :=
    match raw with
    | .jobj kvs =>
        (pyStrip (pyStr (jGetD kvs (lit "description") (.jstr []))),
         pyStrip (pyStr (jGetD kvs (lit "status") (.jstr (lit "pending")))))
    | _ => (pyStrip (pyStr raw), lit "pending")
  if ds.1.isEmpty then none
  else some (ds.1, if VALID_STATUSES.contains ds.2 then ds.2 else lit "pending")

/-- Renumber surviving items densely from `i` (the `enumerate(..., start=1)`
rebuild). -/
def enumItems (i : Nat) : List (Str × Str) → List ChecklistItem
  | [] => []
  | (d, st) :: rest => ⟨i, d, st⟩ :: enumItems (i + 1) rest

/-- `_coerce_item_list(raw_items)`. -/
def coerce_item_list (v : JValue) : List ChecklistItem :=
  match v with
  | .jarr raws => enumItems 1 (raws.filterMap coerceItemRaw)
  | _ => []

/-- The `isinstance(x, int)` view of a decoded value (`None` otherwise);
Python booleans are ints with values 1 / 0. -/
def asPyInt : Option JValue → Option Int
  | some (.jint n) => some n
  | some (.jbool b) => some (if b then 1 else 0)
  | _ => none

/-- One entry of `_coerce_progress`: non-dicts and empty messages are
dropped, blank timestamps default to the current time, non-int percents
become null. -/
def coerceProgressEntry (now : Str) (e : JValue) : Option ProgressEntry :=
  match e with
  | .jobj kvs =>
      let message := pyStrip (pyStr (jGetD kvs (lit "message") (.jstr [])))
      let ts0 := pyStrip (pyStr (jGetD kvs (lit "timestamp") (.jstr [])))
      let timestamp := if ts0.isEmpty then now else ts0
      if message.isEmpty then none
      else some ⟨timestamp, message, asPyInt (jGet kvs (lit "percent_complete"))⟩
  | _ => none

/-- `_coerce_progress(raw_progress)`. -/
def coerce_progress (now : Str) (v : JValue) : List ProgressEntry :=
  match v with
  | .jarr entries => entries.filterMap (coerceProgressEntry now)
  | _ => []

/-- The entry loop of `_coerce_reflections`: non-dicts and empty summaries
are skipped before the risky `_normalize_text_items` calls, whose
`TypeError` (on truthy non-iterable `risks` / `next_actions`) propagates. -/
def coerceReflList (now : Str) : List JValue → Except PyExc (List Reflection)
  | [] => .ok []
  | e :: rest =>
      match e with
      | .jobj kvs =>
          let summary := pyStrip (pyStr (jGetD kvs (lit "summary") (.jstr [])))
          let ts0 := pyStrip (pyStr (jGetD kvs (lit "timestamp") (.jstr [])))
          let timestamp := if ts0.isEmpty then now else ts0
          if summary.isEmpty then coerceReflList now rest
          else do
            let risks ← normalize_text_items (jGetD kvs (lit "risks") .jnull)
            let next_actions ← normalize_text_items (jGetD kvs (lit "next_actions") .jnull)
            let tail ← coerceReflList now rest
            return ⟨timestamp, summary, risks, next_actions⟩ :: tail
      | _ => coerceReflList now rest

/-- `_coerce_reflections(raw_reflections)`. -/
def coerce_reflections (now : Str) (v : JValue) : Except PyExc (List Reflection) :=
  match v with
  | .jarr entries => coerceReflList now entries
  | _ => .ok []

/-- `_coerce_state(raw_state)`: coerce a decoded JSON object to the expected
plan-state shape.  Timestamps default to the current time, unknown statuses
fall back to `active`, out-of-range or non-int `percent_complete` becomes
absent, and the four collections are coerced as above. -/
def coerce_state (now : Str) (raw : List (Str × JValue)) : Except PyExc PlanState := do
  let created0 := pyStrip (pyStr (jGetD raw (lit "created_at") (.jstr [])))
  let created_at := if created0.isEmpty then now else created0
  let updated0 := pyStrip (pyStr (jGetD raw (lit "updated_at") (.jstr [])))
  let updated_at := if updated0.isEmpty then created_at else updated0
  let status0 := pyStrip (pyStr (jGetD raw (lit "status") (.jstr (lit "active"))))
  let status1 := if status0.isEmpty then lit "active" else status0
  let status :=
    if status1 = lit "active" ∨ status1 = lit "completed" then status1 else lit "active"
  let percent_complete :=
    match asPyInt (jGet raw (lit "percent_complete")) with
    | some n => if n < 0 ∨ 100 < n then none else some n
    | none => none
  let reflections ← coerce_reflections now (jGetD raw (lit "reflections") .jnull)
  return { task := pyStrip (pyStr (jGetD raw (lit "task") (.jstr [])))
           status := status
           created_at := created_at
           updated_at := updated_at
           percent_complete := percent_complete
           steps := coerce_item_list (jGetD raw (lit "steps") .jnull)
           subgoals := coerce_item_list (jGetD raw (lit "subgoals") .jnull)
           progress_log := coerce_progress now (jGetD raw (lit "progress_log") .jnull)
           reflections := reflections }

/-! ## Plan operations (state level)

The operations below are the pure state transformations of the six plan
operations: argument validation and the loaded-state mutation, in source
order.  Path resolution, file existence checks, reading, writing and
deletion are the file layer, modeled separately further down. -/

/-- Does `s` start with `p`? -/
def startsWithL : Str → Str → Bool
  | [], _ => true
  | _ :: _, [] => false
  | x :: xs, c :: cs => x == c && startsWithL xs cs

/-- Round-half-to-even applied to an exact rational value: the nearest
integer, ties to even.  This is *not* what the program computes for the
percent (the program evaluates in doubles, see `floatPercent`); it is the
idealized value the float result is compared against. -/
def pyRound (q : ℚ) : Int :=
  if q - ⌊q⌋ < 1 / 2 then ⌊q⌋
  else if (1 : ℚ) / 2 < q - ⌊q⌋ then ⌊q⌋ + 1
  else if ⌊q⌋ % 2 = 0 then ⌊q⌋ else ⌊q⌋ + 1

/-- `pyRound` of the fraction `a / b` (`b > 0`), written on integers so that
it evaluates by kernel reduction: `f` is the floor (Euclidean division
floors for positive divisors) and `r / b` the fractional part. -/
def pyRoundFrac (a b : Int) : Int :=
  let f : Int := a / b
  let r : Int := a % b
  if 2 * r < b then f
  else if b < 2 * r then f + 1
  else if f % 2 = 0 then f else f + 1

/-! ### IEEE-754 binary64 model of the percent expression

`_recompute_percent_from_steps` stores `int(round((completed / len(steps))
* 100))`, which CPython evaluates in double precision: the division rounds
its exact value to the nearest double, the multiplication by 100 rounds
again, and `round` rounds the resulting double half-to-even (`int` of that
integral result is the identity).  The model below implements binary64
round-to-nearest, ties-to-even exactly (normals, subnormals and underflow;
overflow cannot arise since every value in this expression is at most
100), on rationals represented as `Nat` numerator/denominator pairs. -/

/-- Fuel-driven `⌊log2⌋` (fuel `n` suffices for input `n`). -/
def log2F : Nat → Nat → Nat
  | 0, _ => 0
  | fuel + 1, n => if 2 ≤ n then log2F fuel (n / 2) + 1 else 0

/-- `⌊log2 n⌋` for `n ≥ 1` (and `0` at `0`). -/
def nlog2 (n : Nat) : Nat := log2F n n

/-- Minimal `k` with `t ≤ 2 ^ k`. -/
def clog2 (t : Nat) : Nat := if t ≤ 1 then 0 else nlog2 (t - 1) + 1

/-- `⌊log2 (a / b)⌋` of a positive rational `a / b`: for `a ≥ b` via
`⌊log2 ⌊a / b⌋⌋` (powers of two are integers), for `a < b` via the minimal
`k` with `a * 2 ^ k ≥ b`, i.e. the ceiling log of `⌈b / a⌉`. -/
def flog2 (a b : Nat) : Int :=
  if b ≤ a then (nlog2 (a / b) : Int) else -(clog2 ((b + a - 1) / a) : Int)

/-- Round the rational `a / b` (`b > 0`) to the nearest integer, ties to
even. -/
def rheDiv (a b : Nat) : Nat :=
  let q := a / b
  let r := a % b
  if 2 * r < b then q
  else if b < 2 * r then q + 1
  else if q % 2 = 0 then q else q + 1

/-- Round the rational `a / b` (`b > 0`) to the nearest IEEE-754 binary64
value, ties to even, as a mantissa/exponent pair `(m, e)` denoting
`m * 2 ^ e`: a normal result has a 53-bit mantissa in the value's own
binade; values below `2 ^ (-1022)` round to a multiple of `2 ^ (-1074)`
(subnormals, underflowing to zero).  A mantissa of `2 ^ 53` (carry into
the next binade) still denotes the correctly rounded value. -/
def flPair (a b : Nat) : Nat × Int :=
  if a = 0 then (0, 0)
  else
    let E := flog2 a b
    let u : Int := if -1022 ≤ E then E - 52 else -1074
    if u ≤ 0 then (rheDiv (a * 2 ^ (-u).toNat) b, u)
    else (rheDiv a (b * 2 ^ u.toNat), u)

/-- Python `round` (ties to even) of the double `m * 2 ^ u` to an
integer. -/
def rheValue (m : Nat) (u : Int) : Nat :=
  if 0 ≤ u then m * 2 ^ u.toNat else rheDiv m (2 ^ (-u).toNat)

/-- `int(round((c / n) * 100))` as CPython evaluates it (`n > 0`): the
division `c / n` rounds to the nearest double `d1`, the product `d1 * 100`
rounds to the nearest double `d2`, and `round(d2)` rounds half-to-even. -/
def floatPercent (c n : Nat) : Nat :=
  let d1 := flPair c n
  let d2 :=
    if d1.2 ≤ 0 then flPair (100 * d1.1) (2 ^ (-d1.2).toNat)
    else flPair (100 * d1.1 * 2 ^ d1.2.toNat) 1
  rheValue d2.1 d2.2

/-- Number of steps with status `completed`. -/
def countCompleted (steps : List ChecklistItem) : Nat :=
  (steps.filter (fun it => it.status == lit "completed")).length

/-- `_recompute_percent_from_steps(state)`: on a non-empty step list,
`int(round((completed / len(steps)) * 100))` evaluated in IEEE-754 double
arithmetic (`floatPercent`). -/
def recompute_percent_from_steps (s : PlanState) : PlanState :=
  if s.steps.isEmpty then { s with percent_complete := some 0 }
  else
    let p : Int := (floatPercent (countCompleted s.steps) s.steps.length : Int)
    { s with percent_complete := some p }

/-- `_mark_all_completed(items)`. -/
def mark_all_completed (items : List ChecklistItem) : List ChecklistItem :=
  items.map (fun it => { it with status := lit "completed" })

/-- `_build_plan_items(items)`. -/
def build_plan_items (items : List Str) : List ChecklistItem :=
  enumItems 1 (items.map (fun text => (text, lit "pending")))

/-! ### decompose_task -/

/-- Sentence separators of `re.split(r"[;\n.]+", ...)`. -/
def isSentSep (c : Char) : Bool := c == ';' || c == '\n' || c == '.'

mutual
/-- `re.split` with a `[...]+` character-class pattern: split at maximal
separator runs, keeping empty segments at the edges and never in between.
`splitRunsGo` accumulates the current segment; `splitRunsSkip` consumes the
remainder of a separator run. -/
def splitRunsGo (p : Char → Bool) (cur : Str) : Str → List Str
  | [] => [cur.reverse]
  | c :: rest =>
      if p c then cur.reverse :: splitRunsSkip p rest
      else splitRunsGo p (c :: cur) rest
/-- Consume the tail of a separator run, then resume segment collection. -/
def splitRunsSkip (p : Char → Bool) : Str → List Str
  | [] => [[]]
  | c :: rest => if p c then splitRunsSkip p rest else splitRunsGo p [c] rest
end

/-- Split on maximal runs of characters satisfying `p`. -/
def splitRuns (p : Char → Bool) (s : Str) : List Str := splitRunsGo p [] s

/-- ASCII fragment of the regex word-character class `\w`. -/
def isWordChar (c : Char) : Bool := c.isAlphanum || c == '_'

/-- Case-insensitive literal match: pattern (lowercase) against input,
returning the rest of the input after the match. -/
def matchCI : Str → Str → Option Str
  | [], s => some s
  | _ :: _, [] => none
  | x :: xs, c :: cs => if c.toLower == x then matchCI xs cs else none

/-- Try one connective alternative at the current position, requiring the
trailing word boundary (`\b` after the match). -/
def tryConnOne (pat : Str) (s : Str) : Option Str :=
  match matchCI pat s with
  | none => none
  | some rest =>
      match rest with
      | [] => some []
      | c :: _ => if isWordChar c then none else some rest

/-- The connective alternation `then | after that | next`, tried in order. -/
def tryConn (s : Str) : Option Str :=
  match tryConnOne (lit "then") s with
  | some r => some r
  | none =>
      match tryConnOne (lit "after that") s with
      | some r => some r
      | none => tryConnOne (lit "next") s

/-- Scanner for `re.split(r"\b(?:then|after that|next)\b", sentence, re.I)`:
`prevIsWord` tracks whether the previous character is a word character (the
leading `\b`).  `fuel` is an upper bound on the scan length (every step
consumes at least one character, so `length + 1` always suffices; the
exhaustion branch is unreachable). -/
def connSplitGo : Nat → Bool → Str → Str → List Str
  | _, _, cur, [] => [cur.reverse]
  | 0, _, cur, s => [cur.reverse ++ s]
  | fuel + 1, prevIsWord, cur, c :: rest =>
      match if prevIsWord then none else tryConn (c :: rest) with
      | some rest2 => cur.reverse :: connSplitGo fuel true [] rest2
      | none => connSplitGo fuel (isWordChar c) (c :: cur) rest

/-- Split a sentence at the connective words. -/
def connSplit (s : Str) : List Str := connSplitGo (s.length + 1) false [] s

/-- `part.strip(" ,:-")`. -/
def stripClean (s : Str) : Str := pyStripSet (lit " ,:-") s

/-- The generic 5-step fallback of `decompose_task`. -/
def fallbackSteps (normalized : Str) : List Str :=
  [lit "Clarify acceptance criteria for: " ++ normalized,
   lit "Inspect the relevant code and dependencies",
   lit "Implement the required code changes",
   lit "Validate behavior with tests and checks",
   lit "Summarize results and remaining follow-ups"]

/-- The sentence/connective candidate harvest of `decompose_task`. -/
def decomposeCandidates (normalized : Str) : List Str :=
  (splitRuns isSentSep normalized).flatMap (fun sentence =>
    (connSplit sentence).filterMap (fun part =>
      let cleaned := stripClean part
      if cleaned.isEmpty then none else some cleaned))

/-- The comma fallback harvest (`normalized.split(",")`, cleaned). -/
def commaCandidates (normalized : Str) : List Str :=
  (List.splitOnP (fun c => c == ',') normalized).filterMap (fun part =>
    let cleaned := stripClean part
    if cleaned.isEmpty then none else some cleaned)

/-- `decompose_task(task, max_steps)`. -/
def decompose_task (task : Str) (max_steps : Int) : List Str :=
  if max_steps ≤ 0 then [lit "Error: max_steps must be > 0"]
  else
    let normalized := pyStrip (normWsJoin task)
    if normalized.isEmpty then [lit "Error: task must not be empty"]
    else
      let base := decomposeCandidates normalized
      let candidates :=
        if base.length < 2 ∧ normalized.contains ',' then
          base ++ commaCandidates normalized
        else base
      let unique_candidates := normStrs candidates
      if 2 ≤ unique_candidates.length then unique_candidates.take max_steps.toNat
      else (fallbackSteps normalized).take max_steps.toNat

/-! ### create / update / subgoals / progress / reflect -/

/-- The fresh state `create_plan` builds from the derived step texts: first
step `in_progress`, status `active`, percent `0`. -/
def freshPlanState (now : Str) (task_text : Str) (derived : List Str) :
    PlanState :=
  let items0 := build_plan_items derived
  let items :=
    match items0 with
    | [] => []
    | it :: rest => { it with status := lit "in_progress" } :: rest
  { task := task_text
    status := lit "active"
    created_at := now
    updated_at := now
    percent_complete := some 0
    steps := items
    subgoals := []
    progress_log := [(⟨now, lit "Plan created", some 0⟩ : ProgressEntry)]
    reflections := [] }

/-- `create_plan`'s state construction (everything before path resolution
and the write): validation, step derivation, and the fresh state.  The
`Error:`-prefix rejection applies only to decompose-derived steps: when the
caller supplies explicit steps that normalize to a non-empty list, they are
used as-is, even if the first one starts with `Error:`. -/
def create_plan_state (now : Str) (task : Str) (steps : List Str) :
    Except Str PlanState :=
  let task_text := pyStrip task
  if task_text.isEmpty then .error (lit "Error: task must not be empty")
  else
    let normalized0 := normStrs steps
    if normalized0.isEmpty then
      let derived := decompose_task task_text 6
      if ¬ derived.isEmpty ∧ startsWithL (lit "Error:") (derived.headD []) then
        .error (derived.headD [])
      else .ok (freshPlanState now task_text derived)
    else .ok (freshPlanState now task_text normalized0)

/-- The repeated `if steps and all(completed) then "completed" else
"active"` status recomputation (`update_plan` and `track_progress`). -/
def checkAllStatus (steps : List ChecklistItem) : Str :=
  if ¬ steps.isEmpty ∧ steps.all (fun it => it.status == lit "completed") then
    lit "completed"
  else lit "active"

/-- Set the status of the item at 0-based index `i`. -/
def setStatusAt (st : Str) : List ChecklistItem → Nat → List ChecklistItem
  | [], _ => []
  | it :: rest, 0 => { it with status := st } :: rest
  | it :: rest, i + 1 => it :: setStatusAt st rest i

/-- `update_plan`'s logic: argument validation (in source order, before any
file access), the range checks against the loaded state, the
at-most-one-`in_progress` demotion, the optional note, and the derived
status / percent recomputation. -/
def update_plan_state (now : Str) (step_number : Int) (status : Str) (note : Str)
    (s : PlanState) : Except Str PlanState :=
  if step_number < 1 then .error (lit "Error: step_number must be >= 1")
  else if ¬ VALID_STATUSES.contains status then
    .error (lit "Error: status must be one of: pending, in_progress, completed, blocked")
  else if s.steps.isEmpty then .error (lit "Error: Plan has no steps to update")
  else if (s.steps.length : Int) < step_number then
    .error (lit "Error: step_number " ++ intDec step_number ++
      lit " is out of range (1.." ++ natDec s.steps.length ++ lit ")")
  else
    let steps1 :=
      if status = lit "in_progress" then
        s.steps.enum.map (fun p =>
          if ((p.1 : Int) + 1 ≠ step_number) ∧ p.2.status = lit "in_progress" then
            { p.2 with status := lit "pending" }
          else p.2)
      else s.steps
    let steps2 := setStatusAt status steps1 (step_number.toNat - 1)
    let note_text := pyStrip note
    let progress :=
      if note_text.isEmpty then s.progress_log
      else s.progress_log ++ [(⟨now, note_text, none⟩ : ProgressEntry)]
    .ok (recompute_percent_from_steps
      { s with steps := steps2, progress_log := progress,
               status := checkAllStatus steps2, updated_at := now })

/-- Last-wins association lookup (a Python dict comprehension keyed by
description keeps the last status for a repeated description). -/
def lookupLast (kvs : List (Str × Str)) (k : Str) : Option Str :=
  (kvs.reverse.find? (fun kv => kv.1 == k)).map (fun kv => kv.2)

/-- `set_subgoals`' logic on a loaded state. -/
def set_subgoals_state (now : Str) (subgoals : List Str) (replace : Bool)
    (s : PlanState) : Except Str PlanState :=
  let normalized := normStrs subgoals
  if normalized.isEmpty then
    .error (lit "Error: subgoals must include at least one non-empty item")
  else
    let status_by_description := s.subgoals.map (fun it => (it.description, it.status))
    let merged :=
      if replace then normalized
      else normStrs (s.subgoals.map (fun it => it.description) ++ normalized)
    let updated := merged.enum.map (fun p =>
      let existing := (lookupLast status_by_description p.2).getD (lit "pending")
      let st := if VALID_STATUSES.contains existing then existing else lit "pending"
      (⟨p.1 + 1, p.2, st⟩ : ChecklistItem))
    .ok { s with subgoals := updated, updated_at := now }

/-- `track_progress`' logic on a loaded state (the optional file cleanup is
the file layer's). -/
def track_progress_state (now : Str) (message : Str) (percent_complete : Option Int)
    (complete_plan : Bool) (s : PlanState) : Except Str PlanState :=
  let note := pyStrip message
  if note.isEmpty then .error (lit "Error: message must not be empty")
  else if percent_complete.elim false (fun p => decide (p < 0) || decide (100 < p)) then
    .error (lit "Error: percent_complete must be between 0 and 100")
  else
    let s1 := { s with progress_log := s.progress_log ++ [(⟨now, note, percent_complete⟩ : ProgressEntry)] }
    let s2 :=
      match percent_complete with
      | some p => { s1 with percent_complete := some p }
      | none => s1
    let s3 :=
      if complete_plan ∨ percent_complete = some 100 then
        { s2 with steps := mark_all_completed s2.steps
                  subgoals := mark_all_completed s2.subgoals
                  status := lit "completed"
                  percent_complete := some 100 }
      else
        let s2a := { s2 with status := checkAllStatus s2.steps }
        if percent_complete = none then recompute_percent_from_steps s2a else s2a
    .ok { s3 with updated_at := now }

/-- `reflect_on_plan`'s logic on a loaded state. -/
def reflect_on_plan_state (now : Str) (summary : Str) (risks : List Str)
    (next_actions : List Str) (finalize : Bool) (s : PlanState) :
    Except Str PlanState :=
  let summary_text := pyStrip summary
  if summary_text.isEmpty then .error (lit "Error: summary must not be empty")
  else
    let s1 := { s with reflections :=
        s.reflections ++ [(⟨now, summary_text, normStrs risks, normStrs next_actions⟩ : Reflection)] }
    let s2 :=
      if finalize then
        { s1 with steps := mark_all_completed s1.steps
                  subgoals := mark_all_completed s1.subgoals
                  status := lit "completed"
                  percent_complete := some 100 }
      else recompute_percent_from_steps s1
    .ok { s2 with updated_at := now }

/-! ## Document codec

`json.dumps(state, indent=2, sort_keys=True)` and the markdown document
around it, the sentinel-regex extraction of `_load_state_from_markdown`,
and a model of `json.loads`. -/

/-- Code-point-lexicographic `≤` on strings (Python `str` comparison, the
order `sort_keys=True` uses). -/
def lexLe : Str → Str → Bool
  | [], _ => true
  | _ :: _, [] => false
  | x :: xs, y :: ys =>
      if x.toNat < y.toNat then true
      else if y.toNat < x.toNat then false
      else lexLe xs ys

/-- Stable insertion into a key-sorted pair list. -/
def insertPair (kv : Str × JValue) : List (Str × JValue) → List (Str × JValue)
  | [] => [kv]
  | p :: ps => if lexLe kv.1 p.1 then kv :: p :: ps else p :: insertPair kv ps

/-- Stable key sort of an object's items (what `sort_keys=True` applies). -/
def sortPairs : List (Str × JValue) → List (Str × JValue)
  | [] => []
  | p :: ps => insertPair p (sortPairs ps)

mutual
/-- Deep key sort: `json.dumps(..., sort_keys=True)` sorts every object's
items at encode time; composing this pre-sort with the order-preserving
printer below is exactly the encoder's output. -/
def deepSortKeys : JValue → JValue
  | .jobj kvs => .jobj (sortPairs (deepSortPairs kvs))
  | .jarr xs => .jarr (deepSortArr xs)
  | .jnull => .jnull
  | .jbool b => .jbool b
  | .jint n => .jint n
  | .jfloat m e => .jfloat m e
  | .jstr s => .jstr s
/-- `deepSortKeys` on array elements. -/
def deepSortArr : List JValue → List JValue
  | [] => []
  | x :: xs => deepSortKeys x :: deepSortArr xs
/-- `deepSortKeys` on object values. -/
def deepSortPairs : List (Str × JValue) → List (Str × JValue)
  | [] => []
  | (k, v) :: kvs => (k, deepSortKeys v) :: deepSortPairs kvs
end

/-- The four-digit lowercase hex rendering of `n % 0x10000`. -/
def hex4 (n : Nat) : Str :=
  [hexChar (n / 4096 % 16), hexChar (n / 256 % 16), hexChar (n / 16 % 16), hexChar (n % 16)]

/-- One character, JSON-escaped as `json.dumps` does with `ensure_ascii`
(the default): the two-character escapes, `\uXXXX` for other controls and
all non-ASCII, surrogate pairs beyond the BMP. -/
def escJChar (c : Char) : Str :=
  let n := c.toNat
  if c == dqChar then [bsChar, dqChar]
  else if c == bsChar then [bsChar, bsChar]
  else if c == '\n' then [bsChar, 'n']
  else if c == '\r' then [bsChar, 'r']
  else if c == '\t' then [bsChar, 't']
  else if n == 8 then [bsChar, 'b']
  else if n == 12 then [bsChar, 'f']
  else if 32 ≤ n && n ≤ 126 then [c]
  else if n < 65536 then bsChar :: 'u' :: hex4 n
  else
    (bsChar :: 'u' :: hex4 (55296 + (n - 65536) / 1024)) ++
      (bsChar :: 'u' :: hex4 (56320 + (n - 65536) % 1024))

/-- A JSON string literal: quote, escaped characters, quote. -/
def jsonQuote (s : Str) : Str := dqChar :: (s.flatMap escJChar ++ [dqChar])

/-- `indent=2` leading whitespace at nesting level `lvl`. -/
def indentN (lvl : Nat) : Str := List.replicate (2 * lvl) ' '

mutual
/-- The `json.dumps(..., indent=2)` printer (objects are printed in list
order; `dumps` below pre-sorts keys). -/
def dumpsVal (lvl : Nat) : JValue → Str
  | .jnull => lit "null"
  | .jbool true => lit "true"
  | .jbool false => lit "false"
  | .jint n => intDec n
  | .jfloat m e => floatDec m e
  | .jstr s => jsonQuote s
  | .jarr [] => lit "[]"
  | .jarr (x :: rest) =>
      '[' :: '\n' :: (indentN (lvl + 1) ++ dumpsElems (lvl + 1) (x :: rest) ++
        '\n' :: (indentN lvl ++ [']']))
  | .jobj [] => '{' :: ['}']
  | .jobj (p :: rest) =>
      '{' :: '\n' :: (indentN (lvl + 1) ++ dumpsPairs (lvl + 1) (p :: rest) ++
        '\n' :: (indentN lvl ++ ['}']))
/-- Comma-newline-indent separated array elements. -/
def dumpsElems (lvl : Nat) : List JValue → Str
  | [] => []
  | [x] => dumpsVal lvl x
  | x :: y :: ys =>
      dumpsVal lvl x ++ ',' :: '\n' :: (indentN lvl ++ dumpsElems lvl (y :: ys))
/-- Comma-newline-indent separated `"key": value` items. -/
def dumpsPairs (lvl : Nat) : List (Str × JValue) → Str
  | [] => []
  | [(k, v)] => jsonQuote k ++ ':' :: ' ' :: dumpsVal lvl v
  | (k, v) :: p :: ps =>
      jsonQuote k ++ ':' :: ' ' :: dumpsVal lvl v ++
        ',' :: '\n' :: (indentN lvl ++ dumpsPairs lvl (p :: ps))
end

/-- `json.dumps(v, indent=2, sort_keys=True)`. -/
def dumps (v : JValue) : Str := dumpsVal 0 (deepSortKeys v)

/-- The JSON encoding of a checklist item (dict construction order). -/
def itemToJson (it : ChecklistItem) : JValue :=
  .jobj [(lit "id", .jint it.id),
         (lit "description", .jstr it.description),
         (lit "status", .jstr it.status)]

/-- The JSON encoding of a progress entry. -/
def progressToJson (e : ProgressEntry) : JValue :=
  .jobj [(lit "timestamp", .jstr e.timestamp),
         (lit "message", .jstr e.message),
         (lit "percent_complete",
           match e.percent_complete with
           | some p => .jint p
           | none => .jnull)]

/-- The JSON encoding of a reflection. -/
def reflectionToJson (r : Reflection) : JValue :=
  .jobj [(lit "timestamp", .jstr r.timestamp),
         (lit "summary", .jstr r.summary),
         (lit "risks", .jarr (r.risks.map JValue.jstr)),
         (lit "next_actions", .jarr (r.next_actions.map JValue.jstr))]

/-- The JSON encoding of the whole plan state (dict construction order of
`_coerce_state` / `create_plan`). -/
def stateToJson (s : PlanState) : JValue :=
  .jobj [(lit "task", .jstr s.task),
         (lit "status", .jstr s.status),
         (lit "created_at", .jstr s.created_at),
         (lit "updated_at", .jstr s.updated_at),
         (lit "percent_complete",
           match s.percent_complete with
           | some p => .jint p
           | none => .jnull),
         (lit "steps", .jarr (s.steps.map itemToJson)),
         (lit "subgoals", .jarr (s.subgoals.map itemToJson)),
         (lit "progress_log", .jarr (s.progress_log.map progressToJson)),
         (lit "reflections", .jarr (s.reflections.map reflectionToJson))]

/-- `_format_items`. -/
def format_items (items : List ChecklistItem) : Str :=
  if items.isEmpty then lit "- (none)"
  else
    joinSep ['\n'] (items.map (fun item =>
      natDec item.id ++ lit ". [" ++
        (if item.status = lit "completed" then ['x'] else [' ']) ++
        lit "] (" ++ item.status ++ lit ") " ++ item.description))

/-- `_format_progress`. -/
def format_progress (entries : List ProgressEntry) : Str :=
  if entries.isEmpty then lit "- (none)"
  else
    joinSep ['\n'] (entries.map (fun e =>
      let percent_label :=
        match e.percent_complete with
        | some p => intDec p ++ ['%']
        | none => ['-']
      lit "- " ++ e.timestamp ++ lit " | " ++ percent_label ++ lit " | " ++ e.message))

/-- `_format_reflections`. -/
def format_reflections (reflections : List Reflection) : Str :=
  if reflections.isEmpty then lit "- (none)"
  else
    joinSep ['\n'] (reflections.enum.flatMap (fun p =>
      [lit "### Reflection " ++ natDec (p.1 + 1) ++ lit " (" ++ p.2.timestamp ++ lit ")",
       p.2.summary] ++
      (if ¬ p.2.risks.isEmpty then
        lit "Risks:" :: p.2.risks.map (fun r => lit "- " ++ r)
      else []) ++
      (if ¬ p.2.next_actions.isEmpty then
        lit "Next Actions:" :: p.2.next_actions.map (fun a => lit "- " ++ a)
      else [])))

/-- The opening sentinel marker. -/
def STATE_START : Str := lit "<!-- PLAN_STATE_JSON_START -->"

/-- The closing sentinel marker. -/
def STATE_END : Str := lit "<!-- PLAN_STATE_JSON_END -->"

/-- `_serialize_markdown(state)`: the prose sections, then the fenced JSON
state block between the sentinel markers, joined by newlines. -/
def serialize_markdown (s : PlanState) : Str :=
  let percent_label :=
    match s.percent_complete with
    | some p => intDec p ++ ['%']
    | none => lit "n/a"
  joinSep ['\n']
    [lit "# Agent Plan",
     [],
     lit "## Summary",
     lit "- Task: " ++ s.task,
     lit "- Status: " ++ s.status,
     lit "- Progress: " ++ percent_label,
     lit "- Created (UTC): " ++ s.created_at,
     lit "- Updated (UTC): " ++ s.updated_at,
     [],
     lit "## Steps",
     format_items s.steps,
     [],
     lit "## Subgoals",
     format_items s.subgoals,
     [],
     lit "## Progress Log",
     format_progress s.progress_log,
     [],
     lit "## Reflections",
     format_reflections s.reflections,
     [],
     lit "---",
     STATE_START,
     lit "```json",
     dumps (stateToJson s),
     lit "```",
     STATE_END,
     []]

/-! ### Sentinel-regex extraction

`STATE_PATTERN` is
`STATE_START \s* ```json \s* (\{.*\}) \s* ``` \s* STATE_END` with
`re.DOTALL`, used via `.search`: the leftmost position admitting a match
wins, and the greedy `.*` makes the group end at the last `}` whose tail
matches.  `\s` is modeled by its ASCII fragment (the same set as
`isPyWs`). -/

/-- Does the tail after a candidate closing `}` match `\s* ``` \s*
STATE_END`? -/
def tailMatchOk (s : Str) : Bool :=
  let s1 := s.dropWhile isPyWs
  startsWithL (lit "```") s1 &&
    startsWithL STATE_END ((s1.drop 3).dropWhile isPyWs)

/-- Index (from `i`) of the *last* character `}` whose tail matches — the
greedy choice for the group's closing brace. -/
def lastCloseFrom : Str → Nat → Option Nat
  | [], _ => none
  | c :: rest, i =>
      match lastCloseFrom rest (i + 1) with
      | some k => some k
      | none => if c == '}' && tailMatchOk rest then some i else none

/-- Try the whole pattern with the match starting at the head of `s`;
returns the captured group. -/
def matchBlockAt (s : Str) : Option Str :=
  if startsWithL STATE_START s then
    let r1 := (s.drop STATE_START.length).dropWhile isPyWs
    if startsWithL (lit "```json") r1 then
      let r2 := (r1.drop 7).dropWhile isPyWs
      match r2 with
      | '{' :: _ =>
          match lastCloseFrom r2 0 with
          | some k => some (r2.take (k + 1))
          | none => none
      | _ => none
    else none
  else none

/-- `STATE_PATTERN.search(content)`: first position whose match attempt
succeeds. -/
def searchBlock : Str → Option Str
  | [] => none
  | c :: rest =>
      match matchBlockAt (c :: rest) with
      | some g => some g
      | none => searchBlock rest

/-! ### json.loads

A model of CPython's `json.loads` (strict mode): the scanner below handles
the full JSON grammar as `loads` accepts it, with two corners simplified
and noted: `NaN` / `Infinity` constants are not modeled, and `\uXXXX`
escapes forming *lone* surrogates (which CPython smuggles into the str)
are parse failures here, since they denote no code point. -/

/-- JSON scanner whitespace (`[ \t\n\r]`). -/
def isJsonWs (c : Char) : Bool := c == ' ' || c == '\t' || c == '\n' || c == '\r'

/-- Skip scanner whitespace. -/
def jsonWsDrop (s : Str) : Str := s.dropWhile isJsonWs

/-- The value of one hexadecimal digit. -/
def hexDigitVal (c : Char) : Option Nat :=
  if 48 ≤ c.toNat ∧ c.toNat ≤ 57 then some (c.toNat - 48)
  else if 97 ≤ c.toNat ∧ c.toNat ≤ 102 then some (c.toNat - 87)
  else if 65 ≤ c.toNat ∧ c.toNat ≤ 70 then some (c.toNat - 55)
  else none

/-- Read exactly four hex digits. -/
def hex4Val : Str → Option (Nat × Str)
  | a :: b :: c :: d :: rest => do
      let va ← hexDigitVal a
      let vb ← hexDigitVal b
      let vc ← hexDigitVal c
      let vd ← hexDigitVal d
      pure (((va * 16 + vb) * 16 + vc) * 16 + vd, rest)
  | _ => none

/-- The two-character escapes of `py_scanstring`. -/
def unescJChar (c : Char) : Option Char :=
  if c == dqChar then some dqChar
  else if c == bsChar then some bsChar
  else if c == '/' then some '/'
  else if c == 'b' then some (Char.ofNat 8)
  else if c == 'f' then some (Char.ofNat 12)
  else if c == 'n' then some '\n'
  else if c == 'r' then some '\r'
  else if c == 't' then some '\t'
  else none

/-- String body scanner (after the opening quote), strict mode: literal
control characters are errors, `\uXXXX` escapes decode (surrogate pairs
combine; lone surrogates fail, see above).  Fuel-driven; every step
consumes input, so `length + 1` suffices. -/
def scanStringGo : Nat → Str → Str → Option (Str × Str)
  | 0, _, _ => none
  | _ + 1, _, [] => none
  | fuel + 1, acc, c :: rest =>
      if c == dqChar then some (acc.reverse, rest)
      else if c == bsChar then
        match rest with
        | [] => none
        | e :: rest2 =>
            if e == 'u' then
              match hex4Val rest2 with
              | none => none
              | some (n, rest3) =>
                  if 55296 ≤ n ∧ n ≤ 56319 then
                    match rest3 with
                    | b1 :: u1 :: rest4 =>
                        if b1 == bsChar ∧ u1 == 'u' then
                          match hex4Val rest4 with
                          | some (n2, rest5) =>
                              if 56320 ≤ n2 ∧ n2 ≤ 57343 then
                                scanStringGo fuel
                                  (Char.ofNat (65536 + (n - 55296) * 1024 + (n2 - 56320)) :: acc)
                                  rest5
                              else none
                          | none => none
                        else none
                    | _ => none
                  else if 56320 ≤ n ∧ n ≤ 57343 then none
                  else scanStringGo fuel (Char.ofNat n :: acc) rest3
            else
              match unescJChar e with
              | some ch => scanStringGo fuel (ch :: acc) rest2
              | none => none
      else if c.toNat < 32 then none
      else scanStringGo fuel (c :: acc) rest

/-- Scan a string body after the opening quote. -/
def scanString (s : Str) : Option (Str × Str) := scanStringGo (s.length + 1) [] s

/-- Is `c` an ASCII digit? -/
def isDigitCh (c : Char) : Bool := 48 ≤ c.toNat && c.toNat ≤ 57

/-- Maximal digit run. -/
def takeDigitsL : Str → Str × Str
  | [] => ([], [])
  | c :: rest =>
      if isDigitCh c then
        let p := takeDigitsL rest
        (c :: p.1, p.2)
      else ([], c :: rest)

/-- Numeric value of a digit run. -/
def digitsToNat (ds : Str) : Nat :=
  ds.foldl (fun acc c => acc * 10 + (c.toNat - 48)) 0

/-- The integer part of `NUMBER_RE` (`0|[1-9]\d*`): a lone `0`, or a
maximal run not starting with `0`. -/
def scanIntPart : Str → Option (Str × Str)
  | [] => none
  | c :: rest =>
      if c == '0' then some (['0'], rest)
      else if isDigitCh c then
        let p := takeDigitsL rest
        some (c :: p.1, p.2)
      else none

/-- Scan a number per `NUMBER_RE`
(`(-?(?:0|[1-9]\d*))(\.\d+)?([eE][-+]?\d+)?`): an int when the optional
fraction and exponent groups are both absent, a float otherwise (carried
exactly as mantissa and power of ten). -/
def scanNumber (s : Str) : Option (JValue × Str) :=
  let (neg, s1) :=
    if startsWithL (lit "-") s then (true, s.drop 1) else (false, s)
  match scanIntPart s1 with
  | none => none
  | some (intDs, s2) =>
      let (fracDs, s3) :=
        if startsWithL (lit ".") s2 then
          match takeDigitsL (s2.drop 1) with
          | ([], _) => (([] : Str), s2)
          | (ds, r2) => (ds, r2)
        else ([], s2)
      let expPart : Option Int × Str :=
        if startsWithL (lit "e") s3 ∨ startsWithL (lit "E") s3 then
          let r := s3.drop 1
          let (esign, r1) : Bool × Str :=
            if startsWithL (lit "+") r then (false, r.drop 1)
            else if startsWithL (lit "-") r then (true, r.drop 1)
            else (false, r)
          match takeDigitsL r1 with
          | ([], _) => (none, s3)
          | (ds, r2) =>
              (some (if esign then -(digitsToNat ds : Int) else (digitsToNat ds : Int)), r2)
        else (none, s3)
      let (expVal, s4) := expPart
      if fracDs.isEmpty ∧ expVal = none then
        let n : Int := (digitsToNat intDs : Int)
        some (.jint (if neg then -n else n), s4)
      else
        let mant : Int := (digitsToNat (intDs ++ fracDs) : Int)
        some (.jfloat (if neg then -mant else mant)
          (expVal.getD 0 - (fracDs.length : Int)), s4)

/-- Insert into a Python dict: an existing key keeps its position and takes
the new value. -/
def dictInsert (k : Str) (v : JValue) : List (Str × JValue) → List (Str × JValue)
  | [] => [(k, v)]
  | (k0, v0) :: rest =>
      if k0 == k then (k0, v) :: rest else (k0, v0) :: dictInsert k v rest

/-- Build a Python dict from parsed members (last value wins, first
position kept). -/
def dictFromPairs (ps : List (Str × JValue)) : List (Str × JValue) :=
  ps.foldl (fun d p => dictInsert p.1 p.2 d) []

mutual
/-- Parse one JSON value at the head of the input (no leading whitespace;
callers skip it), per CPython's scanner.  Fuel decreases on every recursive
call; since at most two calls happen per consumed character,
`2 * length + 2` always suffices. -/
def parseJVal : Nat → Str → Option (JValue × Str)
  | 0, _ => none
  | fuel + 1, s =>
      if startsWithL (lit "null") s then some (.jnull, s.drop 4)
      else if startsWithL (lit "true") s then some (.jbool true, s.drop 4)
      else if startsWithL (lit "false") s then some (.jbool false, s.drop 5)
      else
      match s with
      | [] => none
      | c :: rest =>
          if c == dqChar then
            match scanString rest with
            | some (str0, r) => some (.jstr str0, r)
            | none => none
          else if c == '[' then
            let r1 := jsonWsDrop rest
            if startsWithL (lit "]") r1 then some (.jarr [], r1.drop 1)
            else
              match parseJElems fuel r1 with
              | some (es, r2) => some (.jarr es, r2)
              | none => none
          else if c == '{' then
            let r1 := jsonWsDrop rest
            if startsWithL (lit "\x7d") r1 then some (.jobj [], r1.drop 1)
            else
              match parseJMembers fuel r1 with
              | some (ms, r2) => some (.jobj (dictFromPairs ms), r2)
              | none => none
          else if c == '-' || isDigitCh c then scanNumber (c :: rest)
          else none
/-- One-or-more comma-separated array elements up to `]`. -/
def parseJElems : Nat → Str → Option (List JValue × Str)
  | 0, _ => none
  | fuel + 1, s =>
      match parseJVal fuel s with
      | none => none
      | some (v, r) =>
          let r1 := jsonWsDrop r
          if startsWithL (lit ",") r1 then
            match parseJElems fuel (jsonWsDrop (r1.drop 1)) with
            | some (vs, r3) => some (v :: vs, r3)
            | none => none
          else if startsWithL (lit "]") r1 then some ([v], r1.drop 1)
          else none
/-- One-or-more `"key": value` members up to `}`. -/
def parseJMembers : Nat → Str → Option (List (Str × JValue) × Str)
  | 0, _ => none
  | fuel + 1, s =>
      match s with
      | c :: rest =>
          if c == dqChar then
            match scanString rest with
            | none => none
            | some (k, r1) =>
                let rc := jsonWsDrop r1
                if startsWithL (lit ":") rc then
                  match parseJVal fuel (jsonWsDrop (rc.drop 1)) with
                  | none => none
                  | some (v, r3) =>
                      let rd := jsonWsDrop r3
                      if startsWithL (lit ",") rd then
                        match parseJMembers fuel (jsonWsDrop (rd.drop 1)) with
                        | some (ms, r5) => some ((k, v) :: ms, r5)
                        | none => none
                      else if startsWithL (lit "\x7d") rd then some ([(k, v)], rd.drop 1)
                      else none
                else none
          else none
      | [] => none
end

/-- `json.loads(s)`: skip leading whitespace, parse one value, require only
whitespace to remain (else the `Extra data` error).  Error messages are
abbreviated stand-ins for CPython's diagnostics. -/
def loads (s : Str) : Except Str JValue :=
  let s1 := jsonWsDrop s
  match parseJVal (2 * s1.length + 2) s1 with
  | none => .error (lit "Expecting value")
  | some (v, rest) =>
      if (jsonWsDrop rest).isEmpty then .ok v else .error (lit "Extra data")

/-! ## File layer

File contents are explicit (`Option Str`; `none` = missing file); write and
unlink failures are boolean oracles.  Path resolution and containment are
not modeled (no claim depends on them); status messages render the path as
the default `agent_plan.md`. -/

/-- `_load_state_from_markdown(content)`: the inner `Except Str` is a
raised-and-caught `ValueError` message; the outer layer is a `TypeError`
escaping the coercer. -/
def load_state_from_markdown (now : Str) (content : Str) :
    Except PyExc (Except Str PlanState) :=
  match searchBlock content with
  | none => .ok (.error (lit "Plan file is missing embedded JSON state markers"))
  | some g =>
      match loads g with
      | .error e => .ok (.error (lit "Plan file contains invalid JSON state: " ++ e))
      | .ok (.jobj kvs) => (coerce_state now kvs).map Except.ok
      | .ok _ => .ok (.error (lit "Plan state must be a JSON object"))

/-- `_read_existing_state(plan_file)`: missing file and load failures
become `Error: ...` strings. -/
def read_existing_state (now : Str) (file : Option Str) :
    Except PyExc (Except Str PlanState) :=
  match file with
  | none => .ok (.error (lit "Error: Plan file not found"))
  | some content =>
      match load_state_from_markdown now content with
      | .error exc => .error exc
      | .ok (.error msg) => .ok (.error (lit "Error: " ++ msg))
      | .ok (.ok s) => .ok (.ok s)

/-- `_write_state(plan_path, state)`: on success the file holds the
serialized document; on `OSError` an `Error: ...` message is returned and
the previous contents remain. -/
def write_state (writeOk : Bool) (s : PlanState) (file : Option Str) :
    Str × Option Str :=
  if writeOk then (lit "Saved plan to agent_plan.md", some (serialize_markdown s))
  else (lit "Error: Unable to write plan file agent_plan.md", file)

/-- `_maybe_cleanup_plan_file(...)`: returns the optional result message
and the resulting file contents.  No cleanup requested: no message.  Not
completed: error, no deletion.  Completed: delete (`missing_ok`), or — on
`OSError` — a warning message with the file left in place. -/
def maybe_cleanup_plan_file (cleanup_plan_file : Bool) (unlinkOk : Bool)
    (s : PlanState) (file : Option Str) : Option Str × Option Str :=
  if ¬ cleanup_plan_file then (none, file)
  else if s.status ≠ lit "completed" then
    (some (lit "Error: cleanup_plan_file requires a completed plan"), file)
  else if unlinkOk then
    (some (lit "Completed plan and removed agent_plan.md"), none)
  else
    (some (lit "Warning: Plan completed but cleanup failed for agent_plan.md"), file)

/-- `update_plan(step_number, status, note, plan_file)` at the file level:
argument validation (before any file access), read, the state
transformation (`update_plan_state` re-enters the two already-passed
argument checks, which is harmless), write.  Returns the status message
and the resulting file contents. -/
def update_plan (now : Str) (step_number : Int) (status : Str) (note : Str)
    (file : Option Str) (writeOk : Bool) : Except PyExc (Str × Option Str) :=
  if step_number < 1 then .ok (lit "Error: step_number must be >= 1", file)
  else if ¬ VALID_STATUSES.contains status then
    .ok (lit "Error: status must be one of: pending, in_progress, completed, blocked", file)
  else
    match read_existing_state now file with
    | .error exc => .error exc
    | .ok (.error msg) => .ok (msg, file)
    | .ok (.ok s) =>
        match update_plan_state now step_number status note s with
        | .error msg => .ok (msg, file)
        | .ok s' =>
            let wr := write_state writeOk s' file
            if startsWithL (lit "Error:") wr.1 then .ok (wr.1, wr.2)
            else
              .ok (lit "Updated step " ++ intDec step_number ++ lit " to " ++
                [sqChar] ++ status ++ [sqChar] ++ lit " in agent_plan.md", wr.2)

/-- `track_progress(...)` at the file level: validation, read, state
transformation, write, optional cleanup. -/
def track_progress (now : Str) (message : Str) (percent_complete : Option Int)
    (complete_plan : Bool) (cleanup_plan_file : Bool) (file : Option Str)
    (writeOk unlinkOk : Bool) : Except PyExc (Str × Option Str) :=
  let note := pyStrip message
  if note.isEmpty then .ok (lit "Error: message must not be empty", file)
  else if percent_complete.elim false (fun p => decide (p < 0) || decide (100 < p)) then
    .ok (lit "Error: percent_complete must be between 0 and 100", file)
  else
    match read_existing_state now file with
    | .error exc => .error exc
    | .ok (.error msg) => .ok (msg, file)
    | .ok (.ok s) =>
        match track_progress_state now message percent_complete complete_plan s with
        | .error msg => .ok (msg, file)
        | .ok s' =>
            let wr := write_state writeOk s' file
            if startsWithL (lit "Error:") wr.1 then .ok (wr.1, wr.2)
            else
              match maybe_cleanup_plan_file cleanup_plan_file unlinkOk s' wr.2 with
              | (some cmsg, file2) => .ok (cmsg, file2)
              | (none, file2) =>
                  .ok (lit "Logged progress in agent_plan.md (status=" ++ s'.status ++
                    lit ", progress=" ++
                    (match s'.percent_complete with
                     | some p => intDec p
                     | none => lit "None") ++ lit "%)", file2)

/-- `reflect_on_plan(...)` at the file level. -/
def reflect_on_plan (now : Str) (summary : Str) (risks next_actions : List Str)
    (finalize : Bool) (cleanup_plan_file : Bool) (file : Option Str)
    (writeOk unlinkOk : Bool) : Except PyExc (Str × Option Str) :=
  let summary_text := pyStrip summary
  if summary_text.isEmpty then .ok (lit "Error: summary must not be empty", file)
  else
    match read_existing_state now file with
    | .error exc => .error exc
    | .ok (.error msg) => .ok (msg, file)
    | .ok (.ok s) =>
        match reflect_on_plan_state now summary risks next_actions finalize s with
        | .error msg => .ok (msg, file)
        | .ok s' =>
            let wr := write_state writeOk s' file
            if startsWithL (lit "Error:") wr.1 then .ok (wr.1, wr.2)
            else
              match maybe_cleanup_plan_file cleanup_plan_file unlinkOk s' wr.2 with
              | (some cmsg, file2) => .ok (cmsg, file2)
              | (none, file2) =>
                  .ok (lit "Recorded reflection in agent_plan.md (total reflections=" ++
                    natDec s'.reflections.length ++ lit ")", file2)

/-! ### Operation sequences -/

/-- One invocation of a mutating plan operation (the pure decomposition
helper carries no state).  Arguments mirror the Python signatures. -/
inductive PlanOp where
  | createOp (task : Str) (steps : List Str)
  | updateOp (step_number : Int) (status : Str) (note : Str)
  | subgoalsOp (subgoals : List Str) (replace : Bool)
  | trackOp (message : Str) (percent_complete : Option Int) (complete_plan : Bool)
  | reflectOp (summary : Str) (risks next_actions : List Str) (finalize : Bool)

/-- Run one operation against the persisted state: a failed call returns an
error message and leaves the persisted state unchanged; a successful
`create` (with `overwrite`) replaces it. -/
def applyOp (now : Str) (s : PlanState) : PlanOp → PlanState
  | .createOp task steps =>
      match create_plan_state now task steps with
      | .ok s' => s' | .error _ => s
  | .updateOp n status note =>
      match update_plan_state now n status note s with
      | .ok s' => s' | .error _ => s
  | .subgoalsOp subgoals replace =>
      match set_subgoals_state now subgoals replace s with
      | .ok s' => s' | .error _ => s
  | .trackOp message percent complete_plan =>
      match track_progress_state now message percent complete_plan s with
      | .ok s' => s' | .error _ => s
  | .reflectOp summary risks next_actions finalize =>
      match reflect_on_plan_state now summary risks next_actions finalize s with
      | .ok s' => s' | .error _ => s

/-- Run a sequence of operations (each with its own clock reading). -/
def runOps (s : PlanState) : List (Str × PlanOp) → PlanState
  | [] => s
  | (now, op) :: rest => runOps (applyOp now s op) rest

/-- Run a sequence of `update_plan` calls (each a clock reading, step
number, status, note); failed calls leave the state unchanged. -/
def runUpdates (s : PlanState) : List (Str × Int × Str × Str) → PlanState
  | [] => s
  | (now, n, st, note) :: rest =>
      runUpdates
        (match update_plan_state now n st note s with
         | .ok s' => s'
         | .error _ => s) rest

/-! ### Statement-level predicates -/

/-- `completed` status implies every step completed (the step half of the
spec's completion invariant). -/
def StepsDone (s : PlanState) : Prop :=
  s.status = lit "completed" → ∀ it ∈ s.steps, it.status = lit "completed"

/-- Number of steps currently `in_progress`. -/
def countIP (steps : List ChecklistItem) : Nat :=
  (steps.filter (fun it => it.status == lit "in_progress")).length

/-- A non-empty, whitespace-stripped string. -/
def CleanStr (s : Str) : Prop := s ≠ [] ∧ pyStrip s = s

instance (x : Str) : Decidable (CleanStr x) :=
  inferInstanceAs (Decidable (x ≠ [] ∧ pyStrip x = x))

/-- Checklist items as the coercer emits them: dense 1-based ids, non-empty
stripped descriptions, valid statuses. -/
def ItemsWF (items : List ChecklistItem) : Prop :=
  items.map (fun it => it.id) = List.range' 1 items.length ∧
    ∀ it ∈ items, CleanStr it.description ∧ it.status ∈ VALID_STATUSES

instance (items : List ChecklistItem) : Decidable (ItemsWF items) :=
  inferInstanceAs (Decidable
    (items.map (fun it => it.id) = List.range' 1 items.length ∧
      ∀ it ∈ items, CleanStr it.description ∧ it.status ∈ VALID_STATUSES))

/-- The stored percent, when present, is in range. -/
def PercentWF : Option Int → Prop
  | some p => 0 ≤ p ∧ p ≤ 100
  | none => True

instance : (o : Option Int) → Decidable (PercentWF o)
  | some p => inferInstanceAs (Decidable (0 ≤ p ∧ p ≤ 100))
  | none => inferInstanceAs (Decidable True)

/-- A plan state in the image of the state coercer (for a well-formed
clock string): the shape every loaded or freshly created state has. -/
def WellFormed (s : PlanState) : Prop :=
  (s.status = lit "active" ∨ s.status = lit "completed") ∧
  pyStrip s.task = s.task ∧
  CleanStr s.created_at ∧
  CleanStr s.updated_at ∧
  PercentWF s.percent_complete ∧
  ItemsWF s.steps ∧
  ItemsWF s.subgoals ∧
  (∀ e ∈ s.progress_log, CleanStr e.message ∧ CleanStr e.timestamp) ∧
  (∀ r ∈ s.reflections, CleanStr r.summary ∧ CleanStr r.timestamp ∧
    r.risks.Nodup ∧ (∀ x ∈ r.risks, CleanStr x) ∧
    r.next_actions.Nodup ∧ (∀ x ∈ r.next_actions, CleanStr x))

instance (s : PlanState) : Decidable (WellFormed s) :=
  inferInstanceAs (Decidable
    ((s.status = lit "active" ∨ s.status = lit "completed") ∧
     pyStrip s.task = s.task ∧
     CleanStr s.created_at ∧
     CleanStr s.updated_at ∧
     PercentWF s.percent_complete ∧
     ItemsWF s.steps ∧
     ItemsWF s.subgoals ∧
     (∀ e ∈ s.progress_log, CleanStr e.message ∧ CleanStr e.timestamp) ∧
     (∀ r ∈ s.reflections, CleanStr r.summary ∧ CleanStr r.timestamp ∧
       r.risks.Nodup ∧ (∀ x ∈ r.risks, CleanStr x) ∧
       r.next_actions.Nodup ∧ (∀ x ∈ r.next_actions, CleanStr x))))

/-- Number of positions of `s` at which `pat` occurs (as a prefix of the
suffix starting there). -/
def occCount (pat : Str) : Str → Nat
  | [] => 0
  | c :: rest =>
      (if startsWithL pat (c :: rest) then 1 else 0) + occCount pat rest

/-! ### Concrete witness fixtures

Small concrete plan states used by the per-claim witness theorems. -/

/-- A two-step plan, step 1 active. -/
def c3Plan : PlanState :=
  { task := lit "t", status := lit "active", created_at := lit "T",
    updated_at := lit "T", percent_complete := some 0,
    steps := [⟨1, lit "a", lit "in_progress"⟩, ⟨2, lit "b", lit "pending"⟩],
    subgoals := [], progress_log := [], reflections := [] }

/-- `c3Plan` after `update_plan(2, "in_progress")` at time `T2`. -/
def c3Plan' : PlanState :=
  { task := lit "t", status := lit "active", created_at := lit "T",
    updated_at := lit "T2", percent_complete := some 0,
    steps := [⟨1, lit "a", lit "pending"⟩, ⟨2, lit "b", lit "in_progress"⟩],
    subgoals := [], progress_log := [], reflections := [] }

/-- A two-step plan, one step already completed. -/
def c4Plan : PlanState :=
  { task := lit "t", status := lit "active", created_at := lit "T",
    updated_at := lit "T", percent_complete := some 0,
    steps := [⟨1, lit "a", lit "in_progress"⟩, ⟨2, lit "b", lit "pending"⟩],
    subgoals := [], progress_log := [], reflections := [] }

/-- `c4Plan` after `update_plan(1, "completed")` at time `T2`. -/
def c4Plan' : PlanState :=
  { task := lit "t", status := lit "active", created_at := lit "T",
    updated_at := lit "T2", percent_complete := some 50,
    steps := [⟨1, lit "a", lit "completed"⟩, ⟨2, lit "b", lit "pending"⟩],
    subgoals := [], progress_log := [], reflections := [] }

/-- A 40-step plan with steps 1–22 completed and step 23 `in_progress`:
completing step 23 exhibits the double-rounding divergence (57 vs 58). -/
def c4Plan40 : PlanState :=
  { task := lit "t", status := lit "active", created_at := lit "T",
    updated_at := lit "T", percent_complete := some 55,
    steps := (List.range' 1 40).map (fun i =>
      ⟨i, lit "s", if i ≤ 22 then lit "completed"
        else if i = 23 then lit "in_progress" else lit "pending"⟩),
    subgoals := [], progress_log := [], reflections := [] }

/-- `c4Plan40` after `update_plan(23, "completed")` at time `T2`: 23 of 40
steps completed, stored percent 57. -/
def c4Plan40' : PlanState :=
  { task := lit "t", status := lit "active", created_at := lit "T",
    updated_at := lit "T2", percent_complete := some 57,
    steps := (List.range' 1 40).map (fun i =>
      ⟨i, lit "s", if i ≤ 23 then lit "completed" else lit "pending"⟩),
    subgoals := [], progress_log := [], reflections := [] }

/-- A one-step plan, used to exercise the cleanup trichotomy. -/
def c6Plan : PlanState :=
  { task := lit "t", status := lit "active", created_at := lit "T",
    updated_at := lit "T", percent_complete := some 0,
    steps := [⟨1, lit "a", lit "pending"⟩], subgoals := [],
    progress_log := [], reflections := [] }

/-- `c6Plan` after `track_progress("done", complete_plan=True)` at `T2`. -/
def c6Plan2 : PlanState :=
  { task := lit "t", status := lit "completed", created_at := lit "T",
    updated_at := lit "T2", percent_complete := some 100,
    steps := [⟨1, lit "a", lit "completed"⟩], subgoals := [],
    progress_log := [(⟨lit "T2", lit "done", none⟩ : ProgressEntry)],
    reflections := [] }

/-- `c6Plan` after `reflect_on_plan("r", finalize=True)` at `T2`. -/
def c6Plan3 : PlanState :=
  { task := lit "t", status := lit "completed", created_at := lit "T",
    updated_at := lit "T2", percent_complete := some 100,
    steps := [⟨1, lit "a", lit "completed"⟩], subgoals := [],
    progress_log := [],
    reflections := [(⟨lit "T2", lit "r", [], []⟩ : Reflection)] }

/-! ### Round-trip support definitions

Predicates and encodings used by the serialization round-trip development:
number/words-follow side conditions for the JSON scanner, printable-value
predicates, the key-sorted JSON encoding of a state, the literal footer text
of the embedded block, and the C2 fixtures. -/

/-- Head of the tail is not a digit (or the tail is empty). -/
def headNotDigit : Str → Prop
  | [] => True
  | c :: _ => isDigitCh c = false

/-- The tail cannot extend a number literal. -/
def numFollowOk : Str → Prop
  | [] => True
  | c :: _ => isDigitCh c = false ∧ c ≠ '.' ∧ c ≠ 'e' ∧ c ≠ 'E'

/-- `sort_keys` and printable-value predicates: no floats, object keys
pairwise distinct. -/
def keysFresh : List Str → Bool
  | [] => true
  | k :: ks => !(ks.contains k) && keysFresh ks

mutual
/-- Round-trippable values: no floats, every object has distinct keys. -/
def jvOkV : JValue → Bool
  | .jfloat _ _ => false
  | .jarr xs => jvOkA xs
  | .jobj kvs => keysFresh (kvs.map Prod.fst) && jvOkP kvs
  | _ => true
/-- `jvOkV` over array elements. -/
def jvOkA : List JValue → Bool
  | [] => true
  | x :: xs => jvOkV x && jvOkA xs
/-- `jvOkV` over object values. -/
def jvOkP : List (Str × JValue) → Bool
  | [] => true
  | p :: ps => jvOkV p.2 && jvOkP ps
end

mutual
/-- Fuel lower bound for `parseJVal` on a printed value. -/
def jvSizeV : JValue → Nat
  | .jarr (x :: xs) => 1 + jvSizeA (x :: xs)
  | .jobj (p :: ps) => 1 + jvSizeP (p :: ps)
  | _ => 1
/-- Fuel lower bound for `parseJElems`. -/
def jvSizeA : List JValue → Nat
  | [] => 0
  | x :: xs => 1 + jvSizeV x + jvSizeA xs
/-- Fuel lower bound for `parseJMembers`. -/
def jvSizeP : List (Str × JValue) → Nat
  | [] => 0
  | p :: ps => 1 + jvSizeV p.2 + jvSizeP ps
end

/-- The sorted JSON encoding of one checklist item. -/
def sortedItem (it : ChecklistItem) : JValue :=
  .jobj [(lit "description", .jstr it.description), (lit "id", .jint (it.id : Int)),
         (lit "status", .jstr it.status)]

/-- The sorted JSON encoding of one progress entry. -/
def sortedProgress (e : ProgressEntry) : JValue :=
  .jobj [(lit "message", .jstr e.message),
         (lit "percent_complete", match e.percent_complete with
            | some p => JValue.jint p | none => JValue.jnull),
         (lit "timestamp", .jstr e.timestamp)]

/-- The sorted JSON encoding of one reflection. -/
def sortedReflection (r : Reflection) : JValue :=
  .jobj [(lit "next_actions", .jarr (r.next_actions.map JValue.jstr)),
         (lit "risks", .jarr (r.risks.map JValue.jstr)),
         (lit "summary", .jstr r.summary),
         (lit "timestamp", .jstr r.timestamp)]

/-- The key-sorted JSON encoding of the whole state. -/
def sortedStateKvs (s : PlanState) : List (Str × JValue) :=
  [(lit "created_at", .jstr s.created_at),
   (lit "percent_complete", match s.percent_complete with
      | some p => JValue.jint p | none => JValue.jnull),
   (lit "progress_log", .jarr (s.progress_log.map sortedProgress)),
   (lit "reflections", .jarr (s.reflections.map sortedReflection)),
   (lit "status", .jstr s.status),
   (lit "steps", .jarr (s.steps.map sortedItem)),
   (lit "subgoals", .jarr (s.subgoals.map sortedItem)),
   (lit "task", .jstr s.task),
   (lit "updated_at", .jstr s.updated_at)]

/-- The text after the embedded JSON block: newline, closing fence,
closing marker, final newline. -/
def fenceClose : Str := '\n' :: (lit "```" ++ ('\n' :: (STATE_END ++ ['\n'])))

/-- The fenced footer after the opening marker. -/
def stateTail (D : Str) : Str :=
  '\n' :: (lit "```json" ++ ('\n' :: (D ++ fenceClose)))

def advTask : Str :=
  lit "<!-- PLAN_STATE_JSON_START -->\n```json\n\x7b\"x\": 1\x7d\n```\n<!-- PLAN_STATE_JSON_END -->"

def advState : PlanState :=
  { task := advTask, status := lit "active", created_at := lit "T",
    updated_at := lit "T", percent_complete := none,
    steps := [], subgoals := [], progress_log := [], reflections := [] }

def c2Plan : PlanState :=
  { task := lit "t", status := lit "active", created_at := lit "c",
    updated_at := lit "u", percent_complete := none,
    steps := [⟨1, lit "s1", lit "pending"⟩], subgoals := [],
    progress_log := [⟨lit "ts", lit "m", some 5⟩],
    reflections := [⟨lit "ts", lit "sum", [lit "r"], [lit "n"]⟩] }

/-!
# Theorems

Shared lemmas first, then one named theorem per claim (with its witness or
counterexample where required).
-/

/-- `recompute_percent_from_steps` only touches `percent_complete`. -/
theorem recompute_status_steps (s : PlanState) :
    (recompute_percent_from_steps s).status = s.status ∧
      (recompute_percent_from_steps s).steps = s.steps ∧
      (recompute_percent_from_steps s).subgoals = s.subgoals ∧
      (recompute_percent_from_steps s).progress_log = s.progress_log ∧
      (recompute_percent_from_steps s).reflections = s.reflections ∧
      (recompute_percent_from_steps s).task = s.task ∧
      (recompute_percent_from_steps s).created_at = s.created_at ∧
      (recompute_percent_from_steps s).updated_at = s.updated_at := by
  unfold recompute_percent_from_steps
  split <;> simp

/-- Every item marked by `_mark_all_completed` is completed. -/
theorem mark_all_completed_status (items : List ChecklistItem) :
    ∀ it ∈ mark_all_completed items, it.status = lit "completed" := by
  intro it hit
  unfold mark_all_completed at hit
  obtain ⟨it0, _, rfl⟩ := List.mem_map.mp hit
  rfl

/-- The `steps and all(completed)` check, when it sets `completed`, really
has every step completed (otherwise it sets `active`). -/
theorem allcheck_of_completed {steps : List ChecklistItem}
    (hc : checkAllStatus steps = lit "completed") :
    ∀ it ∈ steps, it.status = lit "completed" := by
  intro it hit
  unfold checkAllStatus at hc
  rcases Decidable.em
    (¬ steps.isEmpty ∧ steps.all (fun it => it.status == lit "completed")) with hyes | hno
  · have := List.all_eq_true.mp hyes.2 it hit
    exact eq_of_beq this
  · rw [if_neg hno] at hc
    exact absurd hc (by decide)

/-- `create_plan_state` never creates a completed plan. -/
theorem create_stepsDone {now task : Str} {steps : List Str} {s' : PlanState}
    (h : create_plan_state now task steps = .ok s') : StepsDone s' := by
  unfold create_plan_state at h
  dsimp only at h
  split_ifs at h <;> cases h <;> intro hc <;>
    exact absurd (show (lit "active" : Str) = lit "completed" from hc) (by decide)

/-- `update_plan_state` recomputes `status` from the full-checklist test. -/
theorem update_stepsDone {now : Str} {n : Int} {status note : Str}
    {s s' : PlanState} (h : update_plan_state now n status note s = .ok s') :
    StepsDone s' := by
  unfold update_plan_state at h
  dsimp only at h
  split_ifs at h <;> cases h <;> intro hc <;>
    (rw [(recompute_status_steps _).1] at hc
     rw [(recompute_status_steps _).2.1]
     dsimp only at hc ⊢
     exact allcheck_of_completed hc)

/-- `set_subgoals_state` changes neither steps nor status. -/
theorem subgoals_stepsDone {now : Str} {subgoals : List Str} {replace : Bool}
    {s s' : PlanState} (hs : StepsDone s)
    (h : set_subgoals_state now subgoals replace s = .ok s') : StepsDone s' := by
  unfold set_subgoals_state at h
  dsimp only at h
  split_ifs at h <;> cases h <;> intro hc <;> exact hs hc

/-- `track_progress_state` either force-completes everything or recomputes
`status` from the full-checklist test. -/
theorem track_stepsDone {now message : Str} {percent : Option Int}
    {complete_plan : Bool} {s s' : PlanState}
    (h : track_progress_state now message percent complete_plan s = .ok s') :
    StepsDone s' := by
  cases percent with
  | none =>
      unfold track_progress_state at h
      dsimp only at h
      split_ifs at h <;> first
        | exact absurd rfl (by assumption)
        | exact (show False by assumption).elim
        | (cases h
           intro hc
           first
           | exact mark_all_completed_status _
           | (rw [(recompute_status_steps _).1] at hc
              rw [(recompute_status_steps _).2.1]
              dsimp only at hc ⊢
              exact allcheck_of_completed hc)
           | (dsimp only at hc ⊢
              exact allcheck_of_completed hc))
  | some p =>
      unfold track_progress_state at h
      dsimp only at h
      split_ifs at h <;> first
        | exact absurd rfl (by assumption)
        | exact (show False by assumption).elim
        | (cases h
           intro hc
           first
           | exact mark_all_completed_status _
           | (dsimp only at hc ⊢
              exact allcheck_of_completed hc))

/-- `reflect_on_plan_state` either force-completes or leaves status and
steps alone. -/
theorem reflect_stepsDone {now summary : Str} {risks next_actions : List Str}
    {finalize : Bool} {s s' : PlanState} (hs : StepsDone s)
    (h : reflect_on_plan_state now summary risks next_actions finalize s = .ok s') :
    StepsDone s' := by
  unfold reflect_on_plan_state at h
  dsimp only at h
  split_ifs at h <;> cases h <;> intro hc <;>
    first
    | exact mark_all_completed_status _
    | (rw [(recompute_status_steps _).1] at hc
       rw [(recompute_status_steps _).2.1]
       dsimp only at hc ⊢
       exact hs hc)
    | (dsimp only at hc ⊢
       exact hs hc)

/-- Every operation preserves the step half of the completion invariant. -/
theorem applyOp_stepsDone (now : Str) (s : PlanState) (op : PlanOp)
    (hs : StepsDone s) : StepsDone (applyOp now s op) := by
  cases op with
  | createOp task steps =>
      dsimp only [applyOp]
      cases h : create_plan_state now task steps with
      | ok s' => exact create_stepsDone h
      | error e => exact hs
  | updateOp n status note =>
      dsimp only [applyOp]
      cases h : update_plan_state now n status note s with
      | ok s' => exact update_stepsDone h
      | error e => exact hs
  | subgoalsOp subgoals replace =>
      dsimp only [applyOp]
      cases h : set_subgoals_state now subgoals replace s with
      | ok s' => exact subgoals_stepsDone hs h
      | error e => exact hs
  | trackOp message percent complete_plan =>
      dsimp only [applyOp]
      cases h : track_progress_state now message percent complete_plan s with
      | ok s' => exact track_stepsDone h
      | error e => exact hs
  | reflectOp summary risks next_actions finalize =>
      dsimp only [applyOp]
      cases h : reflect_on_plan_state now summary risks next_actions finalize s with
      | ok s' => exact reflect_stepsDone hs h
      | error e => exact hs

/-- The invariant survives any operation sequence. -/
theorem runOps_stepsDone (ops : List (Str × PlanOp)) (s : PlanState)
    (hs : StepsDone s) : StepsDone (runOps s ops) := by
  induction ops generalizing s with
  | nil => exact hs
  | cons p rest ih => exact ih _ (applyOp_stepsDone p.1 s p.2 hs)

/-- C1 (counterexample): a subgoal set after creation stays `pending` when
`update_plan` completes the last step, yet the overall status becomes
`completed` — the claim's subgoal half fails on the checklist-detection
path. -/
theorem C1_counterexample :
    ((create_plan_state (lit "T0") (lit "t") [lit "a"]).map (fun s0 =>
      let s := runOps s0
        [(lit "T1", .subgoalsOp [lit "g"] true),
         (lit "T2", .updateOp 1 (lit "completed") [])]
      (s.status, s.subgoals.map (fun it => it.status)))) =
      .ok (lit "completed", [lit "pending"]) := by decide

/-- C1 (amended): in every state reachable from `create_plan` by the
mutating operations, `status = "completed"` implies every *step* is
completed; subgoals are only guaranteed by the force-complete paths. -/
theorem C1_steps_completed_invariant (now task : Str) (steps : List Str)
    (s0 : PlanState) (h : create_plan_state now task steps = .ok s0)
    (ops : List (Str × PlanOp)) : StepsDone (runOps s0 ops) :=
  runOps_stepsDone ops s0 (create_stepsDone h)

/-! ### Claim C3: at most one step `in_progress` -/

/-- Pointwise view of `setStatusAt`. -/
theorem setStatusAt_get (st : Str) :
    ∀ (l : List ChecklistItem) (idx j : Nat),
      (setStatusAt st l idx).get? j =
        if j = idx then (l.get? j).map (fun it => { it with status := st })
        else l.get? j
  | [], idx, j => by
      simp only [setStatusAt]
      split <;> simp
  | it :: rest, 0, 0 => by simp [setStatusAt]
  | it :: rest, 0, j + 1 => by simp [setStatusAt]
  | it :: rest, idx + 1, 0 => by simp [setStatusAt]
  | it :: rest, idx + 1, j + 1 => by
      simp only [setStatusAt, List.get?]
      rw [setStatusAt_get st rest idx j]
      by_cases hj : j = idx <;> simp [hj]

/-- `setStatusAt` preserves length. -/
theorem setStatusAt_length (st : Str) :
    ∀ (l : List ChecklistItem) (idx : Nat), (setStatusAt st l idx).length = l.length
  | [], _ => rfl
  | _ :: _, 0 => rfl
  | _ :: rest, idx + 1 => by
      simp [setStatusAt, setStatusAt_length st rest idx]

/-- Pointwise view of the `in_progress` demotion pass. -/
theorem demote_get (n : Int) (l : List ChecklistItem) (j : Nat) :
    (l.enum.map (fun p =>
      if ((p.1 : Int) + 1 ≠ n) ∧ p.2.status = lit "in_progress" then
        { p.2 with status := lit "pending" }
      else p.2)).get? j =
      (l.get? j).map (fun it =>
        if ((j : Int) + 1 ≠ n) ∧ it.status = lit "in_progress" then
          { it with status := lit "pending" }
        else it) := by
  rw [List.get?_map, List.get?_enum]
  cases l.get? j <;> simp

/-- `countIP` over a cons. -/
theorem countIP_cons (a : ChecklistItem) (t : List ChecklistItem) :
    countIP (a :: t) = (if a.status = lit "in_progress" then 1 else 0) + countIP t := by
  unfold countIP
  by_cases hip : a.status = lit "in_progress" <;> simp [List.filter_cons, hip] <;> omega

/-- A list with no `in_progress` element has `countIP = 0`. -/
theorem countIP_eq_zero : ∀ {l : List ChecklistItem},
    (∀ it ∈ l, ¬ it.status = lit "in_progress") → countIP l = 0
  | [], _ => rfl
  | a :: t, h => by
      rw [countIP_cons, if_neg (h a (by simp))]
      simpa using countIP_eq_zero (fun it hit => h it (by simp [hit]))

/-- A list whose `in_progress` elements are exactly those at one index has
`countIP = 1`. -/
theorem countIP_of_unique :
    ∀ (l : List ChecklistItem) (idx : Nat), idx < l.length →
      (∀ j it, l.get? j = some it → (it.status = lit "in_progress" ↔ j = idx)) →
      countIP l = 1
  | [], idx, h, _ => absurd h (by simp)
  | a :: t, 0, _, hp => by
      have ha : a.status = lit "in_progress" := (hp 0 a rfl).mpr rfl
      have ht : countIP t = 0 := countIP_eq_zero (fun it hit => by
        obtain ⟨⟨j, hlt⟩, hj⟩ := List.mem_iff_get.mp hit
        intro hip
        have hj' : t.get? j = some it := by rw [List.get?_eq_get hlt, hj]
        exact absurd ((hp (j + 1) it (by simpa using hj')).mp hip) (by simp))
      rw [countIP_cons, if_pos ha, ht]
  | a :: t, idx + 1, h, hp => by
      have ha : ¬ a.status = lit "in_progress" := fun hip => by
        simpa using (hp 0 a rfl).mp hip
      have ht : countIP t = 1 := by
        refine countIP_of_unique t idx (by simpa using h) ?_
        intro j it hj
        simpa using hp (j + 1) it (by simpa using hj)
      rw [countIP_cons, if_neg ha, ht]

/-- Setting a non-`in_progress` status never increases `countIP`. -/
theorem countIP_setStatusAt_le (st : Str) (hst : ¬ st = lit "in_progress") :
    ∀ (l : List ChecklistItem) (idx : Nat), countIP (setStatusAt st l idx) ≤ countIP l
  | [], _ => by simp [setStatusAt]
  | a :: t, 0 => by
      simp only [setStatusAt]
      rw [countIP_cons, countIP_cons]
      simp only [if_neg hst]
      split <;> omega
  | a :: t, idx + 1 => by
      have ih := countIP_setStatusAt_le st hst t idx
      simp only [setStatusAt]
      rw [countIP_cons, countIP_cons]
      omega

/-- `recompute_percent_from_steps` on a non-empty plan: the double-rounded
step ratio. -/
theorem recompute_percent_spec {t : PlanState} (h : ¬ t.steps.isEmpty = true) :
    (recompute_percent_from_steps t).percent_complete =
      some ((floatPercent (countCompleted t.steps) t.steps.length : Int)) := by
  unfold recompute_percent_from_steps
  rw [if_neg h]

/-- Characterization of a successful `update_plan_state`: argument bounds,
the resulting step list, and the derived status / percent. -/
theorem update_ok_char {now : Str} {n : Int} {status note : Str} {s s' : PlanState}
    (h : update_plan_state now n status note s = .ok s') :
    1 ≤ n ∧ n ≤ (s.steps.length : Int) ∧
      s'.steps = setStatusAt status
        (if status = lit "in_progress" then
           s.steps.enum.map (fun p =>
             if ((p.1 : Int) + 1 ≠ n) ∧ p.2.status = lit "in_progress" then
               { p.2 with status := lit "pending" }
             else p.2)
         else s.steps) (n.toNat - 1) ∧
      s'.status = checkAllStatus s'.steps ∧
      s'.percent_complete =
        some ((floatPercent (countCompleted s'.steps) s'.steps.length : Int)) := by
  unfold update_plan_state at h
  dsimp only at h
  split_ifs at h with h1 h2 h3 h4 h5 <;> try cases h
  all_goals refine ⟨by omega, by omega, ?_, ?_, ?_⟩
  all_goals first
    | rw [(recompute_status_steps _).2.1, if_pos (show status = lit "in_progress" from by assumption)]
    | rw [(recompute_status_steps _).2.1, if_neg (show ¬ status = lit "in_progress" from by assumption)]
    | rw [(recompute_status_steps _).1, (recompute_status_steps _).2.1]
    | (rw [(recompute_status_steps _).2.1]
       refine recompute_percent_spec ?_
       dsimp only
       intro hemp
       rw [List.isEmpty_eq_true] at hemp
       have hlen := congrArg List.length hemp
       rw [setStatusAt_length] at hlen
       simp only [List.length_nil, List.length_map, List.enum_length] at hlen
       replace hlen : s.steps.length = 0 := by omega
       have hne : s.steps ≠ [] := by
         intro hnil
         rw [hnil] at h3
         exact h3 rfl
       exact hne (List.length_eq_zero.mp hlen))

/-- The `in_progress` update leaves exactly one step `in_progress` (the
target), demoting every other previously active step to `pending`. -/
theorem update_ip_unique {now : Str} {n : Int} {note : Str} {s s' : PlanState}
    (h : update_plan_state now n (lit "in_progress") note s = .ok s') :
    countIP s'.steps = 1 ∧
    (∀ it, s'.steps.get? (n.toNat - 1) = some it → it.status = lit "in_progress") ∧
    (∀ j it it', j ≠ n.toNat - 1 → s.steps.get? j = some it →
      s'.steps.get? j = some it' → it.status = lit "in_progress" →
      it'.status = lit "pending") := by
  obtain ⟨hn1, hn2, hsteps, -, -⟩ := update_ok_char h
  rw [if_pos rfl] at hsteps
  have hget : ∀ j, s'.steps.get? j =
      if j = n.toNat - 1 then
        ((s.steps.get? j).map (fun it =>
          if ((j : Int) + 1 ≠ n) ∧ it.status = lit "in_progress" then
            { it with status := lit "pending" } else it)).map
          (fun it => { it with status := lit "in_progress" })
      else (s.steps.get? j).map (fun it =>
          if ((j : Int) + 1 ≠ n) ∧ it.status = lit "in_progress" then
            { it with status := lit "pending" } else it) := by
    intro j
    rw [hsteps, setStatusAt_get, demote_get]
  have hlen : s'.steps.length = s.steps.length := by
    rw [hsteps, setStatusAt_length]
    simp
  refine ⟨?_, ?_, ?_⟩
  · refine countIP_of_unique s'.steps (n.toNat - 1) (by omega) ?_
    intro j it hj
    rw [hget j] at hj
    by_cases hjeq : j = n.toNat - 1
    · rw [if_pos hjeq] at hj
      constructor
      · intro _; exact hjeq
      · intro _
        rcases hx : s.steps.get? j with - | it0
        · rw [hx] at hj; cases hj
        · rw [hx] at hj
          simp only [Option.map_map, Option.map] at hj
          cases hj
          rfl
    · rw [if_neg hjeq] at hj
      constructor
      · intro hip
        exfalso
        rcases hx : s.steps.get? j with - | it0
        · rw [hx] at hj; cases hj
        · rw [hx] at hj
          simp only [Option.map] at hj
          cases hj
          by_cases hcond : ((j : Int) + 1 ≠ n) ∧ it0.status = lit "in_progress"
          · rw [if_pos hcond] at hip
            exact absurd (show (lit "pending" : Str) = lit "in_progress" from hip) (by decide)
          · rw [if_neg hcond] at hip
            have hj1 : (j : Int) + 1 ≠ n := by omega
            exact hcond ⟨hj1, hip⟩
      · intro hc; exact absurd hc hjeq
  · intro it hj
    rw [hget, if_pos rfl] at hj
    rcases hx : s.steps.get? (n.toNat - 1) with - | it0
    · rw [hx] at hj; cases hj
    · rw [hx] at hj
      simp only [Option.map_map, Option.map] at hj
      cases hj
      rfl
  · intro j it it' hjne hsj hsj' hip
    rw [hget, if_neg hjne, hsj] at hsj'
    simp only [Option.map] at hsj'
    cases hsj'
    have hj1 : (j : Int) + 1 ≠ n := by omega
    rw [if_pos ⟨hj1, hip⟩]

/-- Updates that do not set `in_progress` never increase `countIP`;
`in_progress` updates pin it to 1. -/
theorem update_countIP_le {now : Str} {n : Int} {status note : Str}
    {s s' : PlanState} (h : update_plan_state now n status note s = .ok s')
    (hle : countIP s.steps ≤ 1) : countIP s'.steps ≤ 1 := by
  by_cases hip : status = lit "in_progress"
  · subst hip
    exact le_of_eq (update_ip_unique h).1
  · obtain ⟨-, -, hsteps, -, -⟩ := update_ok_char h
    rw [if_neg hip] at hsteps
    rw [hsteps]
    exact le_trans (countIP_setStatusAt_le status hip _ _) hle

/-- The at-most-one-active-step bound survives any sequence of
`update_plan` calls. -/
theorem runUpdates_countIP_le :
    ∀ (calls : List (Str × Int × Str × Str)) (s : PlanState),
      countIP s.steps ≤ 1 → countIP (runUpdates s calls).steps ≤ 1
  | [], _, hle => hle
  | (now, n, st, note) :: rest, s, hle => by
      unfold runUpdates
      cases h : update_plan_state now n st note s with
      | ok s' => exact runUpdates_countIP_le rest s' (update_countIP_le h hle)
      | error e => exact runUpdates_countIP_le rest s hle

/-- C3: a successful `in_progress` update leaves exactly one step
`in_progress` (the target), demotes every other previously `in_progress`
step to `pending`, and thereafter every sequence of `update_plan` calls
keeps at most one step `in_progress`. -/
theorem C3_at_most_one_in_progress :
    (∀ (now : Str) (n : Int) (note : Str) (s s' : PlanState),
      update_plan_state now n (lit "in_progress") note s = .ok s' →
      countIP s'.steps = 1 ∧
      (∀ it, s'.steps.get? (n.toNat - 1) = some it → it.status = lit "in_progress") ∧
      (∀ j it it', j ≠ n.toNat - 1 → s.steps.get? j = some it →
        s'.steps.get? j = some it' → it.status = lit "in_progress" →
        it'.status = lit "pending")) ∧
    (∀ (s : PlanState) (calls : List (Str × Int × Str × Str)),
      countIP s.steps ≤ 1 → countIP (runUpdates s calls).steps ≤ 1) :=
  ⟨fun _ _ _ _ _ h => update_ip_unique h, fun _ calls hle => runUpdates_countIP_le calls _ hle⟩

/-- C3 witness: moving a two-step plan's active step from 1 to 2 leaves
exactly one `in_progress` step. -/
theorem C3_witness : countIP c3Plan'.steps = 1 :=
  (C3_at_most_one_in_progress.1 (lit "T2") 2 [] c3Plan c3Plan' (by decide)).1

/-! ### Claim C4: the percent formula -/

/-- `pyRoundFrac` agrees with `pyRound` of the exact fraction, for a
positive (`Nat`) denominator. -/
theorem pyRoundFrac_eq (a : Int) (d : Nat) (hd : 0 < d) :
    pyRoundFrac a (d : Int) = pyRound ((a : ℚ) / (d : ℚ)) := by
  have hdq : (0 : ℚ) < (d : ℚ) := by exact_mod_cast hd
  have hdz : (d : Int) ≠ 0 := by omega
  have hfloor : ⌊(a : ℚ) / (d : ℚ)⌋ = a / (d : Int) :=
    Rat.floor_intCast_div_natCast a d
  have hfrac : (a : ℚ) / (d : ℚ) - ((a / (d : Int) : Int) : ℚ) =
      ((a % (d : Int) : Int) : ℚ) / (d : ℚ) := by
    rw [Int.emod_def]
    push_cast
    field_simp
  have key1 : ((a % (d : Int) : Int) : ℚ) / (d : ℚ) < 1 / 2 ↔
      2 * (a % (d : Int)) < (d : Int) := by
    rw [div_lt_div_iff hdq (by norm_num : (0 : ℚ) < 2), one_mul]
    constructor
    · intro hx
      have hx' : a % (d : Int) * 2 < (d : Int) := by exact_mod_cast hx
      omega
    · intro hx
      have hx' : a % (d : Int) * 2 < (d : Int) := by omega
      exact_mod_cast hx'
  have key2 : (1 / 2 : ℚ) < ((a % (d : Int) : Int) : ℚ) / (d : ℚ) ↔
      (d : Int) < 2 * (a % (d : Int)) := by
    rw [div_lt_div_iff (by norm_num : (0 : ℚ) < 2) hdq, one_mul]
    constructor
    · intro hx
      have hx' : (d : Int) < a % (d : Int) * 2 := by exact_mod_cast hx
      omega
    · intro hx
      have hx' : (d : Int) < a % (d : Int) * 2 := by omega
      exact_mod_cast hx'
  unfold pyRound pyRoundFrac
  dsimp only
  rw [hfloor, hfrac]
  simp only [key1, key2]

/-- A filter keeping everything means every element satisfies the
predicate. -/
theorem filter_len_all {α : Type} (p : α → Bool) :
    ∀ l : List α, (l.filter p).length = l.length → ∀ a ∈ l, p a
  | [], _, a, ha => absurd ha (by simp)
  | x :: t, h, a, ha => by
      by_cases hx : p x
      · rcases List.mem_cons.mp ha with rfl | hat
        · exact hx
        · refine filter_len_all p t ?_ a hat
          rw [List.filter_cons, if_pos hx] at h
          simpa using h
      · exfalso
        rw [List.filter_cons, if_neg hx] at h
        have := List.length_filter_le p t
        simp only [List.length_cons] at h
        omega

/-- A full completed count makes the recomputed status `completed`. -/
theorem checkAll_completed_of_count {l : List ChecklistItem} (hne : l ≠ [])
    (hc : countCompleted l = l.length) : checkAllStatus l = lit "completed" := by
  unfold checkAllStatus
  rw [if_pos]
  refine ⟨?_, ?_⟩
  · intro hemp
    exact hne (List.isEmpty_eq_true.mp hemp)
  · rw [List.all_eq_true]
    exact filter_len_all _ l hc

/-- `pyRoundFrac` of the full ratio is exactly 100. -/
theorem pyRoundFrac_full (L : Int) (hL : 0 < L) :
    pyRoundFrac (100 * L) L = 100 := by
  have hdiv : 100 * L / L = 100 := Int.mul_ediv_cancel 100 (by omega)
  have hmod : 100 * L % L = 0 := by
    rw [Int.emod_def, hdiv]
    ring
  unfold pyRoundFrac
  dsimp only
  rw [hdiv, hmod]
  rw [if_pos (by omega)]

/-- The ratio `n / n` rounds to the double `1.0 = 2 ^ 52 * 2 ^ (-52)`
exactly. -/
theorem flPair_self (n : Nat) (h : 0 < n) : flPair n n = (2 ^ 52, -52) := by
  have hE : flog2 n n = 0 := by
    unfold flog2
    rw [if_pos (Nat.le_refl n), Nat.div_self h]
    rfl
  have hstep : flPair n n = (rheDiv (n * 2 ^ 52) n, -52) := by
    unfold flPair
    rw [if_neg (by omega : ¬ n = 0)]
    dsimp only
    rw [hE]
    rfl
  rw [hstep]
  have hq : n * 2 ^ 52 / n = 2 ^ 52 := Nat.mul_div_cancel_left _ h
  have hr : n * 2 ^ 52 % n = 0 := Nat.mul_mod_right n _
  unfold rheDiv
  dsimp only
  rw [hq, hr, if_pos (by omega)]

/-- A full completed count stores exactly 100: `n / n` and `1.0 * 100` are
both exact in doubles. -/
theorem floatPercent_full (n : Nat) (h : 0 < n) : floatPercent n n = 100 := by
  unfold floatPercent
  rw [flPair_self n h]
  rfl

/-- C4: after any successful `update_plan`, the stored percentage is the
IEEE-754 double evaluation of `int(round((completed / total) * 100))` (the
division and the multiplication each round to the nearest double, then
`round` half-to-even), and a full completed count yields exactly `100`
with status `completed`. -/
theorem C4_percent_after_update (now : Str) (n : Int) (status note : Str)
    (s s' : PlanState) (h : update_plan_state now n status note s = .ok s') :
    s'.percent_complete =
      some ((floatPercent (countCompleted s'.steps) s'.steps.length : Int)) ∧
    (countCompleted s'.steps = s'.steps.length →
      s'.percent_complete = some 100 ∧ s'.status = lit "completed") := by
  obtain ⟨hn1, hn2, hsteps, hstat, hpc⟩ := update_ok_char h
  have hlen : s'.steps.length = s.steps.length := by
    rw [hsteps, setStatusAt_length]
    split <;> simp
  have hpos : 0 < s'.steps.length := by omega
  refine ⟨hpc, ?_⟩
  intro hcc
  refine ⟨?_, ?_⟩
  · rw [hpc, hcc, floatPercent_full _ hpos]
    rfl
  · rw [hstat]
    exact checkAll_completed_of_count (List.ne_nil_of_length_pos hpos) hcc

/-- C4 counterexample: completing step 23 of a 40-step plan stores 57,
while half-even rounding of the exact ratio `100 * 23 / 40 = 57.5` gives
58 — the double nearest to `23 / 40` is below `0.575`, and so is its
product with 100. -/
theorem C4_counterexample :
    update_plan_state (lit "T2") 23 (lit "completed") [] c4Plan40 =
      .ok c4Plan40' ∧
    countCompleted c4Plan40'.steps = 23 ∧ c4Plan40'.steps.length = 40 ∧
    c4Plan40'.percent_complete = some 57 ∧
    pyRoundFrac (100 * 23) 40 = 58 := by
  refine ⟨?_, ?_, ?_, ?_, ?_⟩ <;> decide

/-- C4 witness: completing step 1 of a two-step plan stores the
double-rounded ratio (here exactly 50). -/
theorem C4_witness :
    c4Plan'.percent_complete =
      some ((floatPercent (countCompleted c4Plan'.steps)
        c4Plan'.steps.length : Int)) :=
  (C4_percent_after_update (lit "T2") 1 (lit "completed") [] c4Plan c4Plan' (by decide)).1

/-! ### Claims C9 / C10: percent bookkeeping of track / reflect -/

/-- What `_recompute_percent_from_steps` stores. -/
theorem recompute_percent_eq (t : PlanState) :
    (recompute_percent_from_steps t).percent_complete =
      some (if t.steps.isEmpty then 0
        else (floatPercent (countCompleted t.steps) t.steps.length : Int)) := by
  unfold recompute_percent_from_steps
  split
  next hemp => rfl
  next hemp => rfl

/-- C9: a successful `track_progress` with an explicit percentage below 100
and no `complete_plan` stores exactly that percentage (no recomputation),
while a successful non-finalize `reflect_on_plan` recomputes the
percentage from the step ratio (the IEEE-double evaluation)
unconditionally. -/
theorem C9_percent_override :
    (∀ (now msg : Str) (p : Int) (s s' : PlanState),
      0 ≤ p → p ≤ 99 →
      track_progress_state now msg (some p) false s = .ok s' →
      s'.percent_complete = some p) ∧
    (∀ (now summary : Str) (risks next_actions : List Str) (s s' : PlanState),
      reflect_on_plan_state now summary risks next_actions false s = .ok s' →
      s'.percent_complete =
        some (if s.steps.isEmpty then 0
          else (floatPercent (countCompleted s.steps) s.steps.length : Int))) := by
  constructor
  · intro now msg p s s' hp0 hp99 h
    unfold track_progress_state at h
    dsimp only at h
    split_ifs at h with h1 h2 h3 h4 <;> try cases h
    · rcases h3 with hc | hc
      · exact hc.elim
      · have hp : p = 100 := Option.some.inj hc
        omega
    · exact h4.elim
    · rfl
  · intro now summary risks next_actions s s' h
    unfold reflect_on_plan_state at h
    dsimp only at h
    split_ifs at h with h1 h2 <;> try cases h
    · exact h2.elim
    · dsimp only
      rw [recompute_percent_eq]

/-- C9 witness: `track_progress` with explicit 40% on a half-done two-step
plan keeps 40, not the recomputed 50. -/
theorem C9_witness :
    (0 : Int) ≤ 40 ∧ (40 : Int) ≤ 99 ∧
      ({ task := lit "t", status := lit "active", created_at := lit "T",
         updated_at := lit "T2", percent_complete := some 40,
         steps := [⟨1, lit "a", lit "completed"⟩, ⟨2, lit "b", lit "pending"⟩],
         subgoals := [],
         progress_log := [(⟨lit "T2", lit "m", some 40⟩ : ProgressEntry)],
         reflections := [] } : PlanState).percent_complete = some 40 :=
  ⟨by decide, by decide,
    C9_percent_override.1 (lit "T2") (lit "m") 40
      { task := lit "t", status := lit "active", created_at := lit "T",
        updated_at := lit "T", percent_complete := some 0,
        steps := [⟨1, lit "a", lit "completed"⟩, ⟨2, lit "b", lit "pending"⟩],
        subgoals := [], progress_log := [], reflections := [] }
      _ (by decide) (by decide) (by decide)⟩

/-- C10: with no steps, the recomputation stores 0 instead of dividing by
zero, and both `track_progress` (no explicit percent, no complete) and
`reflect_on_plan` (no finalize) succeed on a stepless plan and persist 0. -/
theorem C10_empty_steps_zero :
    (∀ s : PlanState, s.steps = [] →
      (recompute_percent_from_steps s).percent_complete = some 0) ∧
    (∀ (now msg : Str) (s : PlanState), s.steps = [] →
      ¬ (pyStrip msg).isEmpty = true →
      ∃ s', track_progress_state now msg none false s = .ok s' ∧
        s'.percent_complete = some 0) ∧
    (∀ (now summary : Str) (risks next_actions : List Str) (s : PlanState),
      s.steps = [] → ¬ (pyStrip summary).isEmpty = true →
      ∃ s', reflect_on_plan_state now summary risks next_actions false s = .ok s' ∧
        s'.percent_complete = some 0) := by
  refine ⟨?_, ?_, ?_⟩
  · intro s hsteps
    rw [recompute_percent_eq, if_pos (by rw [hsteps]; rfl)]
  · intro now msg s hsteps hmsg
    refine ⟨{ (recompute_percent_from_steps
        { ({ s with progress_log := s.progress_log ++
            [(⟨now, pyStrip msg, none⟩ : ProgressEntry)] } : PlanState) with
          status := checkAllStatus
            ({ s with progress_log := s.progress_log ++
              [(⟨now, pyStrip msg, none⟩ : ProgressEntry)] } : PlanState).steps }) with
        updated_at := now }, ?_, ?_⟩
    · unfold track_progress_state
      dsimp only
      rw [if_neg hmsg, if_neg (by simp), if_neg (by simp), if_pos rfl]
    · dsimp only
      rw [recompute_percent_eq, if_pos (show _ = true by
        show s.steps.isEmpty = true
        rw [hsteps]
        rfl)]
  · intro now summary risks next_actions s hsteps hsum
    refine ⟨{ (recompute_percent_from_steps
        ({ s with reflections := s.reflections ++
          [(⟨now, pyStrip summary, normStrs risks, normStrs next_actions⟩ : Reflection)] }
          : PlanState)) with updated_at := now }, ?_, ?_⟩
    · unfold reflect_on_plan_state
      dsimp only
      rw [if_neg hsum, if_neg (by simp)]
    · dsimp only
      rw [recompute_percent_eq, if_pos (show _ = true by
        show s.steps.isEmpty = true
        rw [hsteps]
        rfl)]

/-- C10 witness: tracking progress on a stepless plan persists 0%. -/
theorem C10_witness :
    ([] : List ChecklistItem) = [] ∧
      ¬ (pyStrip (lit "m")).isEmpty = true ∧
      ∃ s', track_progress_state (lit "T2") (lit "m") none false
        { task := lit "t", status := lit "active", created_at := lit "T",
          updated_at := lit "T", percent_complete := some 7,
          steps := [], subgoals := [], progress_log := [], reflections := [] }
        = .ok s' ∧ s'.percent_complete = some 0 :=
  ⟨rfl, by decide,
    C10_empty_steps_zero.2.1 (lit "T2") (lit "m")
      { task := lit "t", status := lit "active", created_at := lit "T",
        updated_at := lit "T", percent_complete := some 7,
        steps := [], subgoals := [], progress_log := [], reflections := [] }
      rfl (by decide)⟩

/-- C6: with `cleanup_plan_file` requested, a `track_progress` or
`reflect_on_plan` call that reads and transforms the state successfully
and persists it ends in exactly one of three ways: state not completed —
the cleanup error is returned and the freshly written file stays; state
completed and unlink succeeds — the file is removed; state completed and
unlink fails — a warning is returned and the written file stays. -/
theorem C6_cleanup_trichotomy :
    (∀ (now m : Str) (pc : Option Int) (cp unlinkOk : Bool) (file : Option Str)
        (s s' : PlanState),
      read_existing_state now file = .ok (.ok s) →
      track_progress_state now m pc cp s = .ok s' →
      track_progress now m pc cp true file true unlinkOk = .ok
        (if s'.status = lit "completed" then
          if unlinkOk then (lit "Completed plan and removed agent_plan.md", (none : Option Str))
          else (lit "Warning: Plan completed but cleanup failed for agent_plan.md",
            some (serialize_markdown s'))
         else (lit "Error: cleanup_plan_file requires a completed plan",
           some (serialize_markdown s')))) ∧
    (∀ (now summary : Str) (risks next_actions : List Str) (finalize unlinkOk : Bool)
        (file : Option Str) (s s' : PlanState),
      read_existing_state now file = .ok (.ok s) →
      reflect_on_plan_state now summary risks next_actions finalize s = .ok s' →
      reflect_on_plan now summary risks next_actions finalize true file true unlinkOk = .ok
        (if s'.status = lit "completed" then
          if unlinkOk then (lit "Completed plan and removed agent_plan.md", (none : Option Str))
          else (lit "Warning: Plan completed but cleanup failed for agent_plan.md",
            some (serialize_markdown s'))
         else (lit "Error: cleanup_plan_file requires a completed plan",
           some (serialize_markdown s')))) := by
  constructor
  · intro now m pc cp unlinkOk file s s' h1 h2
    have hne : ¬ (pyStrip m).isEmpty = true := by
      intro hemp
      unfold track_progress_state at h2
      rw [if_pos hemp] at h2
      exact Except.noConfusion h2
    have hpc : ¬ (pc.elim false (fun p => decide (p < 0) || decide (100 < p))) = true := by
      intro hbad
      unfold track_progress_state at h2
      dsimp only at h2
      rw [if_neg hne, if_pos hbad] at h2
      exact Except.noConfusion h2
    unfold track_progress
    dsimp only
    rw [if_neg hne, if_neg hpc, h1]
    dsimp only
    rw [h2]
    dsimp only
    unfold write_state
    rw [if_pos rfl]
    dsimp only
    rw [if_neg (by decide)]
    unfold maybe_cleanup_plan_file
    rw [if_neg (by decide)]
    by_cases hst : s'.status = lit "completed"
    · rw [if_neg (not_not_intro hst), if_pos hst]
      by_cases hu : unlinkOk = true
      · rw [if_pos hu, if_pos hu]
      · rw [if_neg hu, if_neg hu]
    · rw [if_pos hst, if_neg hst]
  · intro now summary risks next_actions finalize unlinkOk file s s' h1 h2
    have hne : ¬ (pyStrip summary).isEmpty = true := by
      intro hemp
      unfold reflect_on_plan_state at h2
      rw [if_pos hemp] at h2
      exact Except.noConfusion h2
    unfold reflect_on_plan
    dsimp only
    rw [if_neg hne, h1]
    dsimp only
    rw [h2]
    dsimp only
    unfold write_state
    rw [if_pos rfl]
    dsimp only
    rw [if_neg (by decide)]
    unfold maybe_cleanup_plan_file
    rw [if_neg (by decide)]
    by_cases hst : s'.status = lit "completed"
    · rw [if_neg (not_not_intro hst), if_pos hst]
      by_cases hu : unlinkOk = true
      · rw [if_pos hu, if_pos hu]
      · rw [if_neg hu, if_neg hu]
    · rw [if_pos hst, if_neg hst]

set_option maxRecDepth 10000 in
/-- C6 witness: completing `track_progress` with cleanup on a concrete
one-step plan removes the file; a finalizing `reflect_on_plan` whose
unlink fails returns the warning and keeps the written document. -/
theorem C6_witness :
    track_progress (lit "T2") (lit "done") none true true
        (some (serialize_markdown c6Plan)) true true =
      .ok (lit "Completed plan and removed agent_plan.md", none) ∧
    reflect_on_plan (lit "T2") (lit "r") [] [] true true
        (some (serialize_markdown c6Plan)) true false =
      .ok (lit "Warning: Plan completed but cleanup failed for agent_plan.md",
        some (serialize_markdown c6Plan3)) := by
  constructor
  · rw [C6_cleanup_trichotomy.1 (lit "T2") (lit "done") none true true
      (some (serialize_markdown c6Plan)) c6Plan c6Plan2 (by decide) (by decide)]
    rfl
  · rw [C6_cleanup_trichotomy.2 (lit "T2") (lit "r") [] [] true false
      (some (serialize_markdown c6Plan)) c6Plan c6Plan3 (by decide) (by decide)]
    rfl

/-- C8: `update_plan` with `step_number < 1` or an unrecognized status
returns the validation error with the file untouched, for every file
content and write oracle (so before any file access); with a loaded plan
and `step_number` beyond the step count it returns an `Error:` message and
the on-disk document is unchanged. -/
theorem C8_reject_without_write :
    (∀ (now : Str) (sn : Int) (status note : Str) (file : Option Str) (writeOk : Bool),
      sn < 1 →
      update_plan now sn status note file writeOk =
        .ok (lit "Error: step_number must be >= 1", file)) ∧
    (∀ (now : Str) (sn : Int) (status note : Str) (file : Option Str) (writeOk : Bool),
      1 ≤ sn → ¬ VALID_STATUSES.contains status = true →
      update_plan now sn status note file writeOk =
        .ok (lit "Error: status must be one of: pending, in_progress, completed, blocked",
          file)) ∧
    (∀ (now : Str) (sn : Int) (status note : Str) (file : Option Str) (writeOk : Bool)
        (s : PlanState),
      read_existing_state now file = .ok (.ok s) →
      1 ≤ sn → VALID_STATUSES.contains status = true →
      (s.steps.length : Int) < sn →
      ∃ msg, update_plan now sn status note file writeOk = .ok (msg, file) ∧
        startsWithL (lit "Error:") msg = true) := by
  refine ⟨?_, ?_, ?_⟩
  · intro now sn status note file writeOk h
    unfold update_plan
    rw [if_pos h]
  · intro now sn status note file writeOk h1 h2
    unfold update_plan
    rw [if_neg (not_lt.mpr h1), if_pos h2]
  · intro now sn status note file writeOk s hr h1 h2 hrange
    unfold update_plan
    rw [if_neg (not_lt.mpr h1), if_neg (not_not_intro h2), hr]
    dsimp only
    unfold update_plan_state
    rw [if_neg (not_lt.mpr h1), if_neg (not_not_intro h2)]
    by_cases hemp : s.steps.isEmpty = true
    · rw [if_pos hemp]
      exact ⟨_, rfl, rfl⟩
    · rw [if_neg hemp, if_pos hrange]
      exact ⟨_, rfl, rfl⟩

set_option maxRecDepth 10000 in
/-- C8 witness: step number 0, an unknown status, and step number 5 on a
one-step plan are each rejected with the file intact. -/
theorem C8_witness :
    update_plan (lit "T2") 0 (lit "pending") (lit "n") (some (lit "doc")) true =
      .ok (lit "Error: step_number must be >= 1", some (lit "doc")) ∧
    update_plan (lit "T2") 1 (lit "done") (lit "n") (some (lit "doc")) true =
      .ok (lit "Error: status must be one of: pending, in_progress, completed, blocked",
        some (lit "doc")) ∧
    ∃ msg, update_plan (lit "T2") 5 (lit "completed") (lit "n")
        (some (serialize_markdown c6Plan)) true =
        .ok (msg, some (serialize_markdown c6Plan)) ∧
      startsWithL (lit "Error:") msg = true :=
  ⟨C8_reject_without_write.1 (lit "T2") 0 (lit "pending") (lit "n") (some (lit "doc")) true
     (by decide),
   C8_reject_without_write.2.1 (lit "T2") 1 (lit "done") (lit "n") (some (lit "doc")) true
     (by decide) (by decide),
   C8_reject_without_write.2.2 (lit "T2") 5 (lit "completed") (lit "n")
     (some (serialize_markdown c6Plan)) true c6Plan
     (by decide) (by decide) (by decide) (by decide)⟩

/-! ### Claim C7: decompose_task -/

/-- Invariant of the `_normalize_text_items` loop: every emitted entry is
non-empty and fresh with respect to `seen`, and the output has no
duplicates. -/
theorem normStrsGo_spec (xs : List Str) : ∀ seen : List Str,
    (∀ t ∈ normStrsGo seen xs, t.isEmpty = false ∧ ¬ t ∈ seen) ∧
      (normStrsGo seen xs).Nodup := by
  induction xs with
  | nil => intro seen; constructor
           · intro t ht; exact absurd ht (by simp [normStrsGo])
           · simp [normStrsGo]
  | cons x xs ih =>
      intro seen
      unfold normStrsGo
      dsimp only
      split_ifs with h
      · exact ih seen
      · rw [Bool.or_eq_true, not_or] at h
        obtain ⟨hemp, hseen⟩ := h
        constructor
        · intro t ht
          rcases List.mem_cons.mp ht with rfl | ht
          · refine ⟨by simpa using hemp, ?_⟩
            intro hmem
            exact hseen (by simpa using hmem)
          · have := (ih (pyStrip x :: seen)).1 t ht
            exact ⟨this.1, fun hm => this.2 (List.mem_cons_of_mem _ hm)⟩
        · rw [List.nodup_cons]
          refine ⟨?_, (ih (pyStrip x :: seen)).2⟩
          intro hmem
          exact ((ih (pyStrip x :: seen)).1 _ hmem).2 (List.mem_cons_self _ _)

/-- `_normalize_text_items` output: non-empty entries, no duplicates. -/
theorem normStrs_spec (xs : List Str) :
    (∀ t ∈ normStrs xs, t.isEmpty = false) ∧ (normStrs xs).Nodup :=
  ⟨fun t ht => ((normStrsGo_spec xs []).1 t ht).1, (normStrsGo_spec xs []).2⟩
/-- The five generic fallback steps are pairwise distinct for every task
text (the four fixed entries differ mutually and from the task-bearing
first entry by their first character). -/
theorem fallback_nodup (n : Str) : (fallbackSteps n).Nodup := by
  unfold fallbackSteps
  simp only [List.nodup_cons, List.mem_cons, List.mem_singleton, List.not_mem_nil,
    or_false, not_or]
  refine ⟨⟨?_, ?_, ?_, ?_⟩, by decide⟩ <;>
    · intro h
      have := congrArg (List.head?) h
      simp [lit] at this

/-- Every generic fallback step is a non-empty string. -/
theorem fallback_nonempty (n : Str) : ∀ t ∈ fallbackSteps n, t.isEmpty = false := by
  unfold fallbackSteps
  intro t ht
  rcases List.mem_cons.mp ht with rfl | ht
  · rfl
  · rcases List.mem_cons.mp ht with rfl | ht
    · rfl
    · rcases List.mem_cons.mp ht with rfl | ht
      · rfl
      · rcases List.mem_cons.mp ht with rfl | ht
        · rfl
        · rcases List.mem_singleton.mp ht with rfl
          rfl

/-- C7: amended.  For a task that is non-blank after whitespace
normalization and `max_steps` at least 1, `decompose_task` returns between
`min 2 max_steps` and `max_steps` pairwise-distinct non-empty strings (the
original bounds `2 ≤ length` and "no `Error:` prefix" fail, see the
counterexample); when fewer than two usable fragments are harvested the
result is the fixed 5-step fallback truncated to `max_steps`. -/
theorem C7_decompose_bounds (task : Str) (max_steps : Int)
    (hms : 1 ≤ max_steps)
    (hne : (pyStrip (normWsJoin task)).isEmpty = false) :
    (decompose_task task max_steps).Nodup ∧
    (∀ t ∈ decompose_task task max_steps, t.isEmpty = false) ∧
    min 2 max_steps.toNat ≤ (decompose_task task max_steps).length ∧
    ((decompose_task task max_steps).length : Int) ≤ max_steps ∧
    ((normStrs (if (decomposeCandidates (pyStrip (normWsJoin task))).length < 2 ∧
          (pyStrip (normWsJoin task)).contains ',' = true then
        decomposeCandidates (pyStrip (normWsJoin task)) ++
          commaCandidates (pyStrip (normWsJoin task))
      else decomposeCandidates (pyStrip (normWsJoin task)))).length < 2 →
      decompose_task task max_steps =
        (fallbackSteps (pyStrip (normWsJoin task))).take max_steps.toNat) := by
  unfold decompose_task
  rw [if_neg (by omega), if_neg (by simp [hne])]
  dsimp only
  set n := pyStrip (normWsJoin task) with hn
  set cands := (if (decomposeCandidates n).length < 2 ∧ n.contains ',' = true then
      decomposeCandidates n ++ commaCandidates n
    else decomposeCandidates n) with hcands
  have htn : (max_steps.toNat : Int) = max_steps := Int.toNat_of_nonneg (by omega)
  by_cases hbig : 2 ≤ (normStrs cands).length
  · rw [if_pos hbig]
    refine ⟨?_, ?_, ?_, ?_, ?_⟩
    · exact (List.take_sublist _ _).nodup (normStrs_spec cands).2
    · intro t ht
      exact (normStrs_spec cands).1 t (List.mem_of_mem_take ht)
    · rw [List.length_take]
      omega
    · rw [List.length_take]
      omega
    · intro hlt
      omega
  · rw [if_neg hbig]
    refine ⟨?_, ?_, ?_, ?_, fun _ => rfl⟩
    · exact (List.take_sublist _ _).nodup (fallback_nodup n)
    · intro t ht
      exact fallback_nonempty n t (List.mem_of_mem_take ht)
    · rw [List.length_take]
      have : (fallbackSteps n).length = 5 := rfl
      omega
    · rw [List.length_take]
      omega
/-- C7 counterexample: `decompose_task("Error: a then b", 1)` returns a
single step that starts with `Error:`, refuting both the lower bound 2 and
the no-`Error:`-prefix part of the original claim. -/
theorem C7_counterexample :
    decompose_task (lit "Error: a then b") 1 = [lit "Error: a"] ∧
    startsWithL (lit "Error:") (lit "Error: a") = true ∧
    ¬ 2 ≤ ([lit "Error: a"] : List Str).length := by decide

/-- C7 witness: the amended bounds at the spec motivating example
`decompose_task("Inspect code then implement plan tools then run tests", 4)`. -/
theorem C7_witness :
    (decompose_task (lit "Inspect code then implement plan tools then run tests") 4).Nodup ∧
    (∀ t ∈ decompose_task (lit "Inspect code then implement plan tools then run tests") 4,
      t.isEmpty = false) ∧
    min 2 (4 : Int).toNat ≤
      (decompose_task (lit "Inspect code then implement plan tools then run tests") 4).length ∧
    ((decompose_task (lit "Inspect code then implement plan tools then run tests") 4).length :
      Int) ≤ 4 ∧
    ((normStrs (if (decomposeCandidates (pyStrip (normWsJoin
          (lit "Inspect code then implement plan tools then run tests")))).length < 2 ∧
          (pyStrip (normWsJoin
            (lit "Inspect code then implement plan tools then run tests"))).contains ',' =
            true then
        decomposeCandidates (pyStrip (normWsJoin
          (lit "Inspect code then implement plan tools then run tests"))) ++
          commaCandidates (pyStrip (normWsJoin
            (lit "Inspect code then implement plan tools then run tests")))
      else decomposeCandidates (pyStrip (normWsJoin
        (lit "Inspect code then implement plan tools then run tests"))))).length < 2 →
      decompose_task (lit "Inspect code then implement plan tools then run tests") 4 =
        (fallbackSteps (pyStrip (normWsJoin
          (lit "Inspect code then implement plan tools then run tests")))).take
          (4 : Int).toNat) :=
  C7_decompose_bounds (lit "Inspect code then implement plan tools then run tests") 4
    (by decide) (by decide)

/-- C5: refuted as stated — the coercer can raise.  On the JSON object
`{"reflections": [{"summary": "s", "risks": 5}]}` the reflection
normalizer iterates the truthy non-iterable `5` and a `TypeError`
escapes `_coerce_state`, contradicting the never-raising contract. -/
theorem C5_coercer_raises :
    coerce_state (lit "T")
      [(lit "reflections", JValue.jarr [JValue.jobj
        [(lit "summary", JValue.jstr (lit "s")), (lit "risks", JValue.jint 5)]])] =
      .error .typeError := by decide

/-- C1 witness: the invariant theorem applied to a concrete plan and a
concrete completing update. -/
theorem C1_witness :
    StepsDone (runOps
      { task := lit "t", status := lit "active", created_at := lit "T",
        updated_at := lit "T", percent_complete := some 0,
        steps := [⟨1, lit "a", lit "in_progress"⟩], subgoals := [],
        progress_log := [⟨lit "T", lit "Plan created", some 0⟩], reflections := [] }
      [(lit "T2", .updateOp 1 (lit "completed") [])]) :=
  C1_steps_completed_invariant (lit "T") (lit "t") [lit "a"] _ (by decide)
    [(lit "T2", .updateOp 1 (lit "completed") [])]

/-! ### Round-trip (C2): the serializer prints, the loader re-parses -/

theorem takeDigitsL_append (ds rest : Str)
    (hds : ∀ c ∈ ds, isDigitCh c = true) (hrest : headNotDigit rest) :
    takeDigitsL (ds ++ rest) = (ds, rest) := by
  induction ds with
  | nil =>
      cases rest with
      | nil => rfl
      | cons c r =>
          unfold takeDigitsL
          simp only [List.nil_append]
          rw [if_neg (by simp [show isDigitCh c = false from hrest])]
  | cons c cs ih =>
      unfold takeDigitsL
      simp only [List.cons_append]
      rw [if_pos (hds c (List.mem_cons_self _ _))]
      rw [ih (fun x hx => hds x (List.mem_cons_of_mem _ hx))]

theorem natDecAux_fuel (n : Nat) : ∀ f g, n ≤ f → n ≤ g →
    natDecAux f n = natDecAux g n := by
  induction n using Nat.strong_induction_on with
  | _ n ih =>
      intro f g hf hg
      match n, f, g with
      | 0, 0, 0 => rfl
      | 0, 0, _ + 1 => rfl
      | 0, _ + 1, 0 => rfl
      | 0, _ + 1, _ + 1 => rfl
      | m + 1, f + 1, g + 1 =>
          show natDecAux f ((m + 1) / 10) ++ _ = natDecAux g ((m + 1) / 10) ++ _
          rw [ih ((m + 1) / 10) (by omega) f g (by omega) (by omega)]

theorem natDec_succ (m : Nat) :
    natDec (m + 1) = natDecAux m ((m + 1) / 10) ++ [digitChar ((m + 1) % 10)] := by
  unfold natDec
  rw [if_neg (by omega)]
  rfl

theorem natDecAux_zero (m : Nat) : natDecAux m 0 = [] := by
  cases m <;> rfl

theorem natDecAux_self (q m : Nat) (hq : 0 < q) (h : q ≤ m) :
    natDecAux m q = natDec q := by
  unfold natDec
  rw [if_neg (by omega)]
  exact natDecAux_fuel q m q h (le_refl q)

theorem isDigitCh_digitChar (d : Nat) (h : d < 10) :
    isDigitCh (digitChar d) = true := by
  interval_cases d <;> decide

theorem natDec_digits (n : Nat) : ∀ c ∈ natDec n, isDigitCh c = true := by
  induction n using Nat.strong_induction_on with
  | _ n ih =>
      match n with
      | 0 => intro c hc; rcases List.mem_singleton.mp hc with rfl; rfl
      | m + 1 =>
          rw [natDec_succ]
          intro c hc
          rcases Nat.eq_zero_or_pos ((m + 1) / 10) with hz | hp
          · rw [hz, natDecAux_zero, List.nil_append] at hc
            rcases List.mem_singleton.mp hc with rfl
            exact isDigitCh_digitChar _ (Nat.mod_lt _ (by omega))
          · rw [natDecAux_self ((m + 1) / 10) m hp (by omega)] at hc
            rcases List.mem_append.mp hc with hc | hc
            · exact ih ((m + 1) / 10) (by omega) c hc
            · rcases List.mem_singleton.mp hc with rfl
              exact isDigitCh_digitChar _ (Nat.mod_lt _ (by omega))

theorem digitsToNat_append_one (ds : Str) (c : Char) :
    digitsToNat (ds ++ [c]) = 10 * digitsToNat ds + (c.toNat - 48) := by
  unfold digitsToNat
  rw [List.foldl_append]
  dsimp only [List.foldl]
  omega

theorem digitChar_toNat (d : Nat) (h : d < 10) : (digitChar d).toNat = 48 + d := by
  interval_cases d <;> decide

theorem digitsToNat_natDec (n : Nat) : digitsToNat (natDec n) = n := by
  induction n using Nat.strong_induction_on with
  | _ n ih =>
      match n with
      | 0 => rfl
      | m + 1 =>
          rw [natDec_succ]
          rcases Nat.eq_zero_or_pos ((m + 1) / 10) with hz | hp
          · rw [hz, natDecAux_zero, List.nil_append,
              show ([digitChar ((m + 1) % 10)] : Str) =
                [] ++ [digitChar ((m + 1) % 10)] from rfl,
              digitsToNat_append_one, digitChar_toNat _ (Nat.mod_lt _ (by omega))]
            have : digitsToNat [] = 0 := rfl
            omega
          · rw [natDecAux_self ((m + 1) / 10) m hp (by omega),
              digitsToNat_append_one, ih ((m + 1) / 10) (by omega),
              digitChar_toNat _ (Nat.mod_lt _ (by omega))]
            omega

theorem digitChar_ne_zeroCh (d : Nat) (h1 : 1 ≤ d) (h2 : d < 10) :
    ¬ digitChar d = '0' := by
  interval_cases d <;> decide

theorem natDec_head (n : Nat) (h : 0 < n) :
    ∃ c cs, natDec n = c :: cs ∧ isDigitCh c = true ∧ ¬ c = '0' := by
  induction n using Nat.strong_induction_on with
  | _ n ih =>
      match n, h with
      | m + 1, _ =>
          rw [natDec_succ]
          rcases Nat.eq_zero_or_pos ((m + 1) / 10) with hz | hp
          · rw [hz, natDecAux_zero, List.nil_append]
            have hm : (m + 1) % 10 = m + 1 := Nat.mod_eq_of_lt (by omega)
            exact ⟨digitChar ((m + 1) % 10), [], rfl,
              isDigitCh_digitChar _ (Nat.mod_lt _ (by omega)),
              digitChar_ne_zeroCh _ (by omega) (Nat.mod_lt _ (by omega))⟩
          · rw [natDecAux_self ((m + 1) / 10) m hp (by omega)]
            obtain ⟨c, cs, heq, hdig, hne⟩ := ih ((m + 1) / 10) (by omega) hp
            exact ⟨c, cs ++ [digitChar ((m + 1) % 10)], by rw [heq]; rfl, hdig, hne⟩

theorem natDec_ne_nil (n : Nat) : natDec n ≠ [] := by
  match n with
  | 0 => decide
  | m + 1 =>
      rw [natDec_succ]
      simp

theorem scanIntPart_natDec (n : Nat) (rest : Str) (hrest : headNotDigit rest) :
    scanIntPart (natDec n ++ rest) = some (natDec n, rest) := by
  match n with
  | 0 => rfl
  | m + 1 =>
      obtain ⟨c, cs, heq, hdig, hne⟩ := natDec_head (m + 1) (by omega)
      rw [heq]
      show scanIntPart (c :: (cs ++ rest)) = _
      unfold scanIntPart
      dsimp only
      rw [if_neg (by simp [hne]), if_pos hdig]
      have hcs : ∀ x ∈ cs, isDigitCh x = true := by
        intro x hx
        exact natDec_digits (m + 1) x (by rw [heq]; exact List.mem_cons_of_mem _ hx)
      rw [takeDigitsL_append cs rest hcs hrest]

theorem startsWithL_single_false (c d : Char) (r : Str) (h : ¬ d = c) :
    startsWithL [c] (d :: r) = false := by
  show ((c == d) && startsWithL [] r) = false
  rw [beq_eq_false_iff_ne.mpr (fun hcd => h hcd.symm), Bool.false_and]

theorem numFollow_dot (rest : Str) (hrest : numFollowOk rest) :
    startsWithL (lit ".") rest = false := by
  cases rest with
  | nil => rfl
  | cons c r => exact startsWithL_single_false _ _ _ hrest.2.1

theorem numFollow_e (rest : Str) (hrest : numFollowOk rest) :
    startsWithL (lit "e") rest = false := by
  cases rest with
  | nil => rfl
  | cons c r => exact startsWithL_single_false _ _ _ hrest.2.2.1

theorem numFollow_E (rest : Str) (hrest : numFollowOk rest) :
    startsWithL (lit "E") rest = false := by
  cases rest with
  | nil => rfl
  | cons c r => exact startsWithL_single_false _ _ _ hrest.2.2.2

theorem scanNumber_natDec (m : Nat) (rest : Str) (hrest : numFollowOk rest) :
    scanNumber (natDec m ++ rest) = some (.jint (m : Int), rest) := by
  have hsw : startsWithL (lit "-") (natDec m ++ rest) = false := by
    obtain ⟨c, cs, heq, hdig⟩ :
        ∃ c cs, natDec m = c :: cs ∧ isDigitCh c = true := by
      match m with
      | 0 => exact ⟨'0', [], rfl, rfl⟩
      | k + 1 =>
          obtain ⟨c, cs, heq, hdig, -⟩ := natDec_head (k + 1) (by omega)
          exact ⟨c, cs, heq, hdig⟩
    rw [heq]
    show startsWithL [(Char.ofNat 45)] (c :: (cs ++ rest)) = false
    refine startsWithL_single_false _ _ _ ?_
    intro hc
    subst hc
    exact absurd hdig (by decide)
  unfold scanNumber
  rw [hsw]
  simp only [Bool.false_eq_true, if_false]
  rw [scanIntPart_natDec m rest
    (by cases rest with | nil => trivial | cons c r => exact hrest.1)]
  try dsimp only
  rw [numFollow_dot rest hrest]
  simp only [Bool.false_eq_true, if_false]
  try dsimp only
  rw [numFollow_e rest hrest, numFollow_E rest hrest]
  simp only [Bool.false_eq_true, false_or, if_false]
  try dsimp only
  rw [if_pos (⟨rfl, trivial⟩ : (List.isEmpty [] = true) ∧ True), digitsToNat_natDec]

theorem scanNumber_negNatDec (m : Nat) (rest : Str) (hrest : numFollowOk rest) :
    scanNumber ('-' :: (natDec m ++ rest)) = some (.jint (-(m : Int)), rest) := by
  unfold scanNumber
  rw [show startsWithL (lit "-") ('-' :: (natDec m ++ rest)) = true from rfl]
  simp only [if_true]
  dsimp only [List.drop]
  rw [scanIntPart_natDec m rest
    (by cases rest with | nil => trivial | cons c r => exact hrest.1)]
  try dsimp only
  rw [numFollow_dot rest hrest]
  simp only [Bool.false_eq_true, if_false]
  try dsimp only
  rw [numFollow_e rest hrest, numFollow_E rest hrest]
  simp only [Bool.false_eq_true, false_or, if_false]
  try dsimp only
  rw [if_pos (⟨rfl, trivial⟩ : (List.isEmpty [] = true) ∧ True), digitsToNat_natDec]

theorem scanNumber_intDec (n : Int) (rest : Str) (hrest : numFollowOk rest) :
    scanNumber (intDec n ++ rest) = some (.jint n, rest) := by
  by_cases hneg : n < 0
  · have h1 : intDec n = '-' :: natDec n.natAbs := by
      unfold intDec
      rw [if_pos hneg]
    rw [h1]
    show scanNumber ('-' :: (natDec n.natAbs ++ rest)) = _
    rw [scanNumber_negNatDec n.natAbs rest hrest]
    have : -((n.natAbs : Nat) : Int) = n := by omega
    rw [this]
  · have h1 : intDec n = natDec n.natAbs := by
      unfold intDec
      rw [if_neg hneg]
    rw [h1, scanNumber_natDec n.natAbs rest hrest]
    have : ((n.natAbs : Nat) : Int) = n := by omega
    rw [this]

theorem hexDigitVal_hexChar (d : Nat) (h : d < 16) :
    hexDigitVal (hexChar d) = some d := by
  interval_cases d <;> decide

theorem hex4Val_hex4 (n : Nat) (h : n < 65536) (rest : Str) :
    hex4Val (hex4 n ++ rest) = some (n, rest) := by
  show hex4Val (hexChar (n / 4096 % 16) :: hexChar (n / 256 % 16) ::
    hexChar (n / 16 % 16) :: hexChar (n % 16) :: rest) = _
  unfold hex4Val
  dsimp only
  rw [hexDigitVal_hexChar _ (by omega), hexDigitVal_hexChar _ (by omega),
      hexDigitVal_hexChar _ (by omega), hexDigitVal_hexChar _ (by omega)]
  show some ((((n / 4096 % 16) * 16 + n / 256 % 16) * 16 + n / 16 % 16) * 16 + n % 16,
    rest) = _
  have : (((n / 4096 % 16) * 16 + n / 256 % 16) * 16 + n / 16 % 16) * 16 + n % 16 = n := by
    omega
  rw [this]

theorem char_range (c : Char) :
    c.toNat < 55296 ∨ (57344 ≤ c.toNat ∧ c.toNat < 1114112) := by
  rcases c.valid with h | ⟨h1, h2⟩
  · left
    exact_mod_cast h
  · right
    constructor <;> exact_mod_cast ‹_›

theorem scanStringGo_flatMap (s : Str) : ∀ (acc rest : Str) (fuel : Nat),
    s.length < fuel →
    scanStringGo fuel acc (s.flatMap escJChar ++ (dqChar :: rest)) =
      some (acc.reverse ++ s, rest) := by
  induction s with
  | nil =>
      intro acc rest fuel hf
      cases fuel with
      | zero => omega
      | succ f =>
          show some (acc.reverse, rest) = _
          rw [List.append_nil]
  | cons c cs ih =>
      intro acc rest fuel hf
      cases fuel with
      | zero => omega
      | succ f =>
          have hlen : cs.length < f := by
            simp only [List.length_cons] at hf
            omega
          have hacc : ∀ a : Char, (a :: acc).reverse ++ cs = acc.reverse ++ a :: cs := by
            intro a
            rw [List.reverse_cons, List.append_assoc]
            rfl
          have hstep : (c :: cs).flatMap escJChar ++ (dqChar :: rest) =
              escJChar c ++ (cs.flatMap escJChar ++ (dqChar :: rest)) := by
            rw [List.flatMap_cons, List.append_assoc]
          rw [hstep]
          set X := cs.flatMap escJChar ++ (dqChar :: rest) with hX
          by_cases h1 : c = dqChar
          · subst h1
            show scanStringGo f (dqChar :: acc) X = _
            rw [ih (dqChar :: acc) rest f hlen, hacc]
          · by_cases h2 : c = bsChar
            · subst h2
              show scanStringGo f (bsChar :: acc) X = _
              rw [ih (bsChar :: acc) rest f hlen, hacc]
            · by_cases h3 : c = '\n'
              · subst h3
                show scanStringGo f ('\n' :: acc) X = _
                rw [ih ('\n' :: acc) rest f hlen, hacc]
              · by_cases h4 : c = '\r'
                · subst h4
                  show scanStringGo f ('\r' :: acc) X = _
                  rw [ih ('\r' :: acc) rest f hlen, hacc]
                · by_cases h5 : c = '\t'
                  · subst h5
                    show scanStringGo f ('\t' :: acc) X = _
                    rw [ih ('\t' :: acc) rest f hlen, hacc]
                  · by_cases h6 : c.toNat = 8
                    · have hc : c = Char.ofNat 8 := by
                        rw [← h6, Char.ofNat_toNat]
                      subst hc
                      show scanStringGo f (Char.ofNat 8 :: acc) X = _
                      rw [ih (Char.ofNat 8 :: acc) rest f hlen, hacc]
                    · by_cases h7 : c.toNat = 12
                      · have hc : c = Char.ofNat 12 := by
                          rw [← h7, Char.ofNat_toNat]
                        subst hc
                        show scanStringGo f (Char.ofNat 12 :: acc) X = _
                        rw [ih (Char.ofNat 12 :: acc) rest f hlen, hacc]
                      · by_cases h8 : (32 ≤ c.toNat ∧ c.toNat ≤ 126)
                        · -- printable: escJChar c = [c]
                          have hesc : escJChar c = [c] := by
                            unfold escJChar
                            rw [beq_eq_false_iff_ne.mpr h1, beq_eq_false_iff_ne.mpr h2,
                              beq_eq_false_iff_ne.mpr h3, beq_eq_false_iff_ne.mpr h4,
                              beq_eq_false_iff_ne.mpr h5]
                            simp only [Bool.false_eq_true, if_false]
                            rw [if_neg (by simpa using h6), if_neg (by simpa using h7),
                              if_pos (by simp [h8.1, h8.2])]
                          rw [hesc]
                          show scanStringGo (f + 1) acc (c :: X) = _
                          unfold scanStringGo
                          rw [beq_eq_false_iff_ne.mpr h1, beq_eq_false_iff_ne.mpr h2]
                          simp only [Bool.false_eq_true, if_false]
                          rw [if_neg (by omega)]
                          rw [ih (c :: acc) rest f hlen, hacc]
                        · by_cases h9 : c.toNat < 65536
                          · -- BMP escape: escJChar c = bsChar :: 'u' :: hex4 c.toNat
                            have hesc : escJChar c = bsChar :: 'u' :: hex4 c.toNat := by
                              unfold escJChar
                              rw [beq_eq_false_iff_ne.mpr h1, beq_eq_false_iff_ne.mpr h2,
                                beq_eq_false_iff_ne.mpr h3, beq_eq_false_iff_ne.mpr h4,
                                beq_eq_false_iff_ne.mpr h5]
                              simp only [Bool.false_eq_true, if_false]
                              rw [if_neg (by simpa using h6), if_neg (by simpa using h7),
                                if_neg (by simp [not_and_or] at h8 ⊢; omega),
                                if_pos h9]
                            rw [hesc]
                            show scanStringGo (f + 1) acc
                              (bsChar :: 'u' :: (hex4 c.toNat ++ X)) = _
                            unfold scanStringGo
                            simp only [show (bsChar == dqChar) = false from rfl,
                              show (bsChar == bsChar) = true from rfl,
                              show ('u' == 'u') = true from rfl,
                              Bool.false_eq_true, if_false, if_true]
                            rw [hex4Val_hex4 c.toNat h9 X]
                            dsimp only
                            have hval := char_range c
                            rw [if_neg (by omega), if_neg (by omega),
                              Char.ofNat_toNat, ih (c :: acc) rest f hlen, hacc]
                          · -- astral: surrogate pair
                            have hval := char_range c
                            have hn : 65536 ≤ c.toNat ∧ c.toNat < 1114112 := by omega
                            have hesc : escJChar c =
                                (bsChar :: 'u' :: hex4 (55296 + (c.toNat - 65536) / 1024)) ++
                                  (bsChar :: 'u' :: hex4 (56320 + (c.toNat - 65536) % 1024)) := by
                              unfold escJChar
                              rw [beq_eq_false_iff_ne.mpr h1, beq_eq_false_iff_ne.mpr h2,
                                beq_eq_false_iff_ne.mpr h3, beq_eq_false_iff_ne.mpr h4,
                                beq_eq_false_iff_ne.mpr h5]
                              simp only [Bool.false_eq_true, if_false]
                              rw [if_neg (by simpa using h6), if_neg (by simpa using h7),
                                if_neg (by simp [not_and_or] at h8 ⊢; omega),
                                if_neg (by omega)]
                            rw [hesc]
                            show scanStringGo (f + 1) acc
                              (bsChar :: 'u' :: (hex4 (55296 + (c.toNat - 65536) / 1024) ++
                                (bsChar :: 'u' :: (hex4 (56320 + (c.toNat - 65536) % 1024) ++ X)))) = _
                            unfold scanStringGo
                            simp only [show (bsChar == dqChar) = false from rfl,
                              show (bsChar == bsChar) = true from rfl,
                              show ('u' == 'u') = true from rfl,
                              Bool.false_eq_true, if_false, if_true]
                            rw [hex4Val_hex4 (55296 + (c.toNat - 65536) / 1024) (by omega)]
                            dsimp only
                            rw [if_pos (by constructor <;> omega)]
                            simp only [show (bsChar == bsChar) = true from rfl,
                              show ('u' == 'u') = true from rfl]
                            rw [if_pos (show _ ∧ _ from by constructor <;> trivial)]
                            rw [hex4Val_hex4 (56320 + (c.toNat - 65536) % 1024) (by omega)]
                            dsimp only
                            rw [if_pos (by constructor <;> omega)]
                            have harith : 65536 +
                                (55296 + (c.toNat - 65536) / 1024 - 55296) * 1024 +
                                (56320 + (c.toNat - 65536) % 1024 - 56320) = c.toNat := by
                              omega
                            rw [harith, Char.ofNat_toNat, ih (c :: acc) rest f hlen, hacc]

theorem escJChar_ne_nil (c : Char) : 1 ≤ (escJChar c).length := by
  unfold escJChar
  dsimp only
  repeat' split
  all_goals simp [hex4]

theorem flatMap_esc_len (s : Str) : s.length ≤ (s.flatMap escJChar).length := by
  induction s with
  | nil => simp
  | cons c cs ih =>
      rw [List.flatMap_cons, List.length_append, List.length_cons]
      have := escJChar_ne_nil c
      omega

theorem scanString_flatMap (s rest : Str) :
    scanString (s.flatMap escJChar ++ (dqChar :: rest)) = some (s, rest) := by
  unfold scanString
  rw [scanStringGo_flatMap s [] rest _ (by
    rw [List.length_append, List.length_cons]
    have := flatMap_esc_len s
    omega)]
  rw [List.reverse_nil, List.nil_append]

/-- Whitespace-prefix facts for the parser. -/
theorem jsonWsDrop_ws_append (ws s : Str) (h : ∀ c ∈ ws, isJsonWs c = true) :
    jsonWsDrop (ws ++ s) = jsonWsDrop s := by
  induction ws with
  | nil => rfl
  | cons c cs ih =>
      show jsonWsDrop (c :: (cs ++ s)) = _
      unfold jsonWsDrop
      rw [List.dropWhile_cons, if_pos (by simp [h c (List.mem_cons_self _ _)])]
      exact ih (fun x hx => h x (List.mem_cons_of_mem _ hx))

theorem jsonWsDrop_nonws (s : Str) (c : Char) (hc : isJsonWs c = false) :
    jsonWsDrop (c :: s) = c :: s := by
  unfold jsonWsDrop
  rw [List.dropWhile_cons, if_neg (by simp [hc])]

theorem indentN_ws (lvl : Nat) : ∀ c ∈ indentN lvl, isJsonWs c = true := by
  intro c hc
  rcases List.eq_of_mem_replicate hc with rfl
  rfl

theorem jsonWsDrop_nl_ws (ws s : Str) (hws : ∀ c ∈ ws, isJsonWs c = true) :
    jsonWsDrop ('\n' :: (ws ++ s)) = jsonWsDrop s := by
  show jsonWsDrop (('\n' :: ws) ++ s) = _
  exact jsonWsDrop_ws_append _ _ (by
    intro c hc
    rcases List.mem_cons.mp hc with rfl | hc
    · rfl
    · exact hws c hc)

/-- A character in the `-` .. `9` code-point band is not JSON whitespace
and not a closing bracket. -/
theorem band_facts (c : Char) (h : 45 ≤ c.toNat ∧ c.toNat ≤ 57) :
    isJsonWs c = false ∧ ¬ c = Char.ofNat 93 ∧ ¬ c = Char.ofNat 125 := by
  refine ⟨?_, ?_, ?_⟩
  · simp only [isJsonWs, Bool.or_eq_false_iff]
    refine ⟨⟨⟨?_, ?_⟩, ?_⟩, ?_⟩ <;>
      · rw [beq_eq_false_iff_ne]
        intro hc
        subst hc
        exact absurd h (by decide)
  · intro hc
    subst hc
    exact absurd h (by decide)
  · intro hc
    subst hc
    exact absurd h (by decide)

theorem isDigitCh_band (c : Char) (h : isDigitCh c = true) :
    45 ≤ c.toNat ∧ c.toNat ≤ 57 := by
  have := (Bool.and_eq_true _ _).mp h
  constructor
  · have := Nat.le_of_ble_eq_true (by simpa using this.1)
    omega
  · exact Nat.le_of_ble_eq_true (by simpa using this.2)

/-- The first character of a printed integer. -/
theorem intDec_head (n : Int) :
    ∃ c t, intDec n = c :: t ∧ (isDigitCh c = true ∨ c = Char.ofNat 45) := by
  unfold intDec
  split_ifs with h
  · exact ⟨Char.ofNat 45, natDec n.natAbs, rfl, Or.inr rfl⟩
  · match hm : n.natAbs with
    | 0 => exact ⟨Char.ofNat 48, [], rfl, Or.inl rfl⟩
    | m + 1 =>
        obtain ⟨c, cs, heq, hdig, -⟩ := natDec_head (m + 1) (by omega)
        exact ⟨c, cs, heq, Or.inl hdig⟩

/-- Heads of printed values: nonempty, not whitespace, not a closer. -/
theorem dumpsVal_head (lvl : Nat) (v : JValue) (hok : jvOkV v = true) :
    ∃ c t, dumpsVal lvl v = c :: t ∧ isJsonWs c = false ∧
      ¬ c = Char.ofNat 93 ∧ ¬ c = Char.ofNat 125 := by
  match v with
  | .jnull => exact ⟨Char.ofNat 110, _, rfl, rfl, by decide, by decide⟩
  | .jbool true => exact ⟨Char.ofNat 116, _, rfl, rfl, by decide, by decide⟩
  | .jbool false => exact ⟨Char.ofNat 102, _, rfl, rfl, by decide, by decide⟩
  | .jint n =>
      obtain ⟨c, t, heq, hc⟩ := intDec_head n
      have hband : 45 ≤ c.toNat ∧ c.toNat ≤ 57 := by
        rcases hc with hd | rfl
        · exact isDigitCh_band c hd
        · decide
      obtain ⟨hw, h93, h125⟩ := band_facts c hband
      exact ⟨c, t, heq, hw, h93, h125⟩
  | .jfloat m e => exact absurd hok (by simp [jvOkV])
  | .jstr s => exact ⟨dqChar, _, rfl, rfl, by decide, by decide⟩
  | .jarr [] => exact ⟨Char.ofNat 91, _, rfl, rfl, by decide, by decide⟩
  | .jarr (x :: xs) => exact ⟨Char.ofNat 91, _, rfl, rfl, by decide, by decide⟩
  | .jobj [] => exact ⟨Char.ofNat 123, _, rfl, rfl, by decide, by decide⟩
  | .jobj (p :: ps) => exact ⟨Char.ofNat 123, _, rfl, rfl, by decide, by decide⟩

theorem dictInsert_fresh (k : Str) (v : JValue) (d : List (Str × JValue))
    (h : ∀ p ∈ d, ¬ p.1 = k) : dictInsert k v d = d ++ [(k, v)] := by
  induction d with
  | nil => rfl
  | cons p ps ih =>
      unfold dictInsert
      rw [beq_eq_false_iff_ne.mpr (h p (List.mem_cons_self _ _))]
      simp only [Bool.false_eq_true, if_false]
      rw [ih (fun q hq => h q (List.mem_cons_of_mem _ hq))]
      rfl

theorem keysFresh_iff (ks : List Str) : keysFresh ks = true ↔ ks.Nodup := by
  induction ks with
  | nil => simp [keysFresh]
  | cons k ks ih =>
      unfold keysFresh
      rw [Bool.and_eq_true, List.nodup_cons, ← ih]
      constructor
      · rintro ⟨h1, h2⟩
        exact ⟨by simpa using h1, h2⟩
      · rintro ⟨h1, h2⟩
        exact ⟨by simpa using h1, h2⟩

theorem foldl_dictInsert (ms : List (Str × JValue)) : ∀ acc,
    (∀ q ∈ acc, ∀ r ∈ ms, ¬ q.1 = r.1) → (ms.map Prod.fst).Nodup →
    ms.foldl (fun d p => dictInsert p.1 p.2 d) acc = acc ++ ms := by
  induction ms with
  | nil => intro acc _ _; rw [List.foldl_nil, List.append_nil]
  | cons p ps ih =>
      intro acc hdisj hnd
      rw [List.foldl_cons]
      have hins : dictInsert p.1 p.2 acc = acc ++ [p] := by
        exact dictInsert_fresh _ _ _
          (fun q hq => hdisj q hq p (List.mem_cons_self _ _))
      rw [hins]
      rw [List.map_cons, List.nodup_cons] at hnd
      have := ih (acc ++ [p]) (by
        intro q hq r hr
        rcases List.mem_append.mp hq with hq | hq
        · exact hdisj q hq r (List.mem_cons_of_mem _ hr)
        · rcases List.mem_singleton.mp hq with rfl
          intro hqr
          exact hnd.1 (hqr ▸ List.mem_map_of_mem Prod.fst hr)) hnd.2
      rw [this, List.append_assoc]
      rfl

theorem dictFromPairs_nodup (ms : List (Str × JValue))
    (h : keysFresh (ms.map Prod.fst) = true) : dictFromPairs ms = ms := by
  unfold dictFromPairs
  rw [foldl_dictInsert ms [] (by intro q hq; exact absurd hq (List.not_mem_nil q))
    ((keysFresh_iff _).mp h)]
  rfl

theorem sw_cons_false (p : Char) (ps : Str) (c : Char) (X : Str) (h : ¬ p = c) :
    startsWithL (p :: ps) (c :: X) = false := by
  show ((p == c) && startsWithL ps X) = false
  rw [beq_eq_false_iff_ne.mpr h, Bool.false_and]

theorem sw_null_false (c : Char) (X : Str) (h : ¬ ('n' : Char) = c) :
    startsWithL (lit "null") (c :: X) = false := sw_cons_false 'n' (lit "ull") c X h

theorem sw_true_false (c : Char) (X : Str) (h : ¬ ('t' : Char) = c) :
    startsWithL (lit "true") (c :: X) = false := sw_cons_false 't' (lit "rue") c X h

theorem sw_false_false (c : Char) (X : Str) (h : ¬ ('f' : Char) = c) :
    startsWithL (lit "false") (c :: X) = false := sw_cons_false 'f' (lit "alse") c X h

theorem sw1_false (d : Char) (c : Char) (X : Str) (h : ¬ d = c) :
    startsWithL [d] (c :: X) = false := sw_cons_false d [] c X h

theorem dumpsElems_cons_append (lvl : Nat) (x : JValue) (xs : List JValue) :
    ∃ tail, dumpsElems lvl (x :: xs) = dumpsVal lvl x ++ tail := by
  cases xs with
  | nil => exact ⟨[], by rw [List.append_nil]; rfl⟩
  | cons y ys => exact ⟨_, rfl⟩

theorem dumpsPairs_head (lvl : Nat) (k : Str) (v : JValue) (ps : List (Str × JValue)) :
    ∃ tail, dumpsPairs lvl ((k, v) :: ps) = dqChar :: tail := by
  cases ps with
  | nil => exact ⟨_, rfl⟩
  | cons q qs => exact ⟨_, rfl⟩

/-- Band facts for a char between `-` and `9`: not equal to the literal
heads the parser probes first. -/
theorem band_ne (c : Char) (h : 45 ≤ c.toNat ∧ c.toNat ≤ 57) :
    ¬ ('n' : Char) = c ∧ ¬ ('t' : Char) = c ∧ ¬ ('f' : Char) = c ∧
      ¬ (c == dqChar) = true ∧ ¬ (c == '[') = true ∧ ¬ (c == '{') = true := by
  refine ⟨?_, ?_, ?_, ?_, ?_, ?_⟩
  · intro hc; rw [← hc] at h; exact absurd h (by decide)
  · intro hc; rw [← hc] at h; exact absurd h (by decide)
  · intro hc; rw [← hc] at h; exact absurd h (by decide)
  · rw [beq_iff_eq]; intro hc; rw [hc] at h; exact absurd h (by decide)
  · rw [beq_iff_eq]; intro hc; rw [hc] at h; exact absurd h (by decide)
  · rw [beq_iff_eq]; intro hc; rw [hc] at h; exact absurd h (by decide)

mutual

theorem rt_val (v : JValue) (lvl fuel : Nat) (rest : Str)
    (hsz : jvSizeV v < fuel) (hok : jvOkV v = true) (hfo : numFollowOk rest) :
    parseJVal fuel (dumpsVal lvl v ++ rest) = some (v, rest) := by
  match fuel, v with
  | 0, v => exact absurd hsz (by omega)
  | f + 1, .jnull => exact rfl
  | f + 1, .jbool true => exact rfl
  | f + 1, .jbool false => exact rfl
  | f + 1, .jfloat m e => exact absurd hok (by simp [jvOkV])
  | f + 1, .jint n =>
      obtain ⟨c, t, heq, hc⟩ := intDec_head n
      have hband : 45 ≤ c.toNat ∧ c.toNat ≤ 57 := by
        rcases hc with hd | rfl
        · exact isDigitCh_band c hd
        · decide
      obtain ⟨hn, ht, hf2, hdq, hlb, hlc⟩ := band_ne c hband
      show parseJVal (f + 1) (intDec n ++ rest) = _
      rw [heq]
      show parseJVal (f + 1) (c :: (t ++ rest)) = _
      unfold parseJVal
      rw [sw_null_false c _ hn, sw_true_false c _ ht, sw_false_false c _ hf2]
      simp only [Bool.false_eq_true, if_false]
      try dsimp only
      rw [if_neg hdq, if_neg hlb, if_neg hlc]
      have hcond : (c == Char.ofNat 45 || isDigitCh c) = true := by
        rcases hc with hd | rfl
        · rw [hd, Bool.or_true]
        · rfl
      rw [if_pos hcond]
      show scanNumber ((c :: t) ++ rest) = _
      rw [← heq]
      exact scanNumber_intDec n rest hfo
  | f + 1, .jstr s =>
      show parseJVal (f + 1) (jsonQuote s ++ rest) = _
      have hform : jsonQuote s ++ rest =
          dqChar :: (s.flatMap escJChar ++ (dqChar :: rest)) := by
        unfold jsonQuote
        simp [List.append_assoc]
      rw [hform]
      unfold parseJVal
      rw [sw_null_false _ _ (by decide), sw_true_false _ _ (by decide),
        sw_false_false _ _ (by decide)]
      simp only [Bool.false_eq_true, if_false]
      try dsimp only
      rw [if_pos (show (dqChar == dqChar) = true from rfl)]
      rw [scanString_flatMap s rest]
  | f + 1, .jarr [] => exact rfl
  | f + 1, .jobj [] => exact rfl
  | f + 1, .jarr (x :: xs) =>
      show parseJVal (f + 1)
        (('[' :: '\n' :: (indentN (lvl + 1) ++ dumpsElems (lvl + 1) (x :: xs) ++
          '\n' :: (indentN lvl ++ [Char.ofNat 93]))) ++ rest) = _
      have hform : (('[' :: '\n' :: (indentN (lvl + 1) ++ dumpsElems (lvl + 1) (x :: xs) ++
          '\n' :: (indentN lvl ++ [Char.ofNat 93]))) ++ rest) =
          '[' :: ('\n' :: (indentN (lvl + 1) ++
            (dumpsElems (lvl + 1) (x :: xs) ++
              ('\n' :: (indentN lvl ++ (Char.ofNat 93 :: rest)))))) := by
        simp [List.append_assoc]
      rw [hform]
      unfold parseJVal
      rw [sw_null_false _ _ (by decide), sw_true_false _ _ (by decide),
        sw_false_false _ _ (by decide)]
      simp only [Bool.false_eq_true, if_false]
      try dsimp only
      rw [if_neg (by decide), if_pos (show (('[' : Char) == '[') = true from rfl)]
      have hok2 : jvOkA (x :: xs) = true := by
        have : jvOkV (.jarr (x :: xs)) = jvOkA (x :: xs) := rfl
        rw [← this]; exact hok
      have hokx : jvOkV x = true := by
        unfold jvOkA at hok2
        exact ((Bool.and_eq_true _ _).mp hok2).1
      obtain ⟨tailE, htl⟩ := dumpsElems_cons_append (lvl + 1) x xs
      obtain ⟨c0, t0, hhd, hws0, h93, h125⟩ := dumpsVal_head (lvl + 1) x hokx
      have hdrop : jsonWsDrop ('\n' :: (indentN (lvl + 1) ++
          (dumpsElems (lvl + 1) (x :: xs) ++
            ('\n' :: (indentN lvl ++ (Char.ofNat 93 :: rest)))))) =
          dumpsElems (lvl + 1) (x :: xs) ++
            ('\n' :: (indentN lvl ++ (Char.ofNat 93 :: rest))) := by
        rw [jsonWsDrop_nl_ws _ _ (indentN_ws (lvl + 1)), htl, hhd]
        show jsonWsDrop (c0 :: (t0 ++ tailE ++ _)) = _
        rw [jsonWsDrop_nonws _ c0 hws0]
        simp [List.append_assoc]
      rw [hdrop]
      have hsw : startsWithL (lit "]") (dumpsElems (lvl + 1) (x :: xs) ++
          ('\n' :: (indentN lvl ++ (Char.ofNat 93 :: rest)))) = false := by
        rw [htl, hhd]
        show startsWithL (lit "]") (c0 :: (t0 ++ tailE ++ _)) = false
        exact sw1_false _ _ _ (fun hcc => h93 hcc.symm)
      rw [hsw]
      simp only [Bool.false_eq_true, if_false]
      rw [rt_elems x xs (lvl + 1) f (indentN lvl) rest
        (by have : jvSizeV (.jarr (x :: xs)) = 1 + jvSizeA (x :: xs) := rfl
            rw [this] at hsz; omega)
        hok2 (indentN_ws lvl)]
  | f + 1, .jobj (p :: ps) =>
      show parseJVal (f + 1)
        (('{' :: '\n' :: (indentN (lvl + 1) ++ dumpsPairs (lvl + 1) (p :: ps) ++
          '\n' :: (indentN lvl ++ [Char.ofNat 125]))) ++ rest) = _
      have hform : (('{' :: '\n' :: (indentN (lvl + 1) ++ dumpsPairs (lvl + 1) (p :: ps) ++
          '\n' :: (indentN lvl ++ [Char.ofNat 125]))) ++ rest) =
          '{' :: ('\n' :: (indentN (lvl + 1) ++
            (dumpsPairs (lvl + 1) (p :: ps) ++
              ('\n' :: (indentN lvl ++ (Char.ofNat 125 :: rest)))))) := by
        simp [List.append_assoc]
      rw [hform]
      unfold parseJVal
      rw [sw_null_false _ _ (by decide), sw_true_false _ _ (by decide),
        sw_false_false _ _ (by decide)]
      simp only [Bool.false_eq_true, if_false]
      try dsimp only
      rw [if_neg (by decide), if_neg (by decide),
        if_pos (show (('{' : Char) == '{') = true from rfl)]
      have hok2 : (keysFresh ((p :: ps).map Prod.fst) && jvOkP (p :: ps)) = true := by
        have : jvOkV (.jobj (p :: ps)) =
            (keysFresh ((p :: ps).map Prod.fst) && jvOkP (p :: ps)) := rfl
        rw [← this]; exact hok
      rw [Bool.and_eq_true] at hok2
      obtain ⟨tailP, htl⟩ := dumpsPairs_head (lvl + 1) p.1 p.2 ps
      have hdrop : jsonWsDrop ('\n' :: (indentN (lvl + 1) ++
          (dumpsPairs (lvl + 1) (p :: ps) ++
            ('\n' :: (indentN lvl ++ (Char.ofNat 125 :: rest)))))) =
          dumpsPairs (lvl + 1) (p :: ps) ++
            ('\n' :: (indentN lvl ++ (Char.ofNat 125 :: rest))) := by
        rw [jsonWsDrop_nl_ws _ _ (indentN_ws (lvl + 1))]
        rw [show ((p.1, p.2) : Str × JValue) = p from rfl] at htl
        rw [htl]
        show jsonWsDrop (dqChar :: (tailP ++ _)) = _
        rw [jsonWsDrop_nonws _ dqChar rfl]
        rfl
      rw [hdrop]
      have hsw : startsWithL (lit "\x7d") (dumpsPairs (lvl + 1) (p :: ps) ++
          ('\n' :: (indentN lvl ++ (Char.ofNat 125 :: rest)))) = false := by
        rw [show ((p.1, p.2) : Str × JValue) = p from rfl] at htl
        rw [htl]
        show startsWithL (lit "\x7d") (dqChar :: (tailP ++ _)) = false
        exact sw1_false _ _ _ (by decide)
      rw [hsw]
      simp only [Bool.false_eq_true, if_false]
      rw [rt_members p ps (lvl + 1) f (indentN lvl) rest
        (by have : jvSizeV (.jobj (p :: ps)) = 1 + jvSizeP (p :: ps) := rfl
            rw [this] at hsz; omega)
        hok2.2 (indentN_ws lvl)]
      dsimp only
      rw [dictFromPairs_nodup _ hok2.1]

theorem rt_elems (x : JValue) (xs : List JValue) (lvl fuel : Nat) (ws rest : Str)
    (hsz : jvSizeA (x :: xs) < fuel) (hok : jvOkA (x :: xs) = true)
    (hws : ∀ c ∈ ws, isJsonWs c = true) :
    parseJElems fuel (dumpsElems lvl (x :: xs) ++
      ('\n' :: (ws ++ (Char.ofNat 93 :: rest)))) = some (x :: xs, rest) := by
  have hszA : 1 + jvSizeV x + jvSizeA xs < fuel := by
    have : jvSizeA (x :: xs) = 1 + jvSizeV x + jvSizeA xs := rfl
    rw [← this]; exact hsz
  match fuel with
  | 0 => omega
  | f + 1 =>
      unfold jvOkA at hok
      rw [Bool.and_eq_true] at hok
      cases xs with
      | nil =>
          show parseJElems (f + 1) (dumpsVal lvl x ++
            ('\n' :: (ws ++ (Char.ofNat 93 :: rest)))) = _
          unfold parseJElems
          rw [rt_val x lvl f _ (by
              have : jvSizeA [] = 0 := rfl
              omega) hok.1
            (show numFollowOk ('\n' :: (ws ++ (Char.ofNat 93 :: rest))) from
              ⟨rfl, by decide, by decide, by decide⟩)]
          try dsimp only
          rw [jsonWsDrop_nl_ws _ _ hws, jsonWsDrop_nonws _ _ (by decide)]
          rw [show startsWithL (lit ",") (Char.ofNat 93 :: rest) = false from
            sw1_false _ _ _ (by decide)]
          simp only [Bool.false_eq_true, if_false]
          rw [show startsWithL (lit "]") (Char.ofNat 93 :: rest) = true from rfl]
          rw [if_pos rfl]
          rfl
      | cons y ys =>
          have hform : dumpsElems lvl (x :: y :: ys) ++
              ('\n' :: (ws ++ (Char.ofNat 93 :: rest))) =
              dumpsVal lvl x ++ (',' :: '\n' :: (indentN lvl ++
                (dumpsElems lvl (y :: ys) ++
                  ('\n' :: (ws ++ (Char.ofNat 93 :: rest)))))) := by
            show (dumpsVal lvl x ++ (',' :: '\n' :: (indentN lvl ++ dumpsElems lvl (y :: ys)))) ++ _ = _
            simp [List.append_assoc]
          rw [hform]
          unfold parseJElems
          rw [rt_val x lvl f _ (by omega) hok.1
            (show numFollowOk (',' :: _) from ⟨rfl, by decide, by decide, by decide⟩)]
          try dsimp only
          rw [jsonWsDrop_nonws _ ',' rfl]
          rw [show ∀ Z, startsWithL (lit ",") (',' :: Z) = true from fun Z => rfl]
          rw [if_pos rfl]
          dsimp only [List.drop]
          obtain ⟨tailE, htl⟩ := dumpsElems_cons_append lvl y ys
          have hoky : jvOkV y = true := by
            unfold jvOkA at hok
            exact ((Bool.and_eq_true _ _).mp hok.2).1
          obtain ⟨c0, t0, hhd, hws0, h93, h125⟩ := dumpsVal_head lvl y hoky
          have hjd : jsonWsDrop (dumpsElems lvl (y :: ys) ++
              ('\n' :: (ws ++ (Char.ofNat 93 :: rest)))) =
              dumpsElems lvl (y :: ys) ++ ('\n' :: (ws ++ (Char.ofNat 93 :: rest))) := by
            rw [htl, hhd]
            show jsonWsDrop (c0 :: ((t0 ++ tailE) ++
              ('\n' :: (ws ++ (Char.ofNat 93 :: rest))))) = _
            rw [jsonWsDrop_nonws _ c0 hws0]
            rfl
          rw [jsonWsDrop_nl_ws _ _ (indentN_ws lvl), hjd]
          rw [rt_elems y ys lvl f ws rest (by
              have : jvSizeA (y :: ys) = 1 + jvSizeV y + jvSizeA ys := rfl
              omega) hok.2 hws]

theorem rt_members (p : Str × JValue) (ps : List (Str × JValue)) (lvl fuel : Nat)
    (ws rest : Str)
    (hsz : jvSizeP (p :: ps) < fuel) (hok : jvOkP (p :: ps) = true)
    (hws : ∀ c ∈ ws, isJsonWs c = true) :
    parseJMembers fuel (dumpsPairs lvl (p :: ps) ++
      ('\n' :: (ws ++ (Char.ofNat 125 :: rest)))) = some (p :: ps, rest) := by
  have hszP : 1 + jvSizeV p.2 + jvSizeP ps < fuel := by
    have : jvSizeP (p :: ps) = 1 + jvSizeV p.2 + jvSizeP ps := rfl
    rw [← this]; exact hsz
  match fuel with
  | 0 => omega
  | f + 1 =>
      unfold jvOkP at hok
      rw [Bool.and_eq_true] at hok
      cases ps with
      | nil =>
          have hform : dumpsPairs lvl [p] ++ ('\n' :: (ws ++ (Char.ofNat 125 :: rest))) =
              dqChar :: (p.1.flatMap escJChar ++ (dqChar :: (':' :: (' ' ::
                (dumpsVal lvl p.2 ++ ('\n' :: (ws ++ (Char.ofNat 125 :: rest)))))))) := by
            show (jsonQuote p.1 ++ (':' :: (' ' :: dumpsVal lvl p.2))) ++ _ = _
            unfold jsonQuote
            simp [List.append_assoc]
          rw [hform]
          unfold parseJMembers
          try dsimp only
          rw [if_pos (show (dqChar == dqChar) = true from rfl)]
          rw [scanString_flatMap]
          try dsimp only
          rw [jsonWsDrop_nonws _ ':' rfl]
          rw [show ∀ Z, startsWithL (lit ":") (':' :: Z) = true from fun Z => rfl]
          rw [if_pos rfl]
          dsimp only [List.drop]
          obtain ⟨c0, t0, hhd, hws0, h93, h125⟩ := dumpsVal_head lvl p.2 hok.1
          rw [show jsonWsDrop (' ' :: (dumpsVal lvl p.2 ++
              ('\n' :: (ws ++ (Char.ofNat 125 :: rest))))) =
              jsonWsDrop (dumpsVal lvl p.2 ++ ('\n' :: (ws ++ (Char.ofNat 125 :: rest)))) from
            jsonWsDrop_ws_append [' '] _ (by intro c hc; rcases List.mem_singleton.mp hc with rfl; rfl)]
          rw [show jsonWsDrop (dumpsVal lvl p.2 ++
              ('\n' :: (ws ++ (Char.ofNat 125 :: rest)))) =
              dumpsVal lvl p.2 ++ ('\n' :: (ws ++ (Char.ofNat 125 :: rest))) from by
            rw [hhd]
            show jsonWsDrop (c0 :: (t0 ++ ('\n' :: (ws ++ (Char.ofNat 125 :: rest))))) = _
            rw [jsonWsDrop_nonws _ c0 hws0]
            rfl]
          rw [rt_val p.2 lvl f _ (by
              have : jvSizeP ([] : List (Str × JValue)) = 0 := rfl
              omega) hok.1
            (show numFollowOk ('\n' :: _) from ⟨rfl, by decide, by decide, by decide⟩)]
          try dsimp only
          rw [jsonWsDrop_nl_ws _ _ hws, jsonWsDrop_nonws _ _ (by decide)]
          rw [show startsWithL (lit ",") (Char.ofNat 125 :: rest) = false from
            sw1_false _ _ _ (by decide)]
          simp only [Bool.false_eq_true, if_false]
          rw [show startsWithL (lit "\x7d") (Char.ofNat 125 :: rest) = true from rfl]
          rw [if_pos rfl]
          rfl
      | cons q qs =>
          have hform : dumpsPairs lvl (p :: q :: qs) ++
              ('\n' :: (ws ++ (Char.ofNat 125 :: rest))) =
              dqChar :: (p.1.flatMap escJChar ++ (dqChar :: (':' :: (' ' ::
                (dumpsVal lvl p.2 ++ (',' :: '\n' :: (indentN lvl ++
                  (dumpsPairs lvl (q :: qs) ++
                    ('\n' :: (ws ++ (Char.ofNat 125 :: rest))))))))))) := by
            show (jsonQuote p.1 ++ (':' :: (' ' :: dumpsVal lvl p.2)) ++
              (',' :: '\n' :: (indentN lvl ++ dumpsPairs lvl (q :: qs)))) ++ _ = _
            unfold jsonQuote
            simp [List.append_assoc]
          rw [hform]
          unfold parseJMembers
          try dsimp only
          rw [if_pos (show (dqChar == dqChar) = true from rfl)]
          rw [scanString_flatMap]
          try dsimp only
          rw [jsonWsDrop_nonws _ ':' rfl]
          rw [show ∀ Z, startsWithL (lit ":") (':' :: Z) = true from fun Z => rfl]
          rw [if_pos rfl]
          dsimp only [List.drop]
          obtain ⟨c0, t0, hhd, hws0, h93, h125⟩ := dumpsVal_head lvl p.2 hok.1
          rw [show jsonWsDrop (' ' :: (dumpsVal lvl p.2 ++ (',' :: '\n' :: (indentN lvl ++
              (dumpsPairs lvl (q :: qs) ++ ('\n' :: (ws ++ (Char.ofNat 125 :: rest)))))))) =
              jsonWsDrop (dumpsVal lvl p.2 ++ (',' :: '\n' :: (indentN lvl ++
              (dumpsPairs lvl (q :: qs) ++ ('\n' :: (ws ++ (Char.ofNat 125 :: rest))))))) from
            jsonWsDrop_ws_append [' '] _ (by intro c hc; rcases List.mem_singleton.mp hc with rfl; rfl)]
          rw [show jsonWsDrop (dumpsVal lvl p.2 ++ (',' :: '\n' :: (indentN lvl ++
              (dumpsPairs lvl (q :: qs) ++ ('\n' :: (ws ++ (Char.ofNat 125 :: rest))))))) =
              dumpsVal lvl p.2 ++ (',' :: '\n' :: (indentN lvl ++
              (dumpsPairs lvl (q :: qs) ++ ('\n' :: (ws ++ (Char.ofNat 125 :: rest)))))) from by
            rw [hhd]
            show jsonWsDrop (c0 :: (t0 ++ (',' :: '\n' :: (indentN lvl ++
              (dumpsPairs lvl (q :: qs) ++ ('\n' :: (ws ++ (Char.ofNat 125 :: rest)))))))) = _
            rw [jsonWsDrop_nonws _ c0 hws0]
            rfl]
          rw [rt_val p.2 lvl f _ (by omega) hok.1
            (show numFollowOk (',' :: _) from ⟨rfl, by decide, by decide, by decide⟩)]
          try dsimp only
          rw [jsonWsDrop_nonws _ ',' rfl]
          rw [show ∀ Z, startsWithL (lit ",") (',' :: Z) = true from fun Z => rfl]
          rw [if_pos rfl]
          dsimp only [List.drop]
          obtain ⟨tailP, htlP⟩ := dumpsPairs_head lvl q.1 q.2 qs
          rw [show ((q.1, q.2) : Str × JValue) = q from rfl] at htlP
          have hjdP : jsonWsDrop (dumpsPairs lvl (q :: qs) ++
              ('\n' :: (ws ++ (Char.ofNat 125 :: rest)))) =
              dumpsPairs lvl (q :: qs) ++ ('\n' :: (ws ++ (Char.ofNat 125 :: rest))) := by
            rw [htlP]
            show jsonWsDrop (dqChar :: (tailP ++
              ('\n' :: (ws ++ (Char.ofNat 125 :: rest))))) = _
            rw [jsonWsDrop_nonws _ dqChar rfl]
            rfl
          rw [jsonWsDrop_nl_ws _ _ (indentN_ws lvl), hjdP]
          rw [rt_members q qs lvl f ws rest (by
              have : jvSizeP (q :: qs) = 1 + jvSizeV q.2 + jvSizeP qs := rfl
              omega) hok.2 hws]

end

mutual

theorem size_le_len_val (v : JValue) (lvl : Nat) :
    jvSizeV v ≤ (dumpsVal lvl v).length := by
  match v with
  | .jnull => exact (by decide : (1 : Nat) ≤ 4)
  | .jbool true => exact (by decide : (1 : Nat) ≤ 4)
  | .jbool false => exact (by decide : (1 : Nat) ≤ 5)
  | .jint n =>
      have h1 : jvSizeV (.jint n) = 1 := rfl
      have h2 : 1 ≤ (intDec n).length := by
        obtain ⟨c, t, heq, -⟩ := intDec_head n
        rw [heq]
        simp
      exact le_of_eq_of_le h1 h2
  | .jfloat m e =>
      have h1 : jvSizeV (.jfloat m e) = 1 := rfl
      have h2 : 1 ≤ (floatDec m e).length := by
        obtain ⟨c, t, heq, -⟩ := intDec_head m
        show 1 ≤ (intDec m ++ Char.ofNat 101 :: intDec e).length
        rw [List.length_append]
        simp only [List.length_cons]
        omega
      exact le_of_eq_of_le h1 h2
  | .jstr str =>
      have h1 : jvSizeV (.jstr str) = 1 := rfl
      have h2 : 1 ≤ (jsonQuote str).length := by
        unfold jsonQuote
        simp
      exact le_of_eq_of_le h1 h2
  | .jarr [] => exact (by decide : (1 : Nat) ≤ 2)
  | .jobj [] => exact (by decide : (1 : Nat) ≤ 2)
  | .jarr (x :: xs) =>
      have h1 : jvSizeV (.jarr (x :: xs)) = 1 + jvSizeA (x :: xs) := rfl
      have h2 : (dumpsVal lvl (.jarr (x :: xs))).length =
          2 + ((indentN (lvl + 1)).length + ((dumpsElems (lvl + 1) (x :: xs)).length +
            (1 + ((indentN lvl).length + 1)))) := by
        show (('[' : Char) :: '\n' :: (indentN (lvl + 1) ++ dumpsElems (lvl + 1) (x :: xs) ++
          '\n' :: (indentN lvl ++ [Char.ofNat 93]))).length = _
        simp [List.length_append]
        omega
      have h3 := size_le_len_elems x xs (lvl + 1)
      rw [h1, h2]
      omega
  | .jobj (p :: ps) =>
      have h1 : jvSizeV (.jobj (p :: ps)) = 1 + jvSizeP (p :: ps) := rfl
      have h2 : (dumpsVal lvl (.jobj (p :: ps))).length =
          2 + ((indentN (lvl + 1)).length + ((dumpsPairs (lvl + 1) (p :: ps)).length +
            (1 + ((indentN lvl).length + 1)))) := by
        show (('{' : Char) :: '\n' :: (indentN (lvl + 1) ++ dumpsPairs (lvl + 1) (p :: ps) ++
          '\n' :: (indentN lvl ++ [Char.ofNat 125]))).length = _
        simp [List.length_append]
        omega
      have h3 := size_le_len_pairs p ps (lvl + 1)
      rw [h1, h2]
      omega
termination_by sizeOf v
decreasing_by
  all_goals simp_wf
  all_goals try (rcases p with ⟨pk, pv⟩; simp only [Prod.mk.sizeOf_spec])
  all_goals omega

theorem size_le_len_elems (x : JValue) (xs : List JValue) (lvl : Nat) :
    jvSizeA (x :: xs) ≤ (dumpsElems lvl (x :: xs)).length + 1 := by
  match xs with
  | [] =>
      have h1 : jvSizeA [x] = 1 + jvSizeV x + 0 := rfl
      have h2 : dumpsElems lvl [x] = dumpsVal lvl x := rfl
      have h3 := size_le_len_val x lvl
      rw [h1, h2]
      omega
  | y :: ys =>
      have h1 : jvSizeA (x :: y :: ys) = 1 + jvSizeV x + jvSizeA (y :: ys) := rfl
      have h2 : (dumpsElems lvl (x :: y :: ys)).length =
          (dumpsVal lvl x).length + (2 + ((indentN lvl).length +
            (dumpsElems lvl (y :: ys)).length)) := by
        show (dumpsVal lvl x ++ ',' :: '\n' :: (indentN lvl ++
          dumpsElems lvl (y :: ys))).length = _
        simp [List.length_append]
        omega
      have h3 := size_le_len_val x lvl
      have h4 := size_le_len_elems y ys lvl
      rw [h1, h2]
      omega
termination_by sizeOf (x :: xs)
decreasing_by
  all_goals simp_wf
  all_goals try (rcases p with ⟨pk, pv⟩; simp only [Prod.mk.sizeOf_spec])
  all_goals omega

theorem size_le_len_pairs (p : Str × JValue) (ps : List (Str × JValue)) (lvl : Nat) :
    jvSizeP (p :: ps) ≤ (dumpsPairs lvl (p :: ps)).length + 1 := by
  match ps with
  | [] =>
      have h1 : jvSizeP [p] = 1 + jvSizeV p.2 + 0 := rfl
      have h2 : (dumpsPairs lvl [p]).length =
          (jsonQuote p.1).length + (2 + (dumpsVal lvl p.2).length) := by
        show ((jsonQuote p.1 ++ (':' :: (' ' :: dumpsVal lvl p.2))).length : Nat) = _
        simp [List.length_append]
        omega
      have h3 := size_le_len_val p.2 lvl
      have h4 : 2 ≤ (jsonQuote p.1).length := by
        unfold jsonQuote
        simp
      rw [h1, h2]
      omega
  | q :: qs =>
      have h1 : jvSizeP (p :: q :: qs) = 1 + jvSizeV p.2 + jvSizeP (q :: qs) := rfl
      have h2 : (dumpsPairs lvl (p :: q :: qs)).length =
          (jsonQuote p.1).length + (2 + ((dumpsVal lvl p.2).length +
            (2 + ((indentN lvl).length + (dumpsPairs lvl (q :: qs)).length)))) := by
        show ((jsonQuote p.1 ++ (':' :: (' ' :: dumpsVal lvl p.2)) ++
          (',' :: '\n' :: (indentN lvl ++ dumpsPairs lvl (q :: qs)))).length : Nat) = _
        simp [List.length_append]
        omega
      have h3 := size_le_len_val p.2 lvl
      have h4 := size_le_len_pairs q qs lvl
      rw [h1, h2]
      omega
termination_by sizeOf (p :: ps)
decreasing_by
  all_goals simp_wf
  all_goals try (rcases p with ⟨pk, pv⟩; simp only [Prod.mk.sizeOf_spec])
  all_goals omega

end

theorem loads_dumps (w : JValue) (hok : jvOkV w = true) :
    loads (dumpsVal 0 w) = .ok w := by
  obtain ⟨c0, t0, hhd, hws0, -, -⟩ := dumpsVal_head 0 w hok
  unfold loads
  rw [hhd, jsonWsDrop_nonws _ c0 hws0, ← hhd]
  dsimp only
  rw [show parseJVal (2 * (dumpsVal 0 w).length + 2) (dumpsVal 0 w) =
      parseJVal (2 * (dumpsVal 0 w).length + 2) (dumpsVal 0 w ++ []) from by
    rw [List.append_nil]]
  rw [rt_val w 0 (2 * (dumpsVal 0 w).length + 2) []
    (by have := size_le_len_val w 0; omega) hok trivial]
  rfl

theorem deepSortArr_jstr (xs : List Str) :
    deepSortArr (xs.map JValue.jstr) = xs.map JValue.jstr := by
  induction xs with
  | nil => rfl
  | cons x xs ih =>
      show deepSortKeys (JValue.jstr x) :: deepSortArr (xs.map JValue.jstr) = _
      rw [ih]
      rfl

theorem deepSort_item (it : ChecklistItem) :
    deepSortKeys (itemToJson it) = .jobj
      [(lit "description", .jstr it.description), (lit "id", .jint (it.id : Int)),
       (lit "status", .jstr it.status)] := rfl

theorem deepSort_progress (e : ProgressEntry) :
    deepSortKeys (progressToJson e) = .jobj
      [(lit "message", .jstr e.message),
       (lit "percent_complete", match e.percent_complete with
          | some p => JValue.jint p | none => JValue.jnull),
       (lit "timestamp", .jstr e.timestamp)] := by
  rcases e with ⟨ts, msg, pc⟩
  cases pc <;> rfl

theorem deepSort_reflection (r : Reflection) :
    deepSortKeys (reflectionToJson r) = .jobj
      [(lit "next_actions", .jarr (r.next_actions.map JValue.jstr)),
       (lit "risks", .jarr (r.risks.map JValue.jstr)),
       (lit "summary", .jstr r.summary),
       (lit "timestamp", .jstr r.timestamp)] := by
  rcases r with ⟨ts, sm, rk, na⟩
  show JValue.jobj (sortPairs (deepSortPairs
    [(lit "timestamp", .jstr ts), (lit "summary", .jstr sm),
     (lit "risks", .jarr (rk.map JValue.jstr)),
     (lit "next_actions", .jarr (na.map JValue.jstr))])) = _
  have h1 : deepSortPairs
      [(lit "timestamp", .jstr ts), (lit "summary", .jstr sm),
       (lit "risks", .jarr (rk.map JValue.jstr)),
       (lit "next_actions", .jarr (na.map JValue.jstr))] =
      [(lit "timestamp", .jstr ts), (lit "summary", .jstr sm),
       (lit "risks", .jarr (deepSortArr (rk.map JValue.jstr))),
       (lit "next_actions", .jarr (deepSortArr (na.map JValue.jstr)))] := rfl
  rw [h1, deepSortArr_jstr, deepSortArr_jstr]
  rfl

theorem deepSortArr_item (items : List ChecklistItem) :
    deepSortArr (items.map itemToJson) = items.map sortedItem := by
  induction items with
  | nil => rfl
  | cons it its ih =>
      show deepSortKeys (itemToJson it) :: deepSortArr (its.map itemToJson) = _
      rw [ih, deepSort_item]
      rfl

theorem deepSortArr_progress (es : List ProgressEntry) :
    deepSortArr (es.map progressToJson) = es.map sortedProgress := by
  induction es with
  | nil => rfl
  | cons e es ih =>
      show deepSortKeys (progressToJson e) :: deepSortArr (es.map progressToJson) = _
      rw [ih, deepSort_progress]
      rfl

theorem deepSortArr_reflection (rs : List Reflection) :
    deepSortArr (rs.map reflectionToJson) = rs.map sortedReflection := by
  induction rs with
  | nil => rfl
  | cons r rs ih =>
      show deepSortKeys (reflectionToJson r) :: deepSortArr (rs.map reflectionToJson) = _
      rw [ih, deepSort_reflection]
      rfl

theorem deepSort_state (s : PlanState) :
    deepSortKeys (stateToJson s) = .jobj (sortedStateKvs s) := by
  show JValue.jobj (sortPairs (deepSortPairs _)) = _
  have h1 : deepSortPairs
      [(lit "task", .jstr s.task),
       (lit "status", .jstr s.status),
       (lit "created_at", .jstr s.created_at),
       (lit "updated_at", .jstr s.updated_at),
       (lit "percent_complete", match s.percent_complete with
          | some p => JValue.jint p | none => JValue.jnull),
       (lit "steps", .jarr (s.steps.map itemToJson)),
       (lit "subgoals", .jarr (s.subgoals.map itemToJson)),
       (lit "progress_log", .jarr (s.progress_log.map progressToJson)),
       (lit "reflections", .jarr (s.reflections.map reflectionToJson))] =
      [(lit "task", .jstr s.task),
       (lit "status", .jstr s.status),
       (lit "created_at", .jstr s.created_at),
       (lit "updated_at", .jstr s.updated_at),
       (lit "percent_complete", deepSortKeys (match s.percent_complete with
          | some p => JValue.jint p | none => JValue.jnull)),
       (lit "steps", .jarr (deepSortArr (s.steps.map itemToJson))),
       (lit "subgoals", .jarr (deepSortArr (s.subgoals.map itemToJson))),
       (lit "progress_log", .jarr (deepSortArr (s.progress_log.map progressToJson))),
       (lit "reflections", .jarr (deepSortArr (s.reflections.map reflectionToJson)))] := rfl
  have h2 : deepSortKeys (match s.percent_complete with
      | some p => JValue.jint p | none => JValue.jnull) =
      (match s.percent_complete with
      | some p => JValue.jint p | none => JValue.jnull) := by
    cases s.percent_complete <;> rfl
  rw [h1, h2, deepSortArr_item, deepSortArr_item, deepSortArr_progress,
    deepSortArr_reflection]
  rfl

theorem jvOk_sortedItem (it : ChecklistItem) : jvOkV (sortedItem it) = true := rfl

theorem jvOk_sortedProgress (e : ProgressEntry) : jvOkV (sortedProgress e) = true := by
  rcases e with ⟨ts, msg, pc⟩
  cases pc <;> rfl

theorem jvOkA_jstr (xs : List Str) : jvOkA (xs.map JValue.jstr) = true := by
  induction xs with
  | nil => rfl
  | cons x xs ih =>
      show (jvOkV (JValue.jstr x) && jvOkA (xs.map JValue.jstr)) = true
      rw [ih]
      rfl

theorem jvOk_sortedReflection (r : Reflection) : jvOkV (sortedReflection r) = true := by
  show (keysFresh ([(lit "next_actions", JValue.jarr (r.next_actions.map JValue.jstr)),
      (lit "risks", JValue.jarr (r.risks.map JValue.jstr)),
      (lit "summary", JValue.jstr r.summary),
      (lit "timestamp", JValue.jstr r.timestamp)].map Prod.fst) &&
    jvOkP [(lit "next_actions", JValue.jarr (r.next_actions.map JValue.jstr)),
      (lit "risks", JValue.jarr (r.risks.map JValue.jstr)),
      (lit "summary", JValue.jstr r.summary),
      (lit "timestamp", JValue.jstr r.timestamp)]) = true
  rw [Bool.and_eq_true]
  refine ⟨rfl, ?_⟩
  show (jvOkV (.jarr (r.next_actions.map JValue.jstr)) && _) = true
  rw [Bool.and_eq_true]
  refine ⟨jvOkA_jstr _, ?_⟩
  show (jvOkV (.jarr (r.risks.map JValue.jstr)) && _) = true
  rw [Bool.and_eq_true]
  exact ⟨jvOkA_jstr _, rfl⟩

theorem jvOkA_map_of (f : α → JValue) (h : ∀ a, jvOkV (f a) = true) (xs : List α) :
    jvOkA (xs.map f) = true := by
  induction xs with
  | nil => rfl
  | cons x xs ih =>
      show (jvOkV (f x) && jvOkA (xs.map f)) = true
      rw [h x, ih]
      rfl

theorem jvOk_sorted_state (s : PlanState) : jvOkV (.jobj (sortedStateKvs s)) = true := by
  show (keysFresh ((sortedStateKvs s).map Prod.fst) && jvOkP (sortedStateKvs s)) = true
  rw [Bool.and_eq_true]
  refine ⟨rfl, ?_⟩
  show (jvOkV (.jstr s.created_at) && _) = true
  rw [Bool.and_eq_true]
  refine ⟨rfl, ?_⟩
  show (jvOkV (match s.percent_complete with
    | some p => JValue.jint p | none => JValue.jnull) && _) = true
  rw [Bool.and_eq_true]
  refine ⟨by cases s.percent_complete <;> rfl, ?_⟩
  show (jvOkV (.jarr (s.progress_log.map sortedProgress)) && _) = true
  rw [Bool.and_eq_true]
  refine ⟨jvOkA_map_of _ jvOk_sortedProgress _, ?_⟩
  show (jvOkV (.jarr (s.reflections.map sortedReflection)) && _) = true
  rw [Bool.and_eq_true]
  refine ⟨jvOkA_map_of _ jvOk_sortedReflection _, ?_⟩
  show (jvOkV (.jstr s.status) && _) = true
  rw [Bool.and_eq_true]
  refine ⟨rfl, ?_⟩
  show (jvOkV (.jarr (s.steps.map sortedItem)) && _) = true
  rw [Bool.and_eq_true]
  refine ⟨jvOkA_map_of _ jvOk_sortedItem _, ?_⟩
  show (jvOkV (.jarr (s.subgoals.map sortedItem)) && _) = true
  rw [Bool.and_eq_true]
  refine ⟨jvOkA_map_of _ jvOk_sortedItem _, ?_⟩
  rfl

theorem isEmpty_false_of_ne (x : Str) (h : x ≠ []) : x.isEmpty = false := by
  cases x with
  | nil => exact absurd rfl h
  | cons c cs => rfl

theorem valid_status_clean (st : Str) (h : st ∈ VALID_STATUSES) :
    pyStrip st = st ∧ st.isEmpty = false := by
  rcases List.mem_cons.mp h with rfl | h
  · exact ⟨by decide, by decide⟩
  rcases List.mem_cons.mp h with rfl | h
  · exact ⟨by decide, by decide⟩
  rcases List.mem_cons.mp h with rfl | h
  · exact ⟨by decide, by decide⟩
  rcases List.mem_cons.mp h with rfl | h
  · exact ⟨by decide, by decide⟩
  exact absurd h (List.not_mem_nil st)

theorem normStrsGo_id (l : List Str) : ∀ seen : List Str,
    (∀ x ∈ l, pyStrip x = x ∧ x ≠ [] ∧ seen.contains x = false) → l.Nodup →
    normStrsGo seen l = l := by
  induction l with
  | nil => intro seen _ _; rfl
  | cons x xs ih =>
      intro seen hcl hnd
      obtain ⟨hstrip, hne, hseen⟩ := hcl x (List.mem_cons_self _ _)
      unfold normStrsGo
      dsimp only
      rw [hstrip, if_neg (by
        rw [isEmpty_false_of_ne x hne, hseen]
        simp)]
      rw [List.nodup_cons] at hnd
      rw [ih (x :: seen) (by
        intro y hy
        obtain ⟨h1, h2, h3⟩ := hcl y (List.mem_cons_of_mem _ hy)
        refine ⟨h1, h2, ?_⟩
        have hyx : ¬ y = x := fun hh => hnd.1 (hh ▸ hy)
        have hymem : ¬ y ∈ x :: seen := by
          intro hm
          rcases List.mem_cons.mp hm with rfl | hm
          · exact hyx rfl
          · rw [show (seen.contains y) = true from by simpa using hm] at h3
            exact Bool.noConfusion h3
        simpa using hymem) hnd.2]

theorem normStrs_id (l : List Str) (hcl : ∀ x ∈ l, CleanStr x) (hnd : l.Nodup) :
    normStrs l = l :=
  normStrsGo_id l [] (fun x hx => ⟨(hcl x hx).2, (hcl x hx).1, rfl⟩) hnd

theorem enumItems_id (items : List ChecklistItem) : ∀ i : Nat,
    items.map (fun it => it.id) = List.range' i items.length →
    enumItems i (items.map (fun it => (it.description, it.status))) = items := by
  induction items with
  | nil => intro i _; rfl
  | cons it its ih =>
      intro i hids
      rw [List.map_cons, List.length_cons, List.range'_succ] at hids
      have h1 : it.id = i := (List.cons.injEq _ _ _ _).mp hids |>.1
      have h2 := (List.cons.injEq _ _ _ _).mp hids |>.2
      show (⟨i, it.description, it.status⟩ : ChecklistItem) ::
        enumItems (i + 1) (its.map (fun it => (it.description, it.status))) = _
      rw [ih (i + 1) h2]
      rcases it with ⟨iid, d, st⟩
      cases h1
      rfl

theorem coerceItemRaw_sorted (it : ChecklistItem) (hcl : CleanStr it.description)
    (hst : it.status ∈ VALID_STATUSES) :
    coerceItemRaw (sortedItem it) = some (it.description, it.status) := by
  have hstrip := hcl.2
  have hne := hcl.1
  obtain ⟨hstst, -⟩ := valid_status_clean it.status hst
  unfold coerceItemRaw sortedItem
  dsimp only
  rw [show jGetD [(lit "description", JValue.jstr it.description),
      (lit "id", JValue.jint (it.id : Int)),
      (lit "status", JValue.jstr it.status)] (lit "description") (.jstr []) =
      JValue.jstr it.description from rfl]
  rw [show jGetD [(lit "description", JValue.jstr it.description),
      (lit "id", JValue.jint (it.id : Int)),
      (lit "status", JValue.jstr it.status)] (lit "status") (.jstr (lit "pending")) =
      JValue.jstr it.status from rfl]
  rw [show pyStr (JValue.jstr it.description) = it.description from rfl,
    show pyStr (JValue.jstr it.status) = it.status from rfl,
    hstrip, hstst, isEmpty_false_of_ne _ hne]
  simp only [Bool.false_eq_true, if_false]
  rw [if_pos (show VALID_STATUSES.contains it.status = true from by simpa using hst)]

theorem coerceProgress_sorted (now : Str) (e : ProgressEntry)
    (hm : CleanStr e.message) (ht : CleanStr e.timestamp) :
    coerceProgressEntry now (sortedProgress e) = some e := by
  unfold coerceProgressEntry sortedProgress
  dsimp only
  rw [show jGetD [(lit "message", JValue.jstr e.message),
      (lit "percent_complete", match e.percent_complete with
        | some p => JValue.jint p | none => JValue.jnull),
      (lit "timestamp", JValue.jstr e.timestamp)] (lit "message") (.jstr []) =
      JValue.jstr e.message from rfl]
  rw [show jGetD [(lit "message", JValue.jstr e.message),
      (lit "percent_complete", match e.percent_complete with
        | some p => JValue.jint p | none => JValue.jnull),
      (lit "timestamp", JValue.jstr e.timestamp)] (lit "timestamp") (.jstr []) =
      JValue.jstr e.timestamp from rfl]
  rw [show jGet [(lit "message", JValue.jstr e.message),
      (lit "percent_complete", match e.percent_complete with
        | some p => JValue.jint p | none => JValue.jnull),
      (lit "timestamp", JValue.jstr e.timestamp)] (lit "percent_complete") =
      some (match e.percent_complete with
        | some p => JValue.jint p | none => JValue.jnull) from rfl]
  rw [show pyStr (JValue.jstr e.message) = e.message from rfl,
    show pyStr (JValue.jstr e.timestamp) = e.timestamp from rfl,
    hm.2, ht.2, isEmpty_false_of_ne _ hm.1, isEmpty_false_of_ne _ ht.1]
  simp only [Bool.false_eq_true, if_false]
  have hpc : asPyInt (some (match e.percent_complete with
      | some p => JValue.jint p | none => JValue.jnull)) = e.percent_complete := by
    cases e.percent_complete <;> rfl
  rw [hpc]

theorem map_pyStr_jstr (l : List Str) : (l.map JValue.jstr).map pyStr = l := by
  induction l with
  | nil => rfl
  | cons a as ih =>
      rw [List.map_cons, List.map_cons, ih]
      rfl

theorem coerceRefl_sorted (now : Str) (rs : List Reflection)
    (h : ∀ r ∈ rs, CleanStr r.summary ∧ CleanStr r.timestamp ∧
      r.risks.Nodup ∧ (∀ x ∈ r.risks, CleanStr x) ∧
      r.next_actions.Nodup ∧ (∀ x ∈ r.next_actions, CleanStr x)) :
    coerceReflList now (rs.map sortedReflection) = .ok rs := by
  induction rs with
  | nil => rfl
  | cons r rs ih =>
      obtain ⟨hsm, hts, hrnd, hrcl, hand, hacl⟩ := h r (List.mem_cons_self _ _)
      rw [List.map_cons]
      generalize hT : List.map sortedReflection rs = T
      unfold coerceReflList sortedReflection
      dsimp only
      rw [show jGetD [(lit "next_actions", JValue.jarr (r.next_actions.map JValue.jstr)),
          (lit "risks", JValue.jarr (r.risks.map JValue.jstr)),
          (lit "summary", JValue.jstr r.summary),
          (lit "timestamp", JValue.jstr r.timestamp)] (lit "summary") (.jstr []) =
          JValue.jstr r.summary from rfl]
      rw [show jGetD [(lit "next_actions", JValue.jarr (r.next_actions.map JValue.jstr)),
          (lit "risks", JValue.jarr (r.risks.map JValue.jstr)),
          (lit "summary", JValue.jstr r.summary),
          (lit "timestamp", JValue.jstr r.timestamp)] (lit "timestamp") (.jstr []) =
          JValue.jstr r.timestamp from rfl]
      rw [show jGetD [(lit "next_actions", JValue.jarr (r.next_actions.map JValue.jstr)),
          (lit "risks", JValue.jarr (r.risks.map JValue.jstr)),
          (lit "summary", JValue.jstr r.summary),
          (lit "timestamp", JValue.jstr r.timestamp)] (lit "risks") .jnull =
          JValue.jarr (r.risks.map JValue.jstr) from rfl]
      rw [show jGetD [(lit "next_actions", JValue.jarr (r.next_actions.map JValue.jstr)),
          (lit "risks", JValue.jarr (r.risks.map JValue.jstr)),
          (lit "summary", JValue.jstr r.summary),
          (lit "timestamp", JValue.jstr r.timestamp)] (lit "next_actions") .jnull =
          JValue.jarr (r.next_actions.map JValue.jstr) from rfl]
      rw [show pyStr (JValue.jstr r.summary) = r.summary from rfl,
        show pyStr (JValue.jstr r.timestamp) = r.timestamp from rfl,
        hsm.2, hts.2, isEmpty_false_of_ne _ hsm.1, isEmpty_false_of_ne _ hts.1]
      simp only [Bool.false_eq_true, if_false]
      have hnorm : ∀ (l : List Str), l.Nodup → (∀ x ∈ l, CleanStr x) →
          normalize_text_items (JValue.jarr (l.map JValue.jstr)) = .ok l := by
        intro l hnd hcl
        unfold normalize_text_items
        cases l with
        | nil => rfl
        | cons a as =>
            rw [if_neg (by
              show ¬ (truthy (JValue.jarr ((a :: as).map JValue.jstr)) = false)
              simp [truthy])]
            show Except.ok (normStrs (((a :: as).map JValue.jstr).map pyStr)) = _
            rw [map_pyStr_jstr, normStrs_id _ hcl hnd]
      rw [hnorm r.risks hrnd hrcl]
      try dsimp only
      rw [hnorm r.next_actions hand hacl]
      try dsimp only
      rw [show coerceReflList now T = Except.ok rs from by
        rw [← hT]
        exact ih (fun q hq => h q (List.mem_cons_of_mem _ hq))]
      rfl

theorem filterMap_sorted_items (items : List ChecklistItem)
    (h : ∀ it ∈ items, CleanStr it.description ∧ it.status ∈ VALID_STATUSES) :
    (items.map sortedItem).filterMap coerceItemRaw =
      items.map (fun it => (it.description, it.status)) := by
  induction items with
  | nil => rfl
  | cons it its ih =>
      rw [List.map_cons, List.filterMap_cons,
        coerceItemRaw_sorted it (h it (List.mem_cons_self _ _)).1
          (h it (List.mem_cons_self _ _)).2,
        ih (fun q hq => h q (List.mem_cons_of_mem _ hq)), List.map_cons]

theorem coerce_items_sorted (items : List ChecklistItem) (hWF : ItemsWF items) :
    coerce_item_list (.jarr (items.map sortedItem)) = items := by
  unfold coerce_item_list
  dsimp only
  rw [filterMap_sorted_items items hWF.2, enumItems_id items 1 (by
    have := hWF.1
    simpa using this)]

theorem filterMap_sorted_progress (now : Str) (es : List ProgressEntry)
    (h : ∀ e ∈ es, CleanStr e.message ∧ CleanStr e.timestamp) :
    (es.map sortedProgress).filterMap (coerceProgressEntry now) = es := by
  induction es with
  | nil => rfl
  | cons e es ih =>
      rw [List.map_cons, List.filterMap_cons,
        coerceProgress_sorted now e (h e (List.mem_cons_self _ _)).1
          (h e (List.mem_cons_self _ _)).2,
        ih (fun q hq => h q (List.mem_cons_of_mem _ hq))]

theorem coerce_sorted_state (now : Str) (s : PlanState) (hwf : WellFormed s) :
    coerce_state now (sortedStateKvs s) = .ok s := by
  obtain ⟨hst, htask, hcr, hup, hpc, hsteps, hsub, hpl, hrefl⟩ := hwf
  have hststrip : pyStrip s.status = s.status := by
    rcases hst with h | h <;> rw [h] <;> decide
  have hstne : s.status ≠ [] := by
    rcases hst with h | h <;> rw [h] <;> decide
  unfold coerce_state
  rw [show jGetD (sortedStateKvs s) (lit "created_at") (.jstr []) =
        JValue.jstr s.created_at from rfl,
      show jGetD (sortedStateKvs s) (lit "updated_at") (.jstr []) =
        JValue.jstr s.updated_at from rfl,
      show jGetD (sortedStateKvs s) (lit "status") (.jstr (lit "active")) =
        JValue.jstr s.status from rfl,
      show jGet (sortedStateKvs s) (lit "percent_complete") =
        some (match s.percent_complete with
          | some p => JValue.jint p | none => JValue.jnull) from rfl,
      show jGetD (sortedStateKvs s) (lit "reflections") .jnull =
        JValue.jarr (s.reflections.map sortedReflection) from rfl,
      show jGetD (sortedStateKvs s) (lit "task") (.jstr []) =
        JValue.jstr s.task from rfl,
      show jGetD (sortedStateKvs s) (lit "steps") .jnull =
        JValue.jarr (s.steps.map sortedItem) from rfl,
      show jGetD (sortedStateKvs s) (lit "subgoals") .jnull =
        JValue.jarr (s.subgoals.map sortedItem) from rfl,
      show jGetD (sortedStateKvs s) (lit "progress_log") .jnull =
        JValue.jarr (s.progress_log.map sortedProgress) from rfl]
  dsimp only
  rw [show pyStr (JValue.jstr s.created_at) = s.created_at from rfl,
      show pyStr (JValue.jstr s.updated_at) = s.updated_at from rfl,
      show pyStr (JValue.jstr s.status) = s.status from rfl,
      show pyStr (JValue.jstr s.task) = s.task from rfl,
      hcr.2, hup.2, hststrip, htask,
      isEmpty_false_of_ne _ hcr.1, isEmpty_false_of_ne _ hup.1,
      isEmpty_false_of_ne _ hstne]
  simp only [Bool.false_eq_true, if_false]
  rw [if_pos hst]
  rw [show coerce_reflections now (JValue.jarr (s.reflections.map sortedReflection)) =
    coerceReflList now (s.reflections.map sortedReflection) from rfl]
  rw [coerceRefl_sorted now s.reflections hrefl]
  show Except.ok _ = Except.ok s
  rw [coerce_items_sorted _ hsteps, coerce_items_sorted _ hsub]
  rw [show coerce_progress now (JValue.jarr (s.progress_log.map sortedProgress)) =
    (s.progress_log.map sortedProgress).filterMap (coerceProgressEntry now) from rfl]
  rw [filterMap_sorted_progress now _ hpl]
  rcases hpv : s.percent_complete with _ | p
  · rw [show (match asPyInt (some (match (none : Option Int) with
        | some p => JValue.jint p | none => JValue.jnull)) with
        | some n => if n < 0 ∨ 100 < n then none else some n
        | none => (none : Option Int)) = none from rfl]
    rw [← hpv]
  · rw [show asPyInt (some (match (some p : Option Int) with
        | some p => JValue.jint p | none => JValue.jnull)) = some p from rfl]
    rw [hpv] at hpc
    have hpc2 : 0 ≤ p ∧ p ≤ 100 := hpc
    rw [show (match some p with
        | some n => if n < 0 ∨ 100 < n then none else some n
        | none => (none : Option Int)) =
      (if p < 0 ∨ 100 < p then none else some p) from rfl]
    rw [if_neg (by omega)]
    rw [← hpv]

theorem startsWithL_self (p X : Str) : startsWithL p (p ++ X) = true := by
  induction p with
  | nil => rfl
  | cons c cs ih =>
      show ((c == c) && startsWithL cs (cs ++ X)) = true
      rw [beq_self_eq_true, ih, Bool.and_self]

theorem occCount_le_append (pat A B : Str) :
    occCount pat B ≤ occCount pat (A ++ B) := by
  induction A with
  | nil => exact le_refl _
  | cons a as ih =>
      show occCount pat B ≤
        (if startsWithL pat (a :: (as ++ B)) then 1 else 0) + occCount pat (as ++ B)
      split <;> omega

theorem occCount_pos (pat X : Str) (hp : pat ≠ []) :
    1 ≤ occCount pat (pat ++ X) := by
  cases pat with
  | nil => exact absurd rfl hp
  | cons c cs =>
      show 1 ≤ (if startsWithL (c :: cs) ((c :: cs) ++ X) then 1 else 0) + _
      rw [if_pos (startsWithL_self _ _)]
      omega

theorem searchBlock_append (A B : Str)
    (h : occCount STATE_START (A ++ B) = occCount STATE_START B) :
    searchBlock (A ++ B) = searchBlock B := by
  induction A with
  | nil => rfl
  | cons a as ih =>
      have hocc : occCount STATE_START ((a :: as) ++ B) =
          (if startsWithL STATE_START (a :: (as ++ B)) then 1 else 0) +
            occCount STATE_START (as ++ B) := rfl
      have hmono := occCount_le_append STATE_START as B
      have hnostart : startsWithL STATE_START (a :: (as ++ B)) = false := by
        by_contra hT
        rw [Bool.not_eq_false] at hT
        rw [hocc, if_pos hT] at h
        omega
      show searchBlock (a :: (as ++ B)) = _
      conv_lhs => unfold searchBlock
      rw [show matchBlockAt (a :: (as ++ B)) = none from by
        unfold matchBlockAt
        rw [hnostart]
        simp]
      show searchBlock (as ++ B) = searchBlock B
      exact ih (by rw [hocc, hnostart] at h; simpa using h)

theorem lastCloseFrom_no (T : Str) (h : ∀ c ∈ T, ¬ c = Char.ofNat 125) :
    ∀ i, lastCloseFrom T i = none := by
  induction T with
  | nil => intro i; rfl
  | cons c rest ih =>
      intro i
      unfold lastCloseFrom
      rw [ih (fun x hx => h x (List.mem_cons_of_mem _ hx)) (i + 1)]
      rw [beq_eq_false_iff_ne.mpr (h c (List.mem_cons_self _ _)), Bool.false_and]
      rfl

theorem lastCloseFrom_last (ds : Str) (T : Str)
    (hT : tailMatchOk T = true) (hTno : ∀ c ∈ T, ¬ c = Char.ofNat 125) :
    ∀ i, lastCloseFrom ((ds ++ [Char.ofNat 125]) ++ T) i = some (i + ds.length) := by
  induction ds with
  | nil =>
      intro i
      show lastCloseFrom (Char.ofNat 125 :: T) i = _
      unfold lastCloseFrom
      rw [lastCloseFrom_no T hTno (i + 1)]
      rw [show ((Char.ofNat 125 == Char.ofNat 125) && tailMatchOk T) = true from by
        rw [hT, beq_self_eq_true, Bool.and_self]]
      rw [if_pos rfl]
      rfl
  | cons d dss ih =>
      intro i
      show lastCloseFrom (d :: ((dss ++ [Char.ofNat 125]) ++ T)) i = _
      unfold lastCloseFrom
      rw [ih (i + 1)]
      show some (i + 1 + dss.length) = some (i + (dss.length + 1))
      congr 1
      omega

theorem joinSep_suffix (sep : Str) (ys : List Str) (hys : ys ≠ []) :
    ∀ xs : List Str, ∃ A, joinSep sep (xs ++ ys) = A ++ joinSep sep ys := by
  intro xs
  induction xs with
  | nil => exact ⟨[], rfl⟩
  | cons x xs ih =>
      obtain ⟨A, hA⟩ := ih
      cases hxy : xs ++ ys with
      | nil =>
          exact absurd (List.append_eq_nil.mp hxy).2 hys
      | cons z zs =>
          refine ⟨x ++ sep ++ A, ?_⟩
          show joinSep sep (x :: (xs ++ ys)) = _
          rw [hxy]
          show x ++ sep ++ joinSep sep (z :: zs) = _
          rw [← hxy, hA]
          simp [List.append_assoc]

theorem matchBlockAt_footer (D0 : Str) :
    matchBlockAt (STATE_START ++ stateTail (('{' :: D0) ++ [Char.ofNat 125])) =
      some (('{' :: D0) ++ [Char.ofNat 125]) := by
  unfold matchBlockAt
  rw [startsWithL_self, if_pos rfl, List.drop_left]
  have e1 : (stateTail (('{' :: D0) ++ [Char.ofNat 125])).dropWhile isPyWs =
      lit "```json" ++ ('\n' :: ((('{' :: D0) ++ [Char.ofNat 125]) ++ fenceClose)) := rfl
  rw [e1]
  dsimp only
  rw [startsWithL_self, if_pos rfl]
  have e2 : ((lit "```json" ++
      ('\n' :: ((('{' :: D0) ++ [Char.ofNat 125]) ++ fenceClose))).drop 7).dropWhile
      isPyWs = (('{' :: D0) ++ [Char.ofNat 125]) ++ fenceClose := by
    rw [show (7 : Nat) = (lit "```json").length from rfl, List.drop_left]
    rfl
  rw [e2]
  rw [show ((('{' :: D0) ++ [Char.ofNat 125]) ++ fenceClose : Str) =
    '{' :: ((D0 ++ [Char.ofNat 125]) ++ fenceClose) from by simp]
  show (match lastCloseFrom ('{' :: ((D0 ++ [Char.ofNat 125]) ++ fenceClose)) 0 with
    | some k => some (List.take (k + 1) ('{' :: ((D0 ++ [Char.ofNat 125]) ++ fenceClose)))
    | none => none) = some (('{' :: D0) ++ [Char.ofNat 125])
  rw [show ('{' :: ((D0 ++ [Char.ofNat 125]) ++ fenceClose) : Str) =
    (('{' :: D0) ++ [Char.ofNat 125]) ++ fenceClose from by simp]
  rw [lastCloseFrom_last ('{' :: D0) fenceClose (by decide) (by decide) 0]
  try dsimp only
  rw [show (0 + ('{' :: D0).length + 1 : Nat) =
    (('{' :: D0) ++ [Char.ofNat 125]).length from by simp]
  rw [List.take_left]

theorem serialize_decompose (s : PlanState) :
    ∃ A, serialize_markdown s =
      A ++ (STATE_START ++ stateTail (dumps (stateToJson s))) := by
  have hjoin : joinSep ['\n'] [STATE_START, lit "```json", dumps (stateToJson s),
      lit "```", STATE_END, []] =
      STATE_START ++ stateTail (dumps (stateToJson s)) := by
    simp [joinSep, stateTail, fenceClose, List.append_assoc]
  obtain ⟨A, hA⟩ := joinSep_suffix ['\n']
    [STATE_START, lit "```json", dumps (stateToJson s), lit "```", STATE_END, []]
    (by simp)
    [lit "# Agent Plan", [], lit "## Summary",
     lit "- Task: " ++ s.task,
     lit "- Status: " ++ s.status,
     lit "- Progress: " ++ (match s.percent_complete with
        | some p => intDec p ++ ['%']
        | none => lit "n/a"),
     lit "- Created (UTC): " ++ s.created_at,
     lit "- Updated (UTC): " ++ s.updated_at,
     [], lit "## Steps", format_items s.steps,
     [], lit "## Subgoals", format_items s.subgoals,
     [], lit "## Progress Log", format_progress s.progress_log,
     [], lit "## Reflections", format_reflections s.reflections,
     [], lit "---"]
  exact ⟨A, by
    rw [show serialize_markdown s = joinSep ['\n']
      ([lit "# Agent Plan", [], lit "## Summary",
        lit "- Task: " ++ s.task,
        lit "- Status: " ++ s.status,
        lit "- Progress: " ++ (match s.percent_complete with
           | some p => intDec p ++ ['%']
           | none => lit "n/a"),
        lit "- Created (UTC): " ++ s.created_at,
        lit "- Updated (UTC): " ++ s.updated_at,
        [], lit "## Steps", format_items s.steps,
        [], lit "## Subgoals", format_items s.subgoals,
        [], lit "## Progress Log", format_progress s.progress_log,
        [], lit "## Reflections", format_reflections s.reflections,
        [], lit "---"] ++
       [STATE_START, lit "```json", dumps (stateToJson s), lit "```", STATE_END, []])
      from rfl, hA, hjoin]⟩

theorem dumps_state_form (s : PlanState) :
    dumps (stateToJson s) =
      ('{' :: ('\n' :: (indentN 1 ++ (dumpsPairs 1 (sortedStateKvs s) ++ ['\n'])))) ++
        [Char.ofNat 125] := by
  show dumpsVal 0 (deepSortKeys (stateToJson s)) = _
  rw [deepSort_state]
  show ('{' :: '\n' :: (indentN 1 ++ dumpsPairs 1 (sortedStateKvs s) ++
    '\n' :: (indentN 0 ++ [Char.ofNat 125]))) = _
  have h0 : indentN 0 = [] := rfl
  rw [h0]
  simp [List.append_assoc]

theorem searchBlock_serialize (s : PlanState)
    (h1 : occCount STATE_START (serialize_markdown s) = 1) :
    searchBlock (serialize_markdown s) = some (dumps (stateToJson s)) := by
  obtain ⟨A, hA⟩ := serialize_decompose s
  rw [hA]
  rw [searchBlock_append A (STATE_START ++ stateTail (dumps (stateToJson s))) (by
    have hle := occCount_le_append STATE_START A
      (STATE_START ++ stateTail (dumps (stateToJson s)))
    have hpos : 1 ≤ occCount STATE_START
        (STATE_START ++ stateTail (dumps (stateToJson s))) :=
      occCount_pos _ _ (by decide)
    rw [hA] at h1
    omega)]
  have hmb : matchBlockAt (STATE_START ++ stateTail (dumps (stateToJson s))) =
      some (dumps (stateToJson s)) := by
    rw [dumps_state_form]
    exact matchBlockAt_footer _
  show searchBlock ('<' ::
    (lit "!-- PLAN_STATE_JSON_START -->" ++ stateTail (dumps (stateToJson s)))) = _
  conv_lhs => unfold searchBlock
  rw [show matchBlockAt ('<' ::
      (lit "!-- PLAN_STATE_JSON_START -->" ++ stateTail (dumps (stateToJson s)))) =
    some (dumps (stateToJson s)) from hmb]

theorem roundtrip_core (now : Str) (s : PlanState) (hwf : WellFormed s)
    (h1 : occCount STATE_START (serialize_markdown s) = 1) :
    load_state_from_markdown now (serialize_markdown s) = .ok (.ok s) := by
  unfold load_state_from_markdown
  rw [searchBlock_serialize s h1]
  rw [show dumps (stateToJson s) = dumpsVal 0 (.jobj (sortedStateKvs s)) from by
    unfold dumps
    rw [deepSort_state]]
  show (match loads (dumpsVal 0 (.jobj (sortedStateKvs s))) with
      | Except.error e =>
          Except.ok (Except.error (lit "Plan file contains invalid JSON state: " ++ e))
      | Except.ok (JValue.jobj kvs) => Except.map Except.ok (coerce_state now kvs)
      | Except.ok _ => Except.ok (Except.error (lit "Plan state must be a JSON object"))) =
    Except.ok (Except.ok s)
  rw [loads_dumps (.jobj (sortedStateKvs s)) (jvOk_sorted_state s)]
  show Except.map Except.ok (coerce_state now (sortedStateKvs s)) = Except.ok (Except.ok s)
  rw [coerce_sorted_state now s hwf]
  rfl

set_option maxRecDepth 8000 in
/-- C2: for every plan state in the image of the state coercer whose
serialized document contains the JSON-block start marker exactly once,
serializing to markdown and loading the document back recovers the state
exactly, in every field. -/
theorem C2_roundtrip (now : Str) (s : PlanState) (hwf : WellFormed s)
    (h1 : occCount STATE_START (serialize_markdown s) = 1) :
    load_state_from_markdown now (serialize_markdown s) = .ok (.ok s) :=
  roundtrip_core now s hwf h1

set_option maxRecDepth 40000 in
/-- C2 counterexample: a state whose task text itself contains the embedded
JSON-block markers is producible by the state coercer, yet loading its
serialized document fails with an `Extra data` JSON error instead of
returning the state: the greedy block regex captures from the first marker
in the prose through the real block's closing brace. -/
theorem C2_counterexample :
    coerce_state (lit "T") [(lit "task", JValue.jstr advTask)] = .ok advState ∧
    load_state_from_markdown (lit "T") (serialize_markdown advState) =
      .ok (.error (lit "Plan file contains invalid JSON state: Extra data")) := by
  constructor
  · decide
  · decide

set_option maxRecDepth 40000 in
/-- C2 witness: the round-trip theorem applied to a concrete one-step plan. -/
theorem C2_witness :
    load_state_from_markdown (lit "T") (serialize_markdown c2Plan) =
      .ok (.ok c2Plan) :=
  C2_roundtrip (lit "T") c2Plan (by decide) (by decide)

end Plans
